import Mathlib

/-!
# Snake board simulation (`projects/proj1/src/game.c`)

A shallow embedding of the board store, the glyph helpers, the per-tick update
(`update_game`), the text loader (`read_line`, `load_board`) and the
reconstruction of the snake records (`find_head`, `initialize_snakes`) of
`game.c`, followed by theorems about them.

Conventions of the embedding

* A C `char` is a `Char`; a row `char *` is the list of the characters of the
  string, terminator excluded (so the length of the list is `strlen`).
* `unsigned int` coordinates are `Nat`, with `% 2 ^ 32` where the C code adds or
  subtracts.
* The embedding follows an access `board[row][col]` only when it falls on one
  of the characters of a row's string. For any other access it returns `none`,
  and every caller propagates `none`: this covers the bytes outside the row's
  buffer, where C defines no result, and also the terminator of the row, which
  C can read and overwrite but whose overwriting leaves a row that is no longer
  a string.
* Allocation (`calloc`, `malloc`, `realloc`) is taken to succeed. A `size_t` has
  64 bits and an `int` 32 bits; the conversion `(int)` of a value that does not
  fit keeps the low 32 bits in two's complement.
* A loop that may run for ever (`find_head`) takes a bound `fuel` on its
  iterations and reports when the bound is reached.
-/

namespace Snake

/-! ## Data model -/

/-- Modelled from the spec: the snake record of `game.h` (the header is not part
of the sources at hand): tail position, head position, alive flag. -/
structure snake_t where
  tail_row : Nat
  tail_col : Nat
  head_row : Nat
  head_col : Nat
  live : Bool
deriving DecidableEq, Repr

/-- Modelled from the spec: the game structure of `game.h`: the grid, one string
per row, and the snake records. `num_rows` and `num_snakes` are the lengths of
the two lists. -/
structure game_t where
  board : List (List Char)
  snakes : List snake_t
deriving DecidableEq, Repr

/-- Field `num_rows` of the game structure. -/
def game_t.num_rows (game : game_t) : Nat := game.board.length

/-- Field `num_snakes` of the game structure. -/
def game_t.num_snakes (game : game_t) : Nat := game.snakes.length

def WALL_CHAR : Char := '#'
def EMPTY_CHAR : Char := ' '
def FRUIT_CHAR : Char := '*'
def TAIL_UP : Char := 'w'
def TAIL_LEFT : Char := 'a'
def TAIL_DOWN : Char := 's'
def TAIL_RIGHT : Char := 'd'
def BODY_UP : Char := '^'
def BODY_LEFT : Char := '<'
def BODY_DOWN : Char := 'v'
def BODY_RIGHT : Char := '>'
def HEAD_UP : Char := 'W'
def HEAD_LEFT : Char := 'A'
def HEAD_DOWN : Char := 'S'
def HEAD_RIGHT : Char := 'D'
def DEAD_SNAKE : Char := 'x'

/-- The line terminator of a row. -/
def LF : Char := Char.ofNat 10

/-- The string terminator. -/
def NUL : Char := Char.ofNat 0

def INITIAL_BUFFER_SIZE : Nat := 128
def GROWTH_FACTOR : Nat := 2

/-! ## Board store -/

/-- `get_board_at`: the character `board[row][col]`, for a position on one of
the characters of the string of row `row`; `none` for any other position (the
terminator of the row included), which the embedding does not follow. -/
def get_board_at (game : game_t) (row col : Nat) : Option Char :=
  match game.board[row]? with
  | none => none
  | some r => r[col]?

/-- `set_board_at`: the assignment `board[row][col] = ch`, for a position on one
of the characters of the string of row `row`; `none` for any other position (the
terminator of the row included), which the embedding does not follow. -/
def set_board_at (game : game_t) (row col : Nat) (ch : Char) : Option game_t :=
  match game.board[row]? with
  | none => none
  | some r =>
    if col < r.length then
      some { game with board := game.board.set row (r.set col ch) }
    else none

/-! ## Glyph helpers -/

def is_tail (c : Char) : Bool :=
  c == TAIL_LEFT || c == TAIL_RIGHT || c == TAIL_UP || c == TAIL_DOWN

def is_head (c : Char) : Bool :=
  c == HEAD_LEFT || c == HEAD_RIGHT || c == HEAD_UP || c == HEAD_DOWN || c == DEAD_SNAKE

def is_body (c : Char) : Bool :=
  c == BODY_LEFT || c == BODY_RIGHT || c == BODY_UP || c == BODY_DOWN

def is_snake (c : Char) : Bool := is_head c || is_tail c || is_body c

def body_to_tail (c : Char) : Char :=
  if c = BODY_LEFT then TAIL_LEFT
  else if c = BODY_RIGHT then TAIL_RIGHT
  else if c = BODY_UP then TAIL_UP
  else if c = BODY_DOWN then TAIL_DOWN
  else c

def head_to_body (c : Char) : Char :=
  if c = HEAD_LEFT then BODY_LEFT
  else if c = HEAD_RIGHT then BODY_RIGHT
  else if c = HEAD_UP then BODY_UP
  else if c = HEAD_DOWN then BODY_DOWN
  else c

/-- `get_next_row`, on `unsigned int` (arithmetic modulo `2 ^ 32`). -/
def get_next_row (cur_row : Nat) (c : Char) : Nat :=
  if c = BODY_DOWN ∨ c = HEAD_DOWN ∨ c = TAIL_DOWN then (cur_row + 1) % 2 ^ 32
  else if c = BODY_UP ∨ c = HEAD_UP ∨ c = TAIL_UP then (cur_row + 2 ^ 32 - 1) % 2 ^ 32
  else cur_row

/-- `get_next_col`, on `unsigned int` (arithmetic modulo `2 ^ 32`). -/
def get_next_col (cur_col : Nat) (c : Char) : Nat :=
  if c = BODY_RIGHT ∨ c = HEAD_RIGHT ∨ c = TAIL_RIGHT then (cur_col + 1) % 2 ^ 32
  else if c = BODY_LEFT ∨ c = HEAD_LEFT ∨ c = TAIL_LEFT then (cur_col + 2 ^ 32 - 1) % 2 ^ 32
  else cur_col

/-! ## The per-tick update -/

/-- `next_square`: the character in the cell the snake is moving into. -/
def next_square (game : game_t) (snum : Nat) : Option Char :=
  match game.snakes[snum]? with
  | none => none
  | some snake =>
    match get_board_at game snake.head_row snake.head_col with
    | none => none
    | some head =>
      get_board_at game (get_next_row snake.head_row head) (get_next_col snake.head_col head)

/-- `update_head`: write the head glyph into the cell ahead, turn the old head
cell into a body glyph, and move the head coordinate of the record. -/
def update_head (game : game_t) (snum : Nat) : Option game_t :=
  match game.snakes[snum]? with
  | none => none
  | some snake =>
    match get_board_at game snake.head_row snake.head_col with
    | none => none
    | some head =>
      let next_row := get_next_row snake.head_row head
      let next_col := get_next_col snake.head_col head
      match set_board_at game next_row next_col head with
      | none => none
      | some g1 =>
        match set_board_at g1 snake.head_row snake.head_col (head_to_body head) with
        | none => none
        | some g2 =>
          some { g2 with snakes :=
            g2.snakes.set snum { snake with head_row := next_row, head_col := next_col } }

/-- `update_tail`: blank the tail cell, turn the cell ahead of it into a tail
glyph, and move the tail coordinate of the record. -/
def update_tail (game : game_t) (snum : Nat) : Option game_t :=
  match game.snakes[snum]? with
  | none => none
  | some snake =>
    match get_board_at game snake.tail_row snake.tail_col with
    | none => none
    | some tail =>
      let next_row := get_next_row snake.tail_row tail
      let next_col := get_next_col snake.tail_col tail
      match get_board_at game next_row next_col with
      | none => none
      | some body =>
        match set_board_at game snake.tail_row snake.tail_col EMPTY_CHAR with
        | none => none
        | some g1 =>
          match set_board_at g1 next_row next_col (body_to_tail body) with
          | none => none
          | some g2 =>
            some { g2 with snakes :=
              g2.snakes.set snum { snake with tail_row := next_row, tail_col := next_col } }

/-- `update_snake_when_dead`: the head cell becomes `x`, the record is marked
not alive. -/
def update_snake_when_dead (game : game_t) (snum : Nat) : Option game_t :=
  match game.snakes[snum]? with
  | none => none
  | some snake =>
    match set_board_at game snake.head_row snake.head_col DEAD_SNAKE with
    | none => none
    | some g1 => some { g1 with snakes := g1.snakes.set snum { snake with live := false } }

def update_snake_when_eat_fruit (game : game_t) (snum : Nat) : Option game_t :=
  update_head game snum

def update_snake (game : game_t) (snum : Nat) : Option game_t :=
  match update_head game snum with
  | none => none
  | some g1 => update_tail g1 snum

/-- Modelled from the spec: the call `add_food(game)` of the food placer handed
to `update_game` (its code, `snake_utils`, is not part of the sources at hand).
Following the contract `add_food(grid) -> outcome` the placer rewrites the grid
only; its outcome is not inspected by `update_game`. -/
def call_add_food (add_food : List (List Char) → List (List Char)) (game : game_t) : game_t :=
  { game with board := add_food game.board }

/-- The body of the `for` loop of `update_game`, for the snake of index `snum`. -/
def update_game_body (add_food : List (List Char) → List (List Char))
    (game : game_t) (snum : Nat) : Option game_t :=
  match next_square game snum with
  | none => none
  | some square =>
    if is_snake square || square == WALL_CHAR then
      update_snake_when_dead game snum
    else if square == FRUIT_CHAR then
      match update_snake_when_eat_fruit game snum with
      | none => none
      | some g1 => some (call_add_food add_food g1)
    else
      update_snake game snum

/-- The `for` loop of `update_game` from index `snum` on, with `n` records left
(`n = num_snakes - snum`; no step changes `num_snakes`). -/
def update_game_from (add_food : List (List Char) → List (List Char)) :
    Nat → Nat → game_t → Option game_t
  | 0, _, game => some game
  | n + 1, snum, game =>
    match update_game_body add_food game snum with
    | none => none
    | some g1 => update_game_from add_food n (snum + 1) g1

/-- `update_game`: one tick. -/
def update_game (add_food : List (List Char) → List (List Char)) (game : game_t) :
    Option game_t :=
  update_game_from add_food game.num_snakes 0 game

/-- A food placer that leaves the grid as it is. -/
def no_food (board : List (List Char)) : List (List Char) := board

/-! ## The default game -/

/-- `create_board`: `rows` strings of `cols` cells and a line feed, the outer
ring of cells being wall and the others empty. -/
def create_board (rows cols : Nat) : List (List Char) :=
  (List.range rows).map fun i =>
    ((List.range cols).map fun j =>
      if i = 0 ∨ i = rows - 1 ∨ j = 0 ∨ j = cols - 1 then WALL_CHAR else EMPTY_CHAR) ++ [LF]

/-- `create_default_fruit`: a fruit at row 2, column 9. -/
def create_default_fruit (game : game_t) : Option game_t :=
  set_board_at game 2 9 FRUIT_CHAR

/-- `create_default_snake`: one record, tail (2,2), head (2,4), alive, and its
three glyphs on the board. -/
def create_default_snake (game : game_t) : Option game_t :=
  let g0 : game_t :=
    { game with snakes :=
        [{ tail_row := 2, tail_col := 2, head_row := 2, head_col := 4, live := true }] }
  match set_board_at g0 2 2 TAIL_RIGHT with
  | none => none
  | some g1 =>
    match set_board_at g1 2 (2 + 1) BODY_RIGHT with
    | none => none
    | some g2 => set_board_at g2 2 4 HEAD_RIGHT

/-- `create_default_game`: the 18 by 20 board with its fruit and its snake. -/
def create_default_game : Option game_t :=
  match create_default_fruit { board := create_board 18 20, snakes := [] } with
  | none => none
  | some g1 => create_default_snake g1

/-! ## Text output and input -/

/-- `print_board`: the characters written to the stream, every row in order
(`fprintf(fp, "%s", row)`). -/
def print_board (game : game_t) : List Char :=
  game.board.foldr (fun row out => row ++ out) []

/-- The string held by a buffer in which `bytes` are followed by a terminator:
the bytes before the first `NUL`. -/
def c_string (bytes : List Char) : List Char := bytes.takeWhile (fun c => c != NUL)

/-- The characters `fgets` stores when it may store at most `k` of them: it
stops after a line feed or at the end of the input. The second component is the
input left. -/
def fgets_chars : Nat → List Char → List Char × List Char
  | 0, fp => ([], fp)
  | _ + 1, [] => ([], [])
  | k + 1, c :: fp =>
    if c = LF then ([c], fp) else (c :: (fgets_chars k fp).1, (fgets_chars k fp).2)

/-- The conversion `(int) n` of a `size_t` value: a value above `INT_MAX` does
not fit, and the conversion keeps its low 32 bits, read in two's complement. -/
def int_of_size_t (n : Nat) : Int :=
  if n % 2 ^ 32 < 2 ^ 31 then ((n % 2 ^ 32 : Nat) : Int)
  else ((n % 2 ^ 32 : Nat) : Int) - 2 ^ 32

/-- `fgets(buf, n, fp)`: `none` is the null pointer, returned when the count `n`
is below 1 (nothing can be stored) and at the end of the input. -/
def fgets (n : Int) (fp : List Char) : Option (List Char × List Char) :=
  if n < 1 then none
  else
    match fp with
    | [] => none
    | _ :: _ => some (fgets_chars (n.toNat - 1) fp)

/-- The `while` loop of `read_line`. `line` is the string in the buffer (so
`cur_pos = strlen(line)` is its length, below `line_capacity`), `line_capacity`
the size of the buffer. The count handed to `fgets` is
`(int) (line_capacity - cur_pos)`. The result is the returned line (`none` for
`NULL`) and the input left; the outer `none` says that `fuel` iterations were
not enough. -/
def read_line_loop : Nat → List Char → Nat → List Char →
    Option (Option (List Char) × List Char)
  | 0, _, _, _ => none
  | fuel + 1, line, line_capacity, fp =>
    match fgets (int_of_size_t (line_capacity - line.length)) fp with
    | none => some (none, fp)
    | some (chunk, rest) =>
      let line1 := line ++ c_string chunk
      if 0 < line1.length ∧ line1.getLast? = some LF then some (some line1, rest)
      else read_line_loop fuel line1 (line_capacity * GROWTH_FACTOR % 2 ^ 64) rest

/-- `read_line`: every iteration but the last consumes input, so one iteration
more than there are characters suffices (`read_line_total`). -/
def read_line (fp : List Char) : Option (Option (List Char) × List Char) :=
  read_line_loop (fp.length + 1) [] INITIAL_BUFFER_SIZE fp

/-- The `for` loop of `load_board`: the rows read so far and the input left. -/
def load_board_loop : Nat → List (List Char) → List Char →
    Option (List (List Char) × List Char)
  | 0, _, _ => none
  | fuel + 1, board, fp =>
    match read_line fp with
    | none => none
    | some (none, rest) => some (board, rest)
    | some (some line, rest) => load_board_loop fuel (board ++ [c_string line]) rest

/-- `load_board`: the game whose rows are the lines of the input, with no snake
record. Every line read consumes input, so one iteration more than there are
characters suffices (`load_board_total`). -/
def load_board (fp : List Char) : Option game_t :=
  match load_board_loop (fp.length + 1) [] fp with
  | none => none
  | some (board, _) => some { board := board, snakes := [] }

/-! ## Measures used by the statements -/

/-- Number of board cells that hold a snake glyph (tail, body or head). -/
def snake_cells (game : game_t) : Nat :=
  (game.board.map fun row => row.countP is_snake).sum

/-! ## Well-formed snakes (data model) -/

/-- The cell the glyph at `p` points at. -/
def next_cell (game : game_t) (p : Nat × Nat) : Option (Nat × Nat) :=
  match get_board_at game p.1 p.2 with
  | none => none
  | some c => some (get_next_row p.1 c, get_next_col p.2 c)

/-- Every cell of the list points at the next one. -/
def is_path (game : game_t) : List (Nat × Nat) → Bool
  | [] => true
  | [_] => true
  | p :: q :: rest => (next_cell game p == some q) && is_path game (q :: rest)

/-- The cell (row, col) is in the grid and its glyph passes the test `ok`. -/
def holds (game : game_t) (row col : Nat) (ok : Char → Bool) : Bool :=
  match get_board_at game row col with
  | none => false
  | some c => ok c

/-- One of the four directional head glyphs (the dead head excluded). -/
def is_live_head (c : Char) : Bool := is_head c && c != DEAD_SNAKE

/-- The invariant of the data model for the record `s`: its tail cell holds a
tail glyph, its head cell a live head glyph, the cells `mids` hold body glyphs,
and tail, `mids`, head form a path in which every glyph points at the next
cell. -/
def well_formed_snake (game : game_t) (s : snake_t) (mids : List (Nat × Nat)) : Bool :=
  holds game s.tail_row s.tail_col is_tail &&
  holds game s.head_row s.head_col is_live_head &&
  mids.all (fun p => holds game p.1 p.2 is_body) &&
  is_path game ((s.tail_row, s.tail_col) :: (mids ++ [(s.head_row, s.head_col)]))

/-! ## Reconstruction of the snake records -/

/-- The outcome of a run of `find_head` or `initialize_snakes`. -/
inductive outcome (α : Type) where
  /-- The run ended with this result. -/
  | ok (a : α)
  /-- The run made an access outside the characters of the rows (or outside the
  record array), which the embedding does not follow. -/
  | undefined
  /-- The `while` loop of `find_head` had not ended after `fuel` tests of its
  condition. -/
  | no_fuel
deriving DecidableEq, Repr

/-- The `while` loop of `find_head`, entered at the cell (row, col) whose glyph
is `c`: follow the glyphs until a head-class glyph is met. -/
def find_head_loop (game : game_t) : Nat → Nat → Nat → Char → outcome (Nat × Nat)
  | 0, _, _, _ => .no_fuel
  | fuel + 1, row, col, c =>
    if is_head c then .ok (row, col)
    else
      match get_board_at game (get_next_row row c) (get_next_col col c) with
      | none => .undefined
      | some c1 => find_head_loop game fuel (get_next_row row c) (get_next_col col c) c1

/-- `find_head`: trace the board from the tail of the record `snum` and store
the head position found in the record. -/
def find_head (fuel : Nat) (game : game_t) (snum : Nat) : outcome game_t :=
  match game.snakes[snum]? with
  | none => .undefined
  | some snake =>
    match get_board_at game snake.tail_row snake.tail_col with
    | none => .undefined
    | some c =>
      match find_head_loop game fuel snake.tail_row snake.tail_col c with
      | .undefined => .undefined
      | .no_fuel => .no_fuel
      | .ok (row, col) =>
        .ok { game with snakes :=
          game.snakes.set snum { snake with head_row := row, head_col := col } }

/-- The body of the inner `for` loop of `initialize_snakes` at the cell
(row, col); `snakes` is the local array, `num_snakes` its length. The new record
comes from `realloc` with its head and alive fields not yet assigned (here 0, 0,
false); both are assigned before the body ends. -/
def initialize_snakes_body (fuel : Nat) (game : game_t) (snakes : List snake_t)
    (row col : Nat) : outcome (List snake_t) :=
  match get_board_at game row col with
  | none => .undefined
  | some c =>
    if is_tail c then
      match find_head fuel { game with snakes := snakes ++ [⟨row, col, 0, 0, false⟩] }
          snakes.length with
      | .undefined => .undefined
      | .no_fuel => .no_fuel
      | .ok g1 =>
        match g1.snakes[snakes.length]? with
        | none => .undefined
        | some snake =>
          match get_board_at g1 snake.head_row snake.head_col with
          | none => .undefined
          | some head =>
            .ok (g1.snakes.set snakes.length { snake with live := head != DEAD_SNAKE })
    else .ok snakes

/-- The inner `for` loop of `initialize_snakes` on the row `row`, from column
`col` on, with `n` columns left. -/
def initialize_snakes_cols (fuel : Nat) (game : game_t) (row : Nat) :
    Nat → Nat → List snake_t → outcome (List snake_t)
  | 0, _, snakes => .ok snakes
  | n + 1, col, snakes =>
    match initialize_snakes_body fuel game snakes row col with
    | .undefined => .undefined
    | .no_fuel => .no_fuel
    | .ok s1 => initialize_snakes_cols fuel game row n (col + 1) s1

/-- `strlen(game->board[row])`. -/
def row_strlen (game : game_t) (row : Nat) : Nat :=
  match game.board[row]? with
  | none => 0
  | some r => r.length

/-- The outer `for` loop of `initialize_snakes`, from row `row` on, with `n`
rows left. -/
def initialize_snakes_rows (fuel : Nat) (game : game_t) :
    Nat → Nat → List snake_t → outcome (List snake_t)
  | 0, _, snakes => .ok snakes
  | n + 1, row, snakes =>
    match initialize_snakes_cols fuel game row (row_strlen game row) 0 snakes with
    | .undefined => .undefined
    | .no_fuel => .no_fuel
    | .ok s1 => initialize_snakes_rows fuel game n (row + 1) s1

/-- `initialize_snakes`: scan the grid and build one record per tail glyph.
`fuel` bounds the iterations of each run of `find_head`. -/
def initialize_snakes (fuel : Nat) (game : game_t) : outcome game_t :=
  match initialize_snakes_rows fuel game game.num_rows 0 [] with
  | .undefined => .undefined
  | .no_fuel => .no_fuel
  | .ok snakes => .ok { game with snakes := snakes }

/-! ## The trace of a snake, in the words of the specification -/

/-- The cells of the row `row`, from column `col` on, `n` of them. -/
def row_cells (row : Nat) : Nat → Nat → List (Nat × Nat)
  | 0, _ => []
  | n + 1, col => (row, col) :: row_cells row n (col + 1)

/-- The cells of the rows `row`, `row + 1`, ... (`n` rows), in row-major order. -/
def cells_from (game : game_t) : Nat → Nat → List (Nat × Nat)
  | 0, _ => []
  | n + 1, row => row_cells row (row_strlen game row) 0 ++ cells_from game n (row + 1)

/-- Every cell of the grid, in row-major order. -/
def grid_cells (game : game_t) : List (Nat × Nat) := cells_from game game.num_rows 0

/-- The cells that hold a tail glyph, in row-major order. -/
def tail_cells (game : game_t) : List (Nat × Nat) :=
  (grid_cells game).filter fun p => holds game p.1 p.2 is_tail

/-- The cell reached from `start` after following the direction of the glyph at
the current cell `n` times; `none` once a cell outside the grid has been left. -/
def trace (game : game_t) (start : Nat × Nat) : Nat → Option (Nat × Nat)
  | 0 => some start
  | n + 1 =>
    match trace game start n with
    | none => none
    | some p => next_cell game p

/-- None of the first `n` cells of the trace holds a head-class glyph. -/
def no_head_before (game : game_t) (start : Nat × Nat) : Nat → Bool
  | 0 => true
  | n + 1 =>
    no_head_before game start n &&
      match trace game start n with
      | none => true
      | some q => !holds game q.1 q.2 is_head

/-- The cell `p` is the first cell of the trace from `start` that holds a
head-class glyph, and it is reached after `n` steps. -/
def first_head_at (game : game_t) (start : Nat × Nat) (n : Nat) (p : Nat × Nat) : Bool :=
  (trace game start n == some p) && holds game p.1 p.2 is_head &&
    no_head_before game start n

/-- The body of the inner loop of `initialize_snakes` run over a list of cells,
in order. -/
def initialize_snakes_scan (fuel : Nat) (game : game_t) :
    List (Nat × Nat) → List snake_t → outcome (List snake_t)
  | [], snakes => .ok snakes
  | p :: rest, snakes =>
    match initialize_snakes_body fuel game snakes p.1 p.2 with
    | .undefined => .undefined
    | .no_fuel => .no_fuel
    | .ok s1 => initialize_snakes_scan fuel game rest s1

/-- The record `initialize_snakes` builds for a tail glyph at (row, col): the
head found by the loop of `find_head`, alive unless the head glyph is `x`. -/
def traced_record (fuel : Nat) (game : game_t) (row col : Nat) : outcome snake_t :=
  match get_board_at game row col with
  | none => .undefined
  | some c =>
    match find_head_loop game fuel row col c with
    | .undefined => .undefined
    | .no_fuel => .no_fuel
    | .ok (hr, hc) =>
      match get_board_at game hr hc with
      | none => .undefined
      | some head => .ok ⟨row, col, hr, hc, head != DEAD_SNAKE⟩

/-! ## Walled boards -/

/-- The cell (r, c) lies on the outer ring of a grid of `R` rows and `W`
columns. -/
def on_ring (R W r c : Nat) : Bool :=
  decide (r < R) && decide (c < W) &&
    (decide (r = 0) || decide (r + 1 = R) || decide (c = 0) || decide (c + 1 = W))

/-- The cell (r, c) lies strictly inside the outer ring. -/
def inside_ring (R W r c : Nat) : Bool :=
  decide (0 < r) && decide (r + 1 < R) && decide (0 < c) && decide (c + 1 < W)

/-- The grid has (at least) `R` rows of `W` cells and every cell of the outer
ring of that rectangle holds the wall glyph. -/
def walled (game : game_t) (R W : Nat) : Bool :=
  (List.range R).all fun r => (List.range W).all fun c =>
    match get_board_at game r c with
    | none => false
    | some ch => !on_ring R W r c || ch == WALL_CHAR

/-! ## Games used as concrete instances -/

/-- The rows `dv x`, ` S ^`, `   w`: a live snake from the tail (0,0) to the head
(1,1) and a dead snake from the tail (2,3) up to the head (0,3). -/
def two_tail_game : game_t :=
  ⟨[['d', 'v', ' ', 'x', LF], [' ', 'S', ' ', '^', LF], [' ', ' ', ' ', 'w', LF]], []⟩

/-- A walled board of 3 rows and 5 columns with the snake `dD` inside. -/
def small_walled_game : game_t :=
  ⟨[['#', '#', '#', '#', '#', LF], ['#', 'd', 'D', ' ', '#', LF],
    ['#', '#', '#', '#', '#', LF]], [⟨1, 1, 1, 2, true⟩]⟩

/-- The row `d `: a tail glyph that points at an empty cell. -/
def stuck_game : game_t := ⟨[['d', ' ', LF]], []⟩

/-- The row `aD`: the tail glyph `a` at column 0 points off the left edge of the
grid. -/
def edge_game : game_t := ⟨[['a', 'D', LF]], []⟩

/-- The row `dD ` with its snake of two cells, tail (0,0) and head (0,1). -/
def two_cell_game : game_t := ⟨[['d', 'D', ' ', LF]], [⟨0, 0, 0, 1, true⟩]⟩

/-- The row `d>D ` with its snake of three cells. -/
def three_cell_game : game_t := ⟨[['d', '>', 'D', ' ', LF]], [⟨0, 0, 0, 2, true⟩]⟩

/-- The row `dD Aa`: two snakes whose heads point at the same empty cell. -/
def race_game : game_t :=
  ⟨[['d', 'D', ' ', 'A', 'a', LF]], [⟨0, 0, 0, 1, true⟩, ⟨0, 4, 0, 3, true⟩]⟩

/-- The row `dD  ` with a record whose alive flag is false although its head cell
holds a head glyph. -/
def stale_flag_game : game_t := ⟨[['d', 'D', ' ', ' ', LF]], [⟨0, 0, 0, 1, false⟩]⟩

/-- The row `dx#`: a dead snake. -/
def dead_game : game_t := ⟨[['d', 'x', '#', LF]], [⟨0, 0, 0, 1, false⟩]⟩

/-- A grid with a row of 200 wall cells, the row `dD` and an empty row. -/
def long_row_game : game_t :=
  ⟨[List.replicate 200 '#' ++ [LF], ['d', 'D'] ++ [LF], [] ++ [LF]], []⟩

/-- The row `dD#`: a snake facing a wall. -/
def wall_game : game_t := ⟨[['d', 'D', '#', LF]], [⟨0, 0, 0, 1, true⟩]⟩

/-- A grid of one row: `2 ^ 31 - 1` wall characters and a line feed. -/
def int_max_row_game : game_t := ⟨[List.replicate (2 ^ 31 - 1) '#' ++ [LF]], []⟩

/-- The row `dD` and its line feed: a snake whose look-ahead cell is the line
feed that ends the row. -/
def line_feed_game : game_t := ⟨[['d', 'D', LF]], [⟨0, 0, 0, 1, true⟩]⟩

/-- The row `dD*`: a snake facing a fruit. -/
def fruit_game : game_t := ⟨[['d', 'D', '*', LF]], [⟨0, 0, 0, 1, true⟩]⟩


/-! ## Board store lemmas -/

theorem set_board_at_snakes {g g1 : game_t} {row col : Nat} {ch : Char}
    (h : set_board_at g row col ch = some g1) : g1.snakes = g.snakes := by
  unfold set_board_at at h
  split at h
  · simp at h
  · split at h
    · simp at h; subst h; rfl
    · simp at h

theorem get_set_board_at {g g1 : game_t} {row col : Nat} {ch : Char}
    (h : set_board_at g row col ch = some g1) (r c : Nat) :
    get_board_at g1 r c = if r = row ∧ c = col then some ch else get_board_at g r c := by
  unfold set_board_at at h
  split at h
  · simp at h
  · rename_i rw hrow
    split at h
    · rename_i hcol
      simp at h; subst h
      have hlt : row < g.board.length := by
        rcases Nat.lt_or_ge row g.board.length with h1 | h1
        · exact h1
        · rw [List.getElem?_eq_none h1] at hrow; simp at hrow
      unfold get_board_at
      by_cases hr : r = row
      · subst hr
        simp only [List.getElem?_set_self hlt, hrow, true_and]
        by_cases hc : c = col
        · subst hc; simp [List.getElem?_set_self hcol]
        · simp [hc, List.getElem?_set_ne (Ne.symm hc)]
      · simp [hr, List.getElem?_set_ne (Ne.symm hr)]
    · simp at h

theorem set_board_at_some {g : game_t} {row col : Nat} {x : Char} (ch : Char)
    (h : get_board_at g row col = some x) : ∃ g1, set_board_at g row col ch = some g1 := by
  unfold get_board_at at h
  unfold set_board_at
  split at h
  · simp at h
  · rename_i rw hrow
    have hcol : col < rw.length := by
      rcases Nat.lt_or_ge col rw.length with h1 | h1
      · exact h1
      · rw [List.getElem?_eq_none h1] at h; simp at h
    simp [hrow, hcol]

theorem set_board_at_same {g : game_t} {row col : Nat} {ch : Char}
    (h : get_board_at g row col = some ch) : set_board_at g row col ch = some g := by
  unfold get_board_at at h
  unfold set_board_at
  split at h
  · simp at h
  · rename_i rw hrow
    have hcol : col < rw.length := by
      rcases Nat.lt_or_ge col rw.length with h1 | h1
      · exact h1
      · rw [List.getElem?_eq_none h1] at h; simp at h
    have h1 : rw.set col ch = rw := by
      apply List.ext_getElem? 
      intro i
      by_cases hi : i = col
      · subst hi; rw [List.getElem?_set_self hcol, h]
      · rw [List.getElem?_set_ne (Ne.symm hi)]
    have h2 : g.board.set row rw = g.board := by
      apply List.ext_getElem? 
      intro i
      by_cases hi : i = row
      · subst hi
        have hlt : i < g.board.length := by
          rcases Nat.lt_or_ge i g.board.length with h1 | h1
          · exact h1
          · rw [List.getElem?_eq_none h1] at hrow; simp at hrow
        rw [List.getElem?_set_self hlt, hrow]
      · rw [List.getElem?_set_ne (Ne.symm hi)]
    simp [hrow, hcol, h1, h2]


/-! ## Effect of the update helpers, cell by cell -/

theorem getElem?_lt_length {α : Type} {l : List α} {i : Nat} {x : α}
    (h : l[i]? = some x) : i < l.length := by
  rcases Nat.lt_or_ge i l.length with h1 | h1
  · exact h1
  · rw [List.getElem?_eq_none h1] at h; simp at h

theorem update_head_spec {g : game_t} {snum : Nat} {s : snake_t} {h x : Char}
    (hs : g.snakes[snum]? = some s)
    (hh : get_board_at g s.head_row s.head_col = some h)
    (hT : get_board_at g (get_next_row s.head_row h) (get_next_col s.head_col h) = some x) :
    ∃ g1, update_head g snum = some g1 ∧
      g1.snakes = g.snakes.set snum
        { s with head_row := get_next_row s.head_row h,
                 head_col := get_next_col s.head_col h } ∧
      ∀ r c, get_board_at g1 r c =
        if r = s.head_row ∧ c = s.head_col then some (head_to_body h)
        else if r = get_next_row s.head_row h ∧ c = get_next_col s.head_col h then some h
        else get_board_at g r c := by
  obtain ⟨ga, hga⟩ := set_board_at_some h hT
  have hh1 : get_board_at ga s.head_row s.head_col =
      some (if s.head_row = get_next_row s.head_row h ∧ s.head_col = get_next_col s.head_col h
        then h else h) := by
    rw [get_set_board_at hga]; split <;> simp [hh]
  obtain ⟨gb, hgb⟩ := set_board_at_some (head_to_body h) hh1
  refine ⟨⟨gb.board, gb.snakes.set snum
    ⟨s.tail_row, s.tail_col, get_next_row s.head_row h, get_next_col s.head_col h, s.live⟩⟩,
    ?_, ?_, ?_⟩
  · simp only [update_head, hs, hh, hga, hgb]
  · simp [set_board_at_snakes hgb, set_board_at_snakes hga]
  · intro r c
    change get_board_at gb r c = _
    rw [get_set_board_at hgb, get_set_board_at hga]

theorem update_tail_spec {g : game_t} {snum : Nat} {s : snake_t} {t b : Char}
    (hs : g.snakes[snum]? = some s)
    (ht : get_board_at g s.tail_row s.tail_col = some t)
    (hN : get_board_at g (get_next_row s.tail_row t) (get_next_col s.tail_col t) = some b) :
    ∃ g1, update_tail g snum = some g1 ∧
      g1.snakes = g.snakes.set snum
        { s with tail_row := get_next_row s.tail_row t,
                 tail_col := get_next_col s.tail_col t } ∧
      ∀ r c, get_board_at g1 r c =
        if r = get_next_row s.tail_row t ∧ c = get_next_col s.tail_col t
          then some (body_to_tail b)
        else if r = s.tail_row ∧ c = s.tail_col then some EMPTY_CHAR
        else get_board_at g r c := by
  obtain ⟨ga, hga⟩ := set_board_at_some EMPTY_CHAR ht
  have hN1 : get_board_at ga (get_next_row s.tail_row t) (get_next_col s.tail_col t) =
      some (if get_next_row s.tail_row t = s.tail_row ∧ get_next_col s.tail_col t = s.tail_col
        then EMPTY_CHAR else b) := by
    rw [get_set_board_at hga]; split <;> simp [hN]
  obtain ⟨gb, hgb⟩ := set_board_at_some (body_to_tail b) hN1
  refine ⟨⟨gb.board, gb.snakes.set snum
    ⟨get_next_row s.tail_row t, get_next_col s.tail_col t, s.head_row, s.head_col, s.live⟩⟩,
    ?_, ?_, ?_⟩
  · simp only [update_tail, hs, ht, hN, hga, hgb]
  · simp [set_board_at_snakes hgb, set_board_at_snakes hga]
  · intro r c
    change get_board_at gb r c = _
    rw [get_set_board_at hgb, get_set_board_at hga]

theorem update_snake_when_dead_spec {g : game_t} {snum : Nat} {s : snake_t} {h : Char}
    (hs : g.snakes[snum]? = some s)
    (hh : get_board_at g s.head_row s.head_col = some h) :
    ∃ g1, update_snake_when_dead g snum = some g1 ∧
      g1.snakes = g.snakes.set snum { s with live := false } ∧
      ∀ r c, get_board_at g1 r c =
        if r = s.head_row ∧ c = s.head_col then some DEAD_SNAKE else get_board_at g r c := by
  obtain ⟨ga, hga⟩ := set_board_at_some DEAD_SNAKE hh
  refine ⟨⟨ga.board, ga.snakes.set snum
    ⟨s.tail_row, s.tail_col, s.head_row, s.head_col, false⟩⟩, ?_, ?_, ?_⟩
  · simp only [update_snake_when_dead, hs, hga]
  · simp [set_board_at_snakes hga]
  · intro r c
    change get_board_at ga r c = _
    rw [get_set_board_at hga]

theorem next_square_eq {g : game_t} {snum : Nat} {s : snake_t} {h : Char}
    (hs : g.snakes[snum]? = some s)
    (hh : get_board_at g s.head_row s.head_col = some h) :
    next_square g snum =
      get_board_at g (get_next_row s.head_row h) (get_next_col s.head_col h) := by
  simp only [next_square, hs, hh]

/-- When the look-ahead cell exists, so do the record and the head cell. -/
theorem next_square_some {g : game_t} {snum : Nat} {sq : Char}
    (h : next_square g snum = some sq) :
    ∃ s hd, g.snakes[snum]? = some s ∧ get_board_at g s.head_row s.head_col = some hd ∧
      get_board_at g (get_next_row s.head_row hd) (get_next_col s.head_col hd) = some sq := by
  unfold next_square at h
  split at h
  · simp at h
  · rename_i s hs
    split at h
    · simp at h
    · rename_i hd hh
      exact ⟨s, hd, hs, hh, h⟩

/-! ## The loop of `update_game` -/

theorem update_game_from_add (f : List (List Char) → List (List Char)) (a b i : Nat)
    (g : game_t) :
    update_game_from f (a + b) i g =
      (update_game_from f a i g).bind (update_game_from f b (i + a)) := by
  induction a generalizing i g with
  | zero => simp [update_game_from]
  | succ n ih =>
    rw [show n + 1 + b = (n + b) + 1 by omega]
    simp only [update_game_from]
    cases hb : update_game_body f g i with
    | none => simp
    | some g1 =>
      simp only [ih]
      rw [show i + 1 + n = i + (n + 1) by omega]

/-- The tick, split at the moment the snake of index `snum` is processed. -/
theorem update_game_split (f : List (List Char) → List (List Char)) (g gk : game_t)
    (snum : Nat) (hlt : snum < g.num_snakes)
    (hpre : update_game_from f snum 0 g = some gk) :
    update_game f g =
      (update_game_body f gk snum).bind
        (update_game_from f (g.num_snakes - (snum + 1)) (snum + 1)) := by
  unfold update_game
  rw [show g.num_snakes = snum + (1 + (g.num_snakes - (snum + 1))) by omega]
  rw [update_game_from_add, hpre]
  simp only [Option.some_bind, Nat.zero_add]
  rw [update_game_from_add]
  congr 1
  · simp only [update_game_from]
    cases update_game_body f gk snum <;> rfl
  · funext x
    congr 1
    omega

theorem update_game_single (f : List (List Char) → List (List Char)) (g : game_t)
    (h : g.snakes.length = 1) : update_game f g = update_game_body f g 0 := by
  unfold update_game game_t.num_snakes
  rw [h]
  simp only [update_game_from]
  cases update_game_body f g 0 <;> rfl


/-! ## Glyph facts -/

theorem is_snake_of_mem {c : Char}
    (h : c ∈ ['w', 'a', 's', 'd', '^', '<', 'v', '>', 'W', 'A', 'S', 'D', 'x']) :
    is_snake c = true := by
  simp only [List.mem_cons, List.mem_singleton, List.not_mem_nil, or_false] at h
  rcases h with h | h | h | h | h | h | h | h | h | h | h | h | h <;> subst h <;> decide

/-- A directional glyph never points at its own cell. -/
theorem next_ne_self_of_move {c : Char} (r k : Nat)
    (h : c ∈ ['w', 'a', 's', 'd', '^', '<', 'v', '>', 'W', 'A', 'S', 'D']) :
    ¬(get_next_row r c = r ∧ get_next_col k c = k) := by
  simp only [List.mem_cons, List.mem_singleton, List.not_mem_nil, or_false] at h
  rcases h with h | h | h | h | h | h | h | h | h | h | h | h <;> subst h <;>
    simp [get_next_row, get_next_col, BODY_DOWN, HEAD_DOWN, TAIL_DOWN, BODY_UP, HEAD_UP, TAIL_UP,
      BODY_LEFT, HEAD_LEFT, TAIL_LEFT, BODY_RIGHT, HEAD_RIGHT, TAIL_RIGHT] <;> omega

/-- A glyph that is not directional points at its own cell. -/
theorem next_self_of_still {c : Char} (r k : Nat)
    (h : c ∉ ['w', 'a', 's', 'd', '^', '<', 'v', '>', 'W', 'A', 'S', 'D']) :
    get_next_row r c = r ∧ get_next_col k c = k := by
  simp only [List.mem_cons, List.mem_singleton, List.not_mem_nil, or_false, not_or] at h
  simp [get_next_row, get_next_col, BODY_DOWN, HEAD_DOWN, TAIL_DOWN, BODY_UP, HEAD_UP, TAIL_UP,
      BODY_LEFT, HEAD_LEFT, TAIL_LEFT, BODY_RIGHT, HEAD_RIGHT, TAIL_RIGHT, h]

/-! ## Death -/

/-- C2 (death). At the moment the tick reaches the snake of index `snum` (state
`gk`), if its look-ahead cell holds the wall glyph or one of the 13 snake glyphs,
the loop body writes `x` at the current head position, marks the record not
alive, keeps its head and tail coordinates and every other record, and changes
no other board cell; the tick goes on from that state. -/
theorem death_in_place (f : List (List Char) → List (List Char)) (g gk : game_t)
    (snum : Nat) (sq : Char)
    (hlt : snum < g.num_snakes)
    (hpre : update_game_from f snum 0 g = some gk)
    (hsq : next_square gk snum = some sq)
    (hdead : sq = '#' ∨ sq ∈ ['w', 'a', 's', 'd', '^', '<', 'v', '>', 'W', 'A', 'S', 'D', 'x']) :
    ∃ s g1, gk.snakes[snum]? = some s ∧
      update_game_body f gk snum = some g1 ∧
      update_game f g = update_game_from f (g.num_snakes - (snum + 1)) (snum + 1) g1 ∧
      get_board_at g1 s.head_row s.head_col = some 'x' ∧
      g1.snakes = gk.snakes.set snum
        ⟨s.tail_row, s.tail_col, s.head_row, s.head_col, false⟩ ∧
      g1.snakes[snum]? = some ⟨s.tail_row, s.tail_col, s.head_row, s.head_col, false⟩ ∧
      ∀ r c, ¬(r = s.head_row ∧ c = s.head_col) →
        get_board_at g1 r c = get_board_at gk r c := by
  obtain ⟨s, hd, hs, hh, -⟩ := next_square_some hsq
  obtain ⟨g1, hg1, hsn, hcell⟩ := update_snake_when_dead_spec hs hh
  have hbranch : (is_snake sq || sq == WALL_CHAR) = true := by
    rcases hdead with h | h
    · subst h; decide
    · simp [is_snake_of_mem h]
  have hbody : update_game_body f gk snum = some g1 := by
    simp only [update_game_body, hsq, hbranch, if_true, hg1]
  refine ⟨s, g1, hs, hbody, ?_, ?_, hsn, ?_, ?_⟩
  · rw [update_game_split f g gk snum hlt hpre, hbody]; rfl
  · rw [hcell]; simp [DEAD_SNAKE]
  · rw [hsn, List.getElem?_set_self (getElem?_lt_length hs)]
  · intro r c hne
    rw [hcell, if_neg hne]

/-- Witness of `death_in_place`: the snake `dD` facing a wall. -/
theorem death_in_place_witness :
    ∃ g1, update_game no_food wall_game = some g1 ∧ get_board_at g1 0 1 = some 'x' ∧
      g1.snakes = [⟨0, 0, 0, 1, false⟩] := by
  obtain ⟨s, g1, h1, h2, h3, h4, h5, -⟩ :=
    death_in_place no_food wall_game wall_game 0 '#' (by decide) rfl (by decide) (Or.inl rfl)
  have hs : s = ⟨0, 0, 0, 1, true⟩ := (Option.some.inj h1).symm
  subst hs
  exact ⟨g1, h3, h4, h5⟩


/-! ## Counting snake glyphs -/

theorem sum_map_set {α : Type} (f : α → Nat) (l : List α) (i : Nat) (a b : α)
    (h : l[i]? = some a) :
    ((l.set i b).map f).sum + f a = (l.map f).sum + f b := by
  induction l generalizing i with
  | nil => simp at h
  | cons x xs ih =>
    cases i with
    | zero =>
      simp only [List.getElem?_cons_zero, Option.some.injEq] at h
      subst h
      simp only [List.set_cons_zero, List.map_cons, List.sum_cons]
      omega
    | succ n =>
      simp only [List.getElem?_cons_succ] at h
      have := ih n h
      simp only [List.set_cons_succ, List.map_cons, List.sum_cons]
      omega

theorem countP_set (p : Char → Bool) (l : List Char) (i : Nat) (a b : Char)
    (h : l[i]? = some a) :
    (l.set i b).countP p + (p a).toNat = l.countP p + (p b).toNat := by
  induction l generalizing i with
  | nil => simp at h
  | cons x xs ih =>
    cases i with
    | zero =>
      simp only [List.getElem?_cons_zero, Option.some.injEq] at h
      subst h
      simp only [List.set_cons_zero, List.countP_cons]
      cases p x <;> cases p b <;> simp
    | succ n =>
      simp only [List.getElem?_cons_succ] at h
      have := ih n h
      simp only [List.set_cons_succ, List.countP_cons]
      omega

/-- Writing `new` over `old` changes the number of snake glyphs accordingly. -/
theorem snake_cells_set {g g1 : game_t} {row col : Nat} {old new : Char}
    (hget : get_board_at g row col = some old)
    (hset : set_board_at g row col new = some g1) :
    snake_cells g1 + (is_snake old).toNat = snake_cells g + (is_snake new).toNat := by
  unfold get_board_at at hget
  unfold set_board_at at hset
  split at hget
  · simp at hget
  · rename_i rw hrow
    simp only [hrow] at hset
    split at hset
    · simp only [Option.some.injEq] at hset
      subst hset
      unfold snake_cells
      have h1 := sum_map_set (fun row => List.countP is_snake row) g.board row rw
        (rw.set col new) hrow
      have h2 := countP_set is_snake rw col old new hget
      simp only at h1 ⊢
      omega
    · simp at hset

theorem update_head_cells {g g1 : game_t} {snum : Nat} {s : snake_t} {h x : Char}
    (hs : g.snakes[snum]? = some s)
    (hh : get_board_at g s.head_row s.head_col = some h)
    (hT : get_board_at g (get_next_row s.head_row h) (get_next_col s.head_col h) = some x)
    (hg1 : update_head g snum = some g1) :
    snake_cells g1 + (is_snake x).toNat = snake_cells g + (is_snake (head_to_body h)).toNat := by
  obtain ⟨ga, hga⟩ := set_board_at_some h hT
  have hh1 : get_board_at ga s.head_row s.head_col = some h := by
    rw [get_set_board_at hga]; split <;> simp [hh]
  obtain ⟨gb, hgb⟩ := set_board_at_some (head_to_body h) hh1
  simp only [update_head, hs, hh, hga, hgb, Option.some.injEq] at hg1
  subst hg1
  have e1 := snake_cells_set hT hga
  have e2 := snake_cells_set hh1 hgb
  change snake_cells gb + _ = _
  omega

theorem update_tail_cells {g g1 : game_t} {snum : Nat} {s : snake_t} {t b : Char}
    (hs : g.snakes[snum]? = some s)
    (ht : get_board_at g s.tail_row s.tail_col = some t)
    (hN : get_board_at g (get_next_row s.tail_row t) (get_next_col s.tail_col t) = some b)
    (hNt : ¬(get_next_row s.tail_row t = s.tail_row ∧ get_next_col s.tail_col t = s.tail_col))
    (hg1 : update_tail g snum = some g1) :
    snake_cells g1 + (is_snake t).toNat + (is_snake b).toNat =
      snake_cells g + (is_snake (body_to_tail b)).toNat := by
  obtain ⟨ga, hga⟩ := set_board_at_some EMPTY_CHAR ht
  have hN1 : get_board_at ga (get_next_row s.tail_row t) (get_next_col s.tail_col t) =
      some b := by
    rw [get_set_board_at hga, if_neg hNt, hN]
  obtain ⟨gb, hgb⟩ := set_board_at_some (body_to_tail b) hN1
  simp only [update_tail, hs, ht, hN, hga, hgb, Option.some.injEq] at hg1
  subst hg1
  have e1 := snake_cells_set ht hga
  have e2 := snake_cells_set hN1 hgb
  have e3 : (is_snake EMPTY_CHAR).toNat = 0 := by decide
  change snake_cells gb + _ + _ = _
  omega

theorem update_snake_when_dead_cells {g g1 : game_t} {snum : Nat} {s : snake_t} {h : Char}
    (hs : g.snakes[snum]? = some s)
    (hh : get_board_at g s.head_row s.head_col = some h)
    (hg1 : update_snake_when_dead g snum = some g1) :
    snake_cells g1 + (is_snake h).toNat = snake_cells g + 1 := by
  obtain ⟨ga, hga⟩ := set_board_at_some DEAD_SNAKE hh
  simp only [update_snake_when_dead, hs, hga, Option.some.injEq] at hg1
  subst hg1
  have e1 := snake_cells_set hh hga
  have e3 : (is_snake DEAD_SNAKE).toNat = 1 := by decide
  change snake_cells ga + _ = _
  omega


/-! ## Plain move -/

theorem is_snake_of_head {c : Char} (h : c ∈ ['W', 'A', 'S', 'D']) : is_snake c = true := by
  simp only [List.mem_cons, List.mem_singleton, List.not_mem_nil, or_false] at h
  rcases h with h | h | h | h <;> subst h <;> decide

theorem is_snake_of_body {c : Char} (h : c ∈ ['^', '<', 'v', '>']) : is_snake c = true := by
  simp only [List.mem_cons, List.mem_singleton, List.not_mem_nil, or_false] at h
  rcases h with h | h | h | h <;> subst h <;> decide

theorem is_snake_of_move {c : Char}
    (h : c ∈ ['w', 'a', 's', 'd', '^', '<', 'v', '>', 'W', 'A', 'S', 'D']) :
    is_snake c = true := by
  simp only [List.mem_cons, List.mem_singleton, List.not_mem_nil, or_false] at h
  rcases h with h | h | h | h | h | h | h | h | h | h | h | h <;> subst h <;> decide

theorem move_of_body {c : Char} (h : c ∈ ['^', '<', 'v', '>']) :
    c ∈ ['w', 'a', 's', 'd', '^', '<', 'v', '>', 'W', 'A', 'S', 'D'] := by
  simp only [List.mem_cons, List.mem_singleton, List.not_mem_nil, or_false] at h
  rcases h with h | h | h | h <;> subst h <;> decide

theorem is_tail_mem {c : Char} (h : is_tail c = true) : c ∈ ['w', 'a', 's', 'd'] := by
  simp only [is_tail, TAIL_LEFT, TAIL_RIGHT, TAIL_UP, TAIL_DOWN, Bool.or_eq_true,
    beq_iff_eq] at h
  simp only [List.mem_cons, List.mem_singleton, List.not_mem_nil, or_false]
  tauto

theorem is_body_mem {c : Char} (h : is_body c = true) : c ∈ ['^', '<', 'v', '>'] := by
  simp only [is_body, BODY_LEFT, BODY_RIGHT, BODY_UP, BODY_DOWN, Bool.or_eq_true,
    beq_iff_eq] at h
  simp only [List.mem_cons, List.mem_singleton, List.not_mem_nil, or_false]
  tauto

theorem is_live_head_mem {c : Char} (h : is_live_head c = true) : c ∈ ['W', 'A', 'S', 'D'] := by
  simp only [is_live_head, is_head, HEAD_LEFT, HEAD_RIGHT, HEAD_UP, HEAD_DOWN, DEAD_SNAKE,
    Bool.or_eq_true, Bool.and_eq_true, beq_iff_eq, bne_iff_ne, ne_eq] at h
  simp only [List.mem_cons, List.mem_singleton, List.not_mem_nil, or_false]
  tauto

theorem is_snake_of_tail {c : Char} (h : c ∈ ['w', 'a', 's', 'd']) : is_snake c = true := by
  simp only [List.mem_cons, List.mem_singleton, List.not_mem_nil, or_false] at h
  rcases h with h | h | h | h <;> subst h <;> decide

theorem head_to_body_mem {c : Char} (h : c ∈ ['W', 'A', 'S', 'D']) :
    head_to_body c ∈ ['^', '<', 'v', '>'] := by
  simp only [List.mem_cons, List.mem_singleton, List.not_mem_nil, or_false] at h
  rcases h with h | h | h | h <;> subst h <;> decide

theorem body_to_tail_mem {c : Char} (h : c ∈ ['^', '<', 'v', '>']) :
    body_to_tail c ∈ ['w', 'a', 's', 'd'] := by
  simp only [List.mem_cons, List.mem_singleton, List.not_mem_nil, or_false] at h
  rcases h with h | h | h | h <;> subst h <;> decide

theorem not_snake_absurd {c : Char} {P : Prop} (h1 : is_snake c = true)
    (h2 : is_snake c = false) : P := by
  rw [h1] at h2; exact absurd h2 (by decide)

/-- In the situation of a plain move the four cells involved are pairwise
distinct, but for the cell `N` ahead of the tail, which may be the head cell:
`T ≠ head`, `tail ≠ head`, `tail ≠ T`, `N ≠ T`, `N ≠ tail`. -/
theorem plain_move_distinct {g : game_t} {snum : Nat} {s : snake_t} {h t b x : Char}
    (_hs : g.snakes[snum]? = some s)
    (hh : get_board_at g s.head_row s.head_col = some h)
    (hdir : h ∈ ['W', 'A', 'S', 'D'])
    (hT : get_board_at g (get_next_row s.head_row h) (get_next_col s.head_col h) = some x)
    (hx : is_snake x = false)
    (ht : get_board_at g s.tail_row s.tail_col = some t)
    (hN : (get_next_row s.tail_row t = s.head_row ∧ get_next_col s.tail_col t = s.head_col) ∨
      (get_board_at g (get_next_row s.tail_row t) (get_next_col s.tail_col t) = some b ∧
        b ∈ ['^', '<', 'v', '>'])) :
    ¬(get_next_row s.head_row h = s.head_row ∧ get_next_col s.head_col h = s.head_col) ∧
    ¬(s.tail_row = s.head_row ∧ s.tail_col = s.head_col) ∧
    ¬(s.tail_row = get_next_row s.head_row h ∧ s.tail_col = get_next_col s.head_col h) ∧
    ¬(get_next_row s.tail_row t = get_next_row s.head_row h ∧
      get_next_col s.tail_col t = get_next_col s.head_col h) ∧
    ¬(get_next_row s.tail_row t = s.tail_row ∧ get_next_col s.tail_col t = s.tail_col) := by
  have hhs : is_snake h = true := is_snake_of_head hdir
  -- the look-ahead cell is not the head cell
  have hTh : ¬(get_next_row s.head_row h = s.head_row ∧ get_next_col s.head_col h = s.head_col) := by
    rintro ⟨h1, h2⟩
    rw [h1, h2, hh] at hT
    simp only [Option.some.injEq] at hT
    rw [hT] at hhs; exact not_snake_absurd hhs hx
  -- the tail cell is neither the head cell nor the look-ahead cell
  have hth : ¬(s.tail_row = s.head_row ∧ s.tail_col = s.head_col) := by
    rintro ⟨h1, h2⟩
    rw [h1, h2, hh] at ht
    simp only [Option.some.injEq] at ht
    subst ht
    rw [h1, h2] at hN
    rcases hN with hN | ⟨hN, hb⟩
    · exact hTh hN
    · rw [hT] at hN
      simp only [Option.some.injEq] at hN
      subst hN
      exact not_snake_absurd (is_snake_of_body hb) hx
  have htT : ¬(s.tail_row = get_next_row s.head_row h ∧ s.tail_col = get_next_col s.head_col h) := by
    rintro ⟨h1, h2⟩
    rw [← h1, ← h2, ht] at hT
    simp only [Option.some.injEq] at hT
    subst hT
    have hstill : t ∉ ['w', 'a', 's', 'd', '^', '<', 'v', '>', 'W', 'A', 'S', 'D'] := by
      intro hmem
      exact not_snake_absurd (is_snake_of_move hmem) hx
    obtain ⟨e1, e2⟩ := next_self_of_still s.tail_row s.tail_col hstill
    rw [e1, e2] at hN
    rcases hN with hN | ⟨hN, hb⟩
    · exact hth hN
    · rw [ht] at hN
      simp only [Option.some.injEq] at hN
      subst hN
      exact hstill (move_of_body hb)
  -- the cell ahead of the tail is not the look-ahead cell
  have hNT : ¬(get_next_row s.tail_row t = get_next_row s.head_row h ∧
      get_next_col s.tail_col t = get_next_col s.head_col h) := by
    rintro ⟨h1, h2⟩
    rcases hN with hN | ⟨hN, hb⟩
    · exact hTh ⟨h1 ▸ hN.1, h2 ▸ hN.2⟩
    · rw [h1, h2, hT] at hN
      simp only [Option.some.injEq] at hN
      subst hN
      exact not_snake_absurd (is_snake_of_body hb) hx
  refine ⟨hTh, hth, htT, hNT, ?_⟩
  intro hNt
  rcases hN with hN | ⟨hN, hb⟩
  · exact hth ⟨hNt.1 ▸ hN.1, hNt.2 ▸ hN.2⟩
  · rw [hNt.1, hNt.2, ht] at hN
    simp only [Option.some.injEq] at hN
    subst hN
    exact next_ne_self_of_move s.tail_row s.tail_col (move_of_body hb) hNt

/-- The plain move of one snake, cell by cell: the board after `update_snake`
when the head glyph is directional, the look-ahead cell `T` holds a glyph that
is no head, tail or body glyph, and the cell `N` ahead of the tail is the old
head cell or holds a body glyph `b`. -/
theorem update_snake_spec {g : game_t} {snum : Nat} {s : snake_t} {h t b x : Char}
    (hs : g.snakes[snum]? = some s)
    (hh : get_board_at g s.head_row s.head_col = some h)
    (hdir : h ∈ ['W', 'A', 'S', 'D'])
    (hT : get_board_at g (get_next_row s.head_row h) (get_next_col s.head_col h) = some x)
    (hx : is_snake x = false)
    (ht : get_board_at g s.tail_row s.tail_col = some t)
    (hN : (get_next_row s.tail_row t = s.head_row ∧ get_next_col s.tail_col t = s.head_col) ∨
      (get_board_at g (get_next_row s.tail_row t) (get_next_col s.tail_col t) = some b ∧
        b ∈ ['^', '<', 'v', '>'])) :
    ∃ g1, update_snake g snum = some g1 ∧
      g1.snakes = g.snakes.set snum
        ⟨get_next_row s.tail_row t, get_next_col s.tail_col t,
          get_next_row s.head_row h, get_next_col s.head_col h, s.live⟩ ∧
      (∀ r c, get_board_at g1 r c =
        if r = get_next_row s.tail_row t ∧ c = get_next_col s.tail_col t then
          some (body_to_tail
            (if get_next_row s.tail_row t = s.head_row ∧ get_next_col s.tail_col t = s.head_col
              then head_to_body h else b))
        else if r = s.tail_row ∧ c = s.tail_col then some ' '
        else if r = s.head_row ∧ c = s.head_col then some (head_to_body h)
        else if r = get_next_row s.head_row h ∧ c = get_next_col s.head_col h then some h
        else get_board_at g r c) ∧
      snake_cells g1 + (is_snake t).toNat = snake_cells g + 1 := by
  obtain ⟨hTh, hth, htT, hNT, hNt⟩ := plain_move_distinct hs hh hdir hT hx ht hN
  obtain ⟨ga, hga, hsa, hca⟩ := update_head_spec hs hh hT
  have hsa1 : ga.snakes[snum]? = some
      ⟨s.tail_row, s.tail_col, get_next_row s.head_row h, get_next_col s.head_col h, s.live⟩ := by
    rw [hsa, List.getElem?_set_self (getElem?_lt_length hs)]
  have hta : get_board_at ga s.tail_row s.tail_col = some t := by
    rw [hca, if_neg hth, if_neg htT, ht]
  have hNa : get_board_at ga (get_next_row s.tail_row t) (get_next_col s.tail_col t) =
      some (if get_next_row s.tail_row t = s.head_row ∧ get_next_col s.tail_col t = s.head_col
        then head_to_body h else b) := by
    rw [hca]
    rcases hN with hN | ⟨hN, hb⟩
    · rw [if_pos hN, if_pos hN]
    · by_cases hNh : get_next_row s.tail_row t = s.head_row ∧
          get_next_col s.tail_col t = s.head_col
      · rw [if_pos hNh, if_pos hNh]
      · rw [if_neg hNh, if_neg hNT, if_neg hNh, hN]
  obtain ⟨gb, hgb, hsb, hcb⟩ := update_tail_spec hsa1 hta hNa
  refine ⟨gb, ?_, ?_, ?_, ?_⟩
  · simp only [update_snake, hga, hgb]
  · rw [hsb, hsa, List.set_set]
  · intro r c
    rw [hcb, hca]
    rfl
  · have e1 := update_head_cells hs hh hT hga
    have e2 := update_tail_cells hsa1 hta hNa hNt hgb
    have hb1 : (if get_next_row s.tail_row t = s.head_row ∧
        get_next_col s.tail_col t = s.head_col then head_to_body h else b) ∈
        ['^', '<', 'v', '>'] := by
      rcases hN with hN | ⟨-, hb⟩
      · rw [if_pos hN]; exact head_to_body_mem hdir
      · split
        · exact head_to_body_mem hdir
        · exact hb
    rw [is_snake_of_body hb1, is_snake_of_tail (body_to_tail_mem hb1)] at e2
    rw [hx, is_snake_of_body (head_to_body_mem hdir)] at e1
    simp only [Bool.toNat_true, Bool.toNat_false] at e1 e2
    omega


/-- C1 as stated fails for a snake of two cells, where the cell ahead of the
tail is the old head cell: on the row `dD ` the tick gives ` dD`, so the old
head cell (0,1) ends holding the tail glyph `d`, not `head_to_body 'D' = '>'`. -/
theorem plain_move_counterexample :
    get_board_at two_cell_game 0 1 = some 'D' ∧
    get_board_at two_cell_game 0 (get_next_col 1 'D') = some ' ' ∧
    (get_next_row 0 'd' = 0 ∧ get_next_col 0 'd' = 1) ∧
    update_game no_food two_cell_game =
      some ⟨[[' ', 'd', 'D', LF]], [⟨0, 1, 0, 2, true⟩]⟩ ∧
    get_board_at ⟨[[' ', 'd', 'D', LF]], [⟨0, 1, 0, 2, true⟩]⟩ 0 1 = some 'd' ∧
    some 'd' ≠ some (head_to_body 'D') := by
  decide

/-- C1, amended (plain move). At the moment the tick reaches the snake of index
`snum` (state `gk`), if its head cell holds a directional head glyph `h`, its
look-ahead cell `T` holds the empty glyph, and the cell `N` ahead of its tail is
the old head cell or holds a body glyph `b`, then the loop body leaves `T`
holding `h`, `N` holding `body_to_tail` of the glyph found there
(`head_to_body h` when `N` is the old head cell, `b` otherwise), the old head
cell holding `head_to_body h` unless it is `N`, the old tail cell holding the
empty glyph, the record with head `T`, tail `N` and the alive flag as before,
every other record and every other board cell unchanged. -/
theorem plain_move (f : List (List Char) → List (List Char)) (g gk : game_t)
    (snum : Nat) (s : snake_t) (h t b : Char)
    (hlt : snum < g.num_snakes)
    (hpre : update_game_from f snum 0 g = some gk)
    (hs : gk.snakes[snum]? = some s)
    (hh : get_board_at gk s.head_row s.head_col = some h)
    (hdir : h ∈ ['W', 'A', 'S', 'D'])
    (hT : get_board_at gk (get_next_row s.head_row h) (get_next_col s.head_col h) = some ' ')
    (ht : get_board_at gk s.tail_row s.tail_col = some t)
    (hN : (get_next_row s.tail_row t = s.head_row ∧ get_next_col s.tail_col t = s.head_col) ∨
      (get_board_at gk (get_next_row s.tail_row t) (get_next_col s.tail_col t) = some b ∧
        b ∈ ['^', '<', 'v', '>'])) :
    ∃ g1, update_game_body f gk snum = some g1 ∧
      update_game f g = update_game_from f (g.num_snakes - (snum + 1)) (snum + 1) g1 ∧
      get_board_at g1 (get_next_row s.head_row h) (get_next_col s.head_col h) = some h ∧
      get_board_at g1 s.head_row s.head_col =
        some (if get_next_row s.tail_row t = s.head_row ∧ get_next_col s.tail_col t = s.head_col
          then body_to_tail (head_to_body h) else head_to_body h) ∧
      get_board_at g1 (get_next_row s.tail_row t) (get_next_col s.tail_col t) =
        some (body_to_tail
          (if get_next_row s.tail_row t = s.head_row ∧ get_next_col s.tail_col t = s.head_col
            then head_to_body h else b)) ∧
      get_board_at g1 s.tail_row s.tail_col = some ' ' ∧
      g1.snakes = gk.snakes.set snum
        ⟨get_next_row s.tail_row t, get_next_col s.tail_col t,
          get_next_row s.head_row h, get_next_col s.head_col h, s.live⟩ ∧
      g1.snakes[snum]? = some
        ⟨get_next_row s.tail_row t, get_next_col s.tail_col t,
          get_next_row s.head_row h, get_next_col s.head_col h, s.live⟩ ∧
      ∀ r c, ¬(r = get_next_row s.head_row h ∧ c = get_next_col s.head_col h) →
        ¬(r = s.head_row ∧ c = s.head_col) →
        ¬(r = get_next_row s.tail_row t ∧ c = get_next_col s.tail_col t) →
        ¬(r = s.tail_row ∧ c = s.tail_col) →
        get_board_at g1 r c = get_board_at gk r c := by
  have hx : is_snake ' ' = false := by decide
  obtain ⟨hTh, hth, htT, hNT, hNt⟩ := plain_move_distinct hs hh hdir hT hx ht hN
  obtain ⟨g1, hg1, hsn, hcell, -⟩ := update_snake_spec hs hh hdir hT hx ht hN
  have hsq : next_square gk snum = some ' ' := by rw [next_square_eq hs hh, hT]
  have hbody : update_game_body f gk snum = some g1 := by
    simp only [update_game_body, hsq]
    rw [if_neg (by decide), if_neg (by decide)]
    exact hg1
  refine ⟨g1, hbody, ?_, ?_, ?_, ?_, ?_, hsn, ?_, ?_⟩
  · rw [update_game_split f g gk snum hlt hpre, hbody]; rfl
  · rw [hcell, if_neg (fun e => hNT ⟨e.1.symm, e.2.symm⟩), if_neg (fun e => htT ⟨e.1.symm, e.2.symm⟩),
      if_neg hTh, if_pos ⟨rfl, rfl⟩]
  · rw [hcell]
    by_cases hNh : get_next_row s.tail_row t = s.head_row ∧ get_next_col s.tail_col t = s.head_col
    · rw [if_pos ⟨hNh.1.symm, hNh.2.symm⟩, if_pos hNh, if_pos hNh]
    · rw [if_neg (fun e => hNh ⟨e.1.symm, e.2.symm⟩), if_neg (fun e => hth ⟨e.1.symm, e.2.symm⟩),
        if_pos ⟨rfl, rfl⟩, if_neg hNh]
  · rw [hcell, if_pos ⟨rfl, rfl⟩]
  · rw [hcell, if_neg (fun e => hNt ⟨e.1.symm, e.2.symm⟩), if_pos ⟨rfl, rfl⟩]
  · rw [hsn, List.getElem?_set_self (getElem?_lt_length hs)]
  · intro r c h1 h2 h3 h4
    rw [hcell, if_neg h3, if_neg h4, if_neg h2, if_neg h1]


/-- Witness of `plain_move`: the snake `d>D` with an empty cell ahead. -/
theorem plain_move_witness :
    ∃ g1, update_game_body no_food three_cell_game 0 = some g1 ∧
      get_board_at g1 0 3 = some 'D' ∧ get_board_at g1 0 2 = some '>' ∧
      get_board_at g1 0 1 = some 'd' ∧ get_board_at g1 0 0 = some ' ' := by
  obtain ⟨g1, h1, -, h3, h4, h5, h6, -⟩ :=
    plain_move no_food three_cell_game three_cell_game 0 ⟨0, 0, 0, 2, true⟩ 'D' 'd' '>'
      (by decide) rfl rfl rfl (by decide) rfl rfl (Or.inr ⟨rfl, by decide⟩)
  exact ⟨g1, h1, h3, h4, h5, h6⟩

/-! ## Growth -/

/-- C3 (growth). At the moment the tick reaches the snake of index `snum` (state
`gk`), if the look-ahead cell `T` of the snake (head cell holding a head glyph
`h`, tail cell holding a tail glyph `t`) holds the fruit glyph, then `update_head`
succeeds with a state `ga` in which `T` holds `h`, the old head cell holds the
body glyph `head_to_body h`, the record has head `T` and its tail coordinate and
alive flag as before, the tail cell and every cell other than `T` and the old
head cell are unchanged; the loop body returns `add_food` applied once to `ga`,
and in a game of one snake this is the result of the whole tick. -/
theorem growth (f : List (List Char) → List (List Char)) (g gk : game_t)
    (snum : Nat) (s : snake_t) (h t : Char)
    (hlt : snum < g.num_snakes)
    (hpre : update_game_from f snum 0 g = some gk)
    (hs : gk.snakes[snum]? = some s)
    (hh : get_board_at gk s.head_row s.head_col = some h)
    (hhead : h ∈ ['W', 'A', 'S', 'D'])
    (ht : get_board_at gk s.tail_row s.tail_col = some t)
    (htail : t ∈ ['w', 'a', 's', 'd'])
    (hT : get_board_at gk (get_next_row s.head_row h) (get_next_col s.head_col h) = some '*') :
    ∃ ga, update_head gk snum = some ga ∧
      update_game_body f gk snum = some (call_add_food f ga) ∧
      update_game f g =
        update_game_from f (g.num_snakes - (snum + 1)) (snum + 1) (call_add_food f ga) ∧
      (g.num_snakes = 1 → update_game f g = some (call_add_food f ga)) ∧
      (call_add_food f ga).board = f ga.board ∧
      (call_add_food f ga).snakes = ga.snakes ∧
      get_board_at ga (get_next_row s.head_row h) (get_next_col s.head_col h) = some h ∧
      get_board_at ga s.head_row s.head_col = some (head_to_body h) ∧
      head_to_body h ∈ ['^', '<', 'v', '>'] ∧
      ga.snakes = gk.snakes.set snum
        ⟨s.tail_row, s.tail_col, get_next_row s.head_row h, get_next_col s.head_col h,
          s.live⟩ ∧
      ga.snakes[snum]? = some
        ⟨s.tail_row, s.tail_col, get_next_row s.head_row h, get_next_col s.head_col h,
          s.live⟩ ∧
      get_board_at ga s.tail_row s.tail_col = some t ∧
      ∀ r c, ¬(r = get_next_row s.head_row h ∧ c = get_next_col s.head_col h) →
        ¬(r = s.head_row ∧ c = s.head_col) →
        get_board_at ga r c = get_board_at gk r c := by
  obtain ⟨ga, hga, hsn, hcell⟩ := update_head_spec hs hh hT
  have hhs := is_snake_of_head hhead
  have hts := is_snake_of_tail htail
  have hTh : ¬(get_next_row s.head_row h = s.head_row ∧
      get_next_col s.head_col h = s.head_col) := by
    rintro ⟨h1, h2⟩
    rw [h1, h2, hh] at hT
    simp only [Option.some.injEq] at hT
    rw [hT] at hhs; exact absurd hhs (by decide)
  have hth : ¬(s.tail_row = s.head_row ∧ s.tail_col = s.head_col) := by
    rintro ⟨h1, h2⟩
    rw [h1, h2, hh] at ht
    simp only [Option.some.injEq] at ht
    subst ht
    simp only [List.mem_cons, List.mem_singleton, List.not_mem_nil, or_false] at hhead htail
    rcases hhead with e | e | e | e <;> subst e <;> simp at htail
  have htT : ¬(s.tail_row = get_next_row s.head_row h ∧
      s.tail_col = get_next_col s.head_col h) := by
    rintro ⟨h1, h2⟩
    rw [← h1, ← h2, ht] at hT
    simp only [Option.some.injEq] at hT
    rw [hT] at hts; exact absurd hts (by decide)
  have hsq : next_square gk snum = some '*' := by rw [next_square_eq hs hh, hT]
  have hbody : update_game_body f gk snum = some (call_add_food f ga) := by
    simp only [update_game_body, hsq]
    rw [if_neg (by decide), if_pos (by decide)]
    simp only [update_snake_when_eat_fruit, hga]
  have hsplit : update_game f g =
      update_game_from f (g.num_snakes - (snum + 1)) (snum + 1) (call_add_food f ga) := by
    rw [update_game_split f g gk snum hlt hpre, hbody]; rfl
  refine ⟨ga, hga, hbody, hsplit, ?_, rfl, rfl, ?_, ?_, head_to_body_mem hhead, hsn, ?_, ?_, ?_⟩
  · intro hone
    rw [hsplit, hone]
    have : snum = 0 := by omega
    subst this
    rfl
  · rw [hcell, if_neg hTh, if_pos ⟨rfl, rfl⟩]
  · rw [hcell, if_pos ⟨rfl, rfl⟩]
  · rw [hsn, List.getElem?_set_self (getElem?_lt_length hs)]
  · rw [hcell, if_neg hth, if_neg htT, ht]
  · intro r c h1 h2
    rw [hcell, if_neg h2, if_neg h1]

/-- Witness of `growth`: the snake `dD` facing a fruit; the food placer adds a
row below the grid. -/
theorem growth_witness :
    update_game (fun b => b ++ [['*', LF]]) fruit_game =
      some ⟨[['d', '>', 'D', LF], ['*', LF]], [⟨0, 0, 0, 2, true⟩]⟩ := by
  obtain ⟨ga, h1, -, -, h4, -⟩ :=
    growth (fun b => b ++ [['*', LF]]) fruit_game fruit_game 0 ⟨0, 0, 0, 1, true⟩ 'D' 'd'
      (by decide) rfl rfl rfl (by decide) rfl (by decide) rfl
  rw [h4 rfl]
  have : ga = ⟨[['d', '>', 'D', LF]], [⟨0, 0, 0, 2, true⟩]⟩ := by
    have h2 : update_head fruit_game 0 = some ⟨[['d', '>', 'D', LF]], [⟨0, 0, 0, 2, true⟩]⟩ := by
      decide
    rw [h1] at h2
    exact Option.some.inj h2
  subst this
  rfl


/-! ## Length conservation -/

theorem holds_some {g : game_t} {row col : Nat} {ok : Char → Bool}
    (h : holds g row col ok = true) : ∃ c, get_board_at g row col = some c ∧ ok c = true := by
  unfold holds at h
  split at h
  · simp at h
  · rename_i c hc
    exact ⟨c, hc, h⟩

/-- What the invariant gives at the two ends of the snake: a tail glyph `t` at
the tail, a live head glyph `hd` at the head, and the cell ahead of the tail is
the head cell or holds a body glyph. -/
theorem well_formed_snake_ends {g : game_t} {s : snake_t} {mids : List (Nat × Nat)}
    (h : well_formed_snake g s mids = true) :
    ∃ t hd b, get_board_at g s.tail_row s.tail_col = some t ∧ t ∈ ['w', 'a', 's', 'd'] ∧
      get_board_at g s.head_row s.head_col = some hd ∧ hd ∈ ['W', 'A', 'S', 'D'] ∧
      ((get_next_row s.tail_row t = s.head_row ∧ get_next_col s.tail_col t = s.head_col) ∨
        (get_board_at g (get_next_row s.tail_row t) (get_next_col s.tail_col t) = some b ∧
          b ∈ ['^', '<', 'v', '>'])) := by
  simp only [well_formed_snake, Bool.and_eq_true] at h
  obtain ⟨⟨⟨h1, h2⟩, h3⟩, h4⟩ := h
  obtain ⟨t, ht, htt⟩ := holds_some h1
  obtain ⟨hd, hh, hhh⟩ := holds_some h2
  cases mids with
  | nil =>
    simp only [List.nil_append, is_path, next_cell, ht, Bool.and_true, beq_iff_eq,
      Option.some.injEq, Prod.mk.injEq] at h4
    exact ⟨t, hd, ' ', ht, is_tail_mem htt, hh, is_live_head_mem hhh, Or.inl h4⟩
  | cons m ms =>
    simp only [List.cons_append, is_path, next_cell, ht, Bool.and_eq_true, beq_iff_eq,
      Option.some.injEq] at h4
    simp only [List.all_cons, Bool.and_eq_true] at h3
    obtain ⟨b, hb, hbb⟩ := holds_some h3.1
    refine ⟨t, hd, b, ht, is_tail_mem htt, hh, is_live_head_mem hhh, Or.inr ⟨?_, is_body_mem hbb⟩⟩
    rw [← hb, ← h4.1]

/-- C4 (length conservation). In a game of one well-formed snake whose
look-ahead cell is in the grid, one tick with a food placer that does nothing
succeeds, and the number of cells holding a snake glyph is unchanged with the
head cell holding `x` when the tick is a death (look-ahead cell wall or snake
glyph), grows by exactly one when it is a growth (look-ahead cell fruit), and is
unchanged when it is a plain move (any other look-ahead cell). -/
theorem length_conservation (g : game_t) (s : snake_t) (mids : List (Nat × Nat)) (sq : Char)
    (hone : g.snakes = [s])
    (hwf : well_formed_snake g s mids = true)
    (hsq : next_square g 0 = some sq) :
    ∃ g1, update_game no_food g = some g1 ∧
      ((is_snake sq = true ∨ sq = '#') →
        update_snake_when_dead g 0 = some g1 ∧ snake_cells g1 = snake_cells g ∧
          get_board_at g1 s.head_row s.head_col = some 'x') ∧
      (sq = '*' →
        update_snake_when_eat_fruit g 0 = some g1 ∧ snake_cells g1 = snake_cells g + 1) ∧
      (is_snake sq = false → sq ≠ '#' → sq ≠ '*' →
        update_snake g 0 = some g1 ∧ snake_cells g1 = snake_cells g) := by
  obtain ⟨t, hd, b, ht, htt, hh, hhh, hN⟩ := well_formed_snake_ends hwf
  have hs : g.snakes[0]? = some s := by rw [hone]; rfl
  have hlen : g.snakes.length = 1 := by rw [hone]; rfl
  have hT : get_board_at g (get_next_row s.head_row hd) (get_next_col s.head_col hd) =
      some sq := by rw [← next_square_eq hs hh, hsq]
  rw [update_game_single no_food g hlen]
  by_cases hdead : is_snake sq = true ∨ sq = '#'
  · -- death
    obtain ⟨g1, hg1, -, hcell⟩ := update_snake_when_dead_spec hs hh
    have hbranch : (is_snake sq || sq == WALL_CHAR) = true := by
      rcases hdead with e | e
      · simp [e]
      · subst e; decide
    refine ⟨g1, ?_, ?_, ?_, ?_⟩
    · simp only [update_game_body, hsq, hbranch, if_true, hg1]
    · intro _
      have e1 := update_snake_when_dead_cells hs hh hg1
      rw [is_snake_of_head hhh] at e1
      simp only [Bool.toNat_true] at e1
      refine ⟨hg1, by omega, ?_⟩
      rw [hcell, if_pos ⟨rfl, rfl⟩]; rfl
    · intro e
      subst e
      rcases hdead with e | e
      · exact absurd e (by decide)
      · exact absurd e (by decide)
    · intro e1 e2
      rcases hdead with e | e
      · rw [e1] at e; exact absurd e (by decide)
      · exact absurd e e2
  · have hns : is_snake sq = false := by
      cases e : is_snake sq
      · rfl
      · exact absurd (Or.inl e) hdead
    have hnw : sq ≠ '#' := fun e => hdead (Or.inr e)
    have hbranch : ¬((is_snake sq || sq == WALL_CHAR) = true) := by
      simp only [Bool.or_eq_true, beq_iff_eq, WALL_CHAR]
      exact hdead
    by_cases hfruit : sq = '*'
    · -- growth
      subst hfruit
      obtain ⟨ga, hga, -, -⟩ := update_head_spec hs hh hT
      refine ⟨ga, ?_, ?_, ?_, ?_⟩
      · simp only [update_game_body, hsq]
        rw [if_neg hbranch, if_pos (by decide)]
        simp only [update_snake_when_eat_fruit, hga]
        rfl
      · intro e; exact absurd e hdead
      · intro _
        have e1 := update_head_cells hs hh hT hga
        rw [is_snake_of_body (head_to_body_mem hhh)] at e1
        simp only [Bool.toNat_true, show is_snake '*' = false by decide,
          Bool.toNat_false] at e1
        exact ⟨hga, by omega⟩
      · intro _ _ e; exact absurd rfl e
    · -- plain move
      obtain ⟨g1, hg1, -, -, hcnt⟩ := update_snake_spec hs hh hhh hT hns ht hN
      refine ⟨g1, ?_, ?_, ?_, ?_⟩
      · simp only [update_game_body, hsq]
        rw [if_neg hbranch, if_neg (by simpa [FRUIT_CHAR] using hfruit)]
        exact hg1
      · intro e; exact absurd e hdead
      · intro e; exact absurd e hfruit
      · intro _ _ _
        rw [is_snake_of_tail htt] at hcnt
        simp only [Bool.toNat_true] at hcnt
        exact ⟨hg1, by omega⟩

/-- Witness of `length_conservation`: the snake `d>D` with an empty cell ahead. -/
theorem length_conservation_witness :
    ∃ g1, update_game no_food three_cell_game = some g1 ∧ snake_cells g1 = 3 ∧
      snake_cells three_cell_game = 3 := by
  obtain ⟨g1, h1, -, -, h4⟩ :=
    length_conservation three_cell_game ⟨0, 0, 0, 2, true⟩ [(0, 1)] ' ' rfl (by decide)
      (by decide)
  have h5 := (h4 (by decide) (by decide) (by decide)).2
  refine ⟨g1, h1, ?_, by decide⟩
  rw [h5]; decide


/-! ## Order of processing -/

theorem get_next_row_head_to_body (r : Nat) {c : Char} (h : c ∈ ['W', 'A', 'S', 'D']) :
    get_next_row r (head_to_body c) = get_next_row r c := by
  simp only [List.mem_cons, List.mem_singleton, List.not_mem_nil, or_false] at h
  rcases h with h | h | h | h <;> subst h <;> rfl

theorem get_next_col_head_to_body (r : Nat) {c : Char} (h : c ∈ ['W', 'A', 'S', 'D']) :
    get_next_col r (head_to_body c) = get_next_col r c := by
  simp only [List.mem_cons, List.mem_singleton, List.not_mem_nil, or_false] at h
  rcases h with h | h | h | h <;> subst h <;> rfl

theorem get_next_row_body_to_tail (r : Nat) {c : Char} (h : c ∈ ['^', '<', 'v', '>']) :
    get_next_row r (body_to_tail c) = get_next_row r c := by
  simp only [List.mem_cons, List.mem_singleton, List.not_mem_nil, or_false] at h
  rcases h with h | h | h | h <;> subst h <;> rfl

theorem get_next_col_body_to_tail (r : Nat) {c : Char} (h : c ∈ ['^', '<', 'v', '>']) :
    get_next_col r (body_to_tail c) = get_next_col r c := by
  simp only [List.mem_cons, List.mem_singleton, List.not_mem_nil, or_false] at h
  rcases h with h | h | h | h <;> subst h <;> rfl

theorem head_ne_body {h b : Char} (hh : h ∈ ['W', 'A', 'S', 'D']) (hb : b ∈ ['^', '<', 'v', '>']) :
    h ≠ b := by
  simp only [List.mem_cons, List.mem_singleton, List.not_mem_nil, or_false] at hh hb
  rcases hh with e | e | e | e <;> subst e <;> rcases hb with e | e | e | e <;> subst e <;>
    decide

/-- C5 (sequential ordering). The loop of `update_game` runs the body for the
record of index `snum` and then goes on with index `snum + 1` from the state the
body produced. In a game of two live snakes whose heads point at the same empty
cell `T` (the cell ahead of the tail of the first being its head cell or a body
glyph), the first record moves its head into `T`; the look-ahead of the second,
read in the state left by the first, is the head glyph just written there, and
the second dies in place: head cell `x`, alive flag false, coordinates
unchanged. -/
theorem sequential_order (f : List (List Char) → List (List Char)) (g : game_t)
    (s0 s1 : snake_t) (h0 h1 t0 b0 : Char)
    (hsn : g.snakes = [s0, s1])
    (hl0 : s0.live = true) (_hl1 : s1.live = true)
    (hh0 : get_board_at g s0.head_row s0.head_col = some h0)
    (hd0 : h0 ∈ ['W', 'A', 'S', 'D'])
    (hh1 : get_board_at g s1.head_row s1.head_col = some h1)
    (hd1 : h1 ∈ ['W', 'A', 'S', 'D'])
    (hT : get_board_at g (get_next_row s0.head_row h0) (get_next_col s0.head_col h0) = some ' ')
    (hsame : get_next_row s1.head_row h1 = get_next_row s0.head_row h0 ∧
      get_next_col s1.head_col h1 = get_next_col s0.head_col h0)
    (ht0 : get_board_at g s0.tail_row s0.tail_col = some t0)
    (hN0 : (get_next_row s0.tail_row t0 = s0.head_row ∧
        get_next_col s0.tail_col t0 = s0.head_col) ∨
      (get_board_at g (get_next_row s0.tail_row t0) (get_next_col s0.tail_col t0) = some b0 ∧
        b0 ∈ ['^', '<', 'v', '>'])) :
    (∀ n snum gk, update_game_from f (n + 1) snum gk =
      (update_game_body f gk snum).bind (update_game_from f n (snum + 1))) ∧
    ∃ g1 g2, update_game_body f g 0 = some g1 ∧
      update_game_body f g1 1 = some g2 ∧
      update_game f g = some g2 ∧
      get_board_at g1 (get_next_row s0.head_row h0) (get_next_col s0.head_col h0) = some h0 ∧
      next_square g1 1 = some h0 ∧
      get_board_at g2 (get_next_row s0.head_row h0) (get_next_col s0.head_col h0) = some h0 ∧
      get_board_at g2 s1.head_row s1.head_col = some 'x' ∧
      g2.snakes =
        [⟨get_next_row s0.tail_row t0, get_next_col s0.tail_col t0,
            get_next_row s0.head_row h0, get_next_col s0.head_col h0, true⟩,
          ⟨s1.tail_row, s1.tail_col, s1.head_row, s1.head_col, false⟩] := by
  refine ⟨?_, ?_⟩
  · intro n snum gk
    simp only [update_game_from]
    cases update_game_body f gk snum <;> rfl
  have hx : is_snake ' ' = false := by decide
  have hs0 : g.snakes[0]? = some s0 := by rw [hsn]; rfl
  obtain ⟨hTh, hth, htT, hNT, hNt⟩ := plain_move_distinct hs0 hh0 hd0 hT hx ht0 hN0
  obtain ⟨g1, hg1, hsn1, hcell, -⟩ := update_snake_spec hs0 hh0 hd0 hT hx ht0 hN0
  have hsq0 : next_square g 0 = some ' ' := by rw [next_square_eq hs0 hh0, hT]
  have hbody0 : update_game_body f g 0 = some g1 := by
    simp only [update_game_body, hsq0]
    rw [if_neg (by decide), if_neg (by decide)]
    exact hg1
  have hsn1a : g1.snakes =
      [⟨get_next_row s0.tail_row t0, get_next_col s0.tail_col t0,
          get_next_row s0.head_row h0, get_next_col s0.head_col h0, true⟩, s1] := by
    rw [hsn1, hsn, hl0]; rfl
  have hs1 : g1.snakes[1]? = some s1 := by rw [hsn1a]; rfl
  have hT1 : get_board_at g1 (get_next_row s0.head_row h0) (get_next_col s0.head_col h0) =
      some h0 := by
    rw [hcell, if_neg (fun e => hNT ⟨e.1.symm, e.2.symm⟩),
      if_neg (fun e => htT ⟨e.1.symm, e.2.symm⟩), if_neg hTh, if_pos ⟨rfl, rfl⟩]
  -- the head cell of the second snake is none of T, tail of the first
  have h1T : ¬(s1.head_row = get_next_row s0.head_row h0 ∧
      s1.head_col = get_next_col s0.head_col h0) := by
    rintro ⟨e1, e2⟩
    rw [← e1, ← e2, hh1] at hT
    simp only [Option.some.injEq] at hT
    have := is_snake_of_head hd1
    rw [hT] at this; exact absurd this (by decide)
  have h1t : ¬(s1.head_row = s0.tail_row ∧ s1.head_col = s0.tail_col) := by
    rintro ⟨e1, e2⟩
    rw [← e1, ← e2, hh1] at ht0
    simp only [Option.some.injEq] at ht0
    subst ht0
    rw [← e1, ← e2, hsame.1, hsame.2] at hN0
    rcases hN0 with e | ⟨e, hb⟩
    · exact hTh e
    · rw [hT] at e
      simp only [Option.some.injEq] at e
      subst e
      exact absurd hb (by decide)
  -- the glyph at the head cell of the second snake after the first has moved
  have hh1' : ∃ c, get_board_at g1 s1.head_row s1.head_col = some c ∧
      get_next_row s1.head_row c = get_next_row s1.head_row h1 ∧
      get_next_col s1.head_col c = get_next_col s1.head_col h1 := by
    by_cases e01 : s1.head_row = s0.head_row ∧ s1.head_col = s0.head_col
    · have e : h1 = h0 := by
        rw [e01.1, e01.2, hh0] at hh1
        exact (Option.some.inj hh1).symm
      subst e
      by_cases eN : s1.head_row = get_next_row s0.tail_row t0 ∧
          s1.head_col = get_next_col s0.tail_col t0
      · refine ⟨body_to_tail (head_to_body h1), ?_, ?_, ?_⟩
        · rw [hcell, if_pos eN,
            if_pos ⟨eN.1.symm.trans e01.1, eN.2.symm.trans e01.2⟩]
        · rw [get_next_row_body_to_tail _ (head_to_body_mem hd1),
            get_next_row_head_to_body _ hd1]
        · rw [get_next_col_body_to_tail _ (head_to_body_mem hd1),
            get_next_col_head_to_body _ hd1]
      · refine ⟨head_to_body h1, ?_, get_next_row_head_to_body _ hd1,
          get_next_col_head_to_body _ hd1⟩
        rw [hcell, if_neg eN, if_neg h1t, if_pos e01]
    · have eN : ¬(s1.head_row = get_next_row s0.tail_row t0 ∧
          s1.head_col = get_next_col s0.tail_col t0) := by
        rintro ⟨e1, e2⟩
        rcases hN0 with e | ⟨e, hb⟩
        · exact e01 ⟨e1.trans e.1, e2.trans e.2⟩
        · rw [← e1, ← e2, hh1] at e
          simp only [Option.some.injEq] at e
          exact head_ne_body hd1 hb e
      refine ⟨h1, ?_, rfl, rfl⟩
      rw [hcell, if_neg eN, if_neg h1t, if_neg e01, if_neg h1T, hh1]
  obtain ⟨c, hc, hcr, hcc⟩ := hh1'
  have hsq1 : next_square g1 1 = some h0 := by
    rw [next_square_eq hs1 hc, hcr, hcc, hsame.1, hsame.2, hT1]
  obtain ⟨g2, hg2, hsn2, hcell2⟩ := update_snake_when_dead_spec hs1 hc
  have hbody1 : update_game_body f g1 1 = some g2 := by
    simp only [update_game_body, hsq1]
    rw [if_pos (by simp [is_snake_of_head hd0])]
    exact hg2
  refine ⟨g1, g2, hbody0, hbody1, ?_, hT1, hsq1, ?_, ?_, ?_⟩
  · unfold update_game game_t.num_snakes
    rw [hsn]
    simp only [List.length_cons, List.length_nil, update_game_from, hbody0, hbody1]
  · rw [hcell2, if_neg (fun e => h1T ⟨e.1.symm, e.2.symm⟩), hT1]
  · rw [hcell2, if_pos ⟨rfl, rfl⟩]; rfl
  · rw [hsn2, hsn1a]; rfl

/-- Witness of `sequential_order`: two snakes of two cells, one coming from the
west and one from the east, with one empty cell between their heads. -/
theorem sequential_order_witness :
    ∃ g2, update_game no_food race_game = some g2 ∧
      get_board_at g2 0 2 = some 'D' ∧ get_board_at g2 0 3 = some 'x' ∧
      g2.snakes = [⟨0, 1, 0, 2, true⟩, ⟨0, 4, 0, 3, false⟩] := by
  obtain ⟨-, g1, g2, -, -, h3, -, -, h6, h7, h8⟩ :=
    sequential_order no_food race_game ⟨0, 0, 0, 1, true⟩ ⟨0, 4, 0, 3, true⟩ 'D' 'A' 'd' ' '
      rfl rfl rfl rfl (by decide) rfl (by decide) rfl ⟨rfl, rfl⟩ rfl (Or.inl ⟨rfl, rfl⟩)
  exact ⟨g2, h3, h6, h7, h8⟩


/-! ## Dead snakes -/

theorem list_set_same {α : Type} {l : List α} {i : Nat} {a : α} (h : l[i]? = some a) :
    l.set i a = l := by
  apply List.ext_getElem?
  intro j
  by_cases hj : j = i
  · subst hj; rw [List.getElem?_set_self (getElem?_lt_length h), h]
  · rw [List.getElem?_set_ne (Ne.symm hj)]

/-- A record marked not alive whose head cell holds `x` is a fixed point of the
loop body: the look-ahead cell of `x` is the head cell itself. -/
theorem update_game_body_dead (f : List (List Char) → List (List Char)) {g : game_t}
    {snum : Nat} {s : snake_t}
    (hs : g.snakes[snum]? = some s) (hl : s.live = false)
    (hx : get_board_at g s.head_row s.head_col = some 'x') :
    update_game_body f g snum = some g := by
  have hsq : next_square g snum = some 'x' := by
    rw [next_square_eq hs hx]
    exact hx
  have hset : set_board_at g s.head_row s.head_col DEAD_SNAKE = some g := set_board_at_same hx
  have hrec : ({ s with live := false } : snake_t) = s := by
    cases s; simp only at hl; subst hl; rfl
  simp only [update_game_body, hsq]
  rw [if_pos (by decide)]
  simp only [update_snake_when_dead, hs, hset, hrec, list_set_same hs]

/-- C6 as stated fails: a record marked not alive whose head cell still holds a
directional head glyph is advanced like any other (row `dD  `, flag false). -/
theorem dead_record_counterexample :
    (⟨0, 0, 0, 1, false⟩ : snake_t).live = false ∧
    stale_flag_game.snakes[0]? = some ⟨0, 0, 0, 1, false⟩ ∧
    update_game no_food stale_flag_game =
      some ⟨[[' ', 'd', 'D', ' ', LF]], [⟨0, 1, 0, 2, false⟩]⟩ ∧
    (⟨0, 1, 0, 2, false⟩ : snake_t) ≠ ⟨0, 0, 0, 1, false⟩ ∧
    get_board_at stale_flag_game 0 2 = some ' ' ∧
    get_board_at ⟨[[' ', 'd', 'D', ' ', LF]], [⟨0, 1, 0, 2, false⟩]⟩ 0 2 = some 'D' := by
  decide

/-- C6, amended. `update_game` never reads the alive flag; a dead snake is left
alone because of its glyph. At the moment the tick reaches a record whose alive
flag is false and whose head cell holds the dead-head glyph `x`, the loop body
returns the state as it is (records and board), and the tick goes on from it. -/
theorem dead_snake_untouched (f : List (List Char) → List (List Char)) (g gk : game_t)
    (snum : Nat) (s : snake_t)
    (hlt : snum < g.num_snakes)
    (hpre : update_game_from f snum 0 g = some gk)
    (hs : gk.snakes[snum]? = some s) (hl : s.live = false)
    (hx : get_board_at gk s.head_row s.head_col = some 'x') :
    update_game_body f gk snum = some gk ∧
    update_game f g = update_game_from f (g.num_snakes - (snum + 1)) (snum + 1) gk := by
  have hbody := update_game_body_dead f hs hl hx
  refine ⟨hbody, ?_⟩
  rw [update_game_split f g gk snum hlt hpre, hbody]; rfl

/-- Witness of `dead_snake_untouched`: the dead snake `dx` facing a wall. -/
theorem dead_snake_untouched_witness :
    update_game_body no_food dead_game 0 = some dead_game ∧
    update_game no_food dead_game =
      update_game_from no_food (dead_game.num_snakes - (0 + 1)) (0 + 1) dead_game :=
  dead_snake_untouched no_food dead_game dead_game 0 ⟨0, 0, 0, 1, false⟩ (by decide) rfl rfl
    rfl rfl

/-- C7 (idempotent once dead). In a game of one snake whose look-ahead cell
holds the wall glyph or a snake glyph, the tick succeeds, leaves the head cell
holding `x` and the record not alive with its coordinates unchanged, and a
second tick returns exactly the state produced by the first. -/
theorem dead_idempotent (f : List (List Char) → List (List Char)) (g : game_t)
    (s : snake_t) (sq : Char)
    (hone : g.snakes = [s])
    (hsq : next_square g 0 = some sq)
    (hdead : sq = '#' ∨ sq ∈ ['w', 'a', 's', 'd', '^', '<', 'v', '>', 'W', 'A', 'S', 'D', 'x']) :
    ∃ g1, update_game f g = some g1 ∧ update_game f g1 = some g1 ∧
      g1.snakes = [⟨s.tail_row, s.tail_col, s.head_row, s.head_col, false⟩] ∧
      get_board_at g1 s.head_row s.head_col = some 'x' := by
  have hs : g.snakes[0]? = some s := by rw [hone]; rfl
  obtain ⟨s', hd, hs', hh, -⟩ := next_square_some hsq
  have e : s' = s := by rw [hs] at hs'; exact (Option.some.inj hs').symm
  subst e
  obtain ⟨g1, hg1, hsn, hcell⟩ := update_snake_when_dead_spec hs hh
  have hbranch : (is_snake sq || sq == WALL_CHAR) = true := by
    rcases hdead with h | h
    · subst h; decide
    · simp [is_snake_of_mem h]
  have hbody : update_game_body f g 0 = some g1 := by
    simp only [update_game_body, hsq, hbranch, if_true, hg1]
  have hsn1 : g1.snakes = [⟨s'.tail_row, s'.tail_col, s'.head_row, s'.head_col, false⟩] := by
    rw [hsn, hone]; rfl
  have hx1 : get_board_at g1 s'.head_row s'.head_col = some 'x' := by
    rw [hcell, if_pos ⟨rfl, rfl⟩]; rfl
  refine ⟨g1, ?_, ?_, hsn1, hx1⟩
  · rw [update_game_single f g (by rw [hone]; rfl), hbody]
  · rw [update_game_single f g1 (by rw [hsn1]; rfl)]
    exact update_game_body_dead f
      (s := ⟨s'.tail_row, s'.tail_col, s'.head_row, s'.head_col, false⟩)
      (by rw [hsn1]; rfl) rfl hx1

/-- Witness of `dead_idempotent`: the snake `dD` facing a wall. -/
theorem dead_idempotent_witness :
    ∃ g1, update_game no_food wall_game = some g1 ∧ update_game no_food g1 = some g1 ∧
      g1.snakes = [⟨0, 0, 0, 1, false⟩] ∧ get_board_at g1 0 1 = some 'x' :=
  dead_idempotent no_food wall_game ⟨0, 0, 0, 1, true⟩ '#' rfl (by decide) (Or.inl rfl)


/-! ## Scenario A: one tick of the default game -/

/-- The default game: its record and the glyphs of its row 2 around the snake. -/
theorem create_default_game_facts :
    ∃ g0, create_default_game = some g0 ∧
      g0.snakes = [⟨2, 2, 2, 4, true⟩] ∧
      get_board_at g0 2 2 = some 'd' ∧ get_board_at g0 2 3 = some '>' ∧
      get_board_at g0 2 4 = some 'D' ∧ get_board_at g0 2 5 = some ' ' :=
  ⟨create_default_game.get (by decide), by simp, by decide, by decide, by decide, by decide,
    by decide⟩


/-- C8 (scenario A). One tick with a food placer that does nothing, on the game
built by `create_default_game`, gives a board with `D` at (2,5), `>` at (2,4),
`d` at (2,3) and the empty glyph at (2,2), every other cell as in the default
board, and the single record with head (2,5), tail (2,3), alive. -/
theorem scenario_a :
    ∃ g0 g1, create_default_game = some g0 ∧ update_game no_food g0 = some g1 ∧
      get_board_at g1 2 5 = some 'D' ∧ get_board_at g1 2 4 = some '>' ∧
      get_board_at g1 2 3 = some 'd' ∧ get_board_at g1 2 2 = some ' ' ∧
      (∀ r c, ¬(r = 2 ∧ c = 5) → ¬(r = 2 ∧ c = 4) → ¬(r = 2 ∧ c = 3) → ¬(r = 2 ∧ c = 2) →
        get_board_at g1 r c = get_board_at g0 r c) ∧
      g1.snakes = [⟨2, 3, 2, 5, true⟩] := by
  obtain ⟨g0, hg0, hsn, h22, h23, h24, h25⟩ := create_default_game_facts
  have hs : g0.snakes[0]? = some ⟨2, 2, 2, 4, true⟩ := by rw [hsn]; rfl
  obtain ⟨g1, hg1, hsn1, hcell, -⟩ :=
    update_snake_spec (s := ⟨2, 2, 2, 4, true⟩) (h := 'D') (t := 'd') (b := '>') (x := ' ')
      hs h24 (by decide) h25 (by decide) h22 (Or.inr ⟨h23, by decide⟩)
  have hcell2 : ∀ r c, get_board_at g1 r c =
      if r = 2 ∧ c = 3 then some 'd'
      else if r = 2 ∧ c = 2 then some ' '
      else if r = 2 ∧ c = 4 then some '>'
      else if r = 2 ∧ c = 5 then some 'D'
      else get_board_at g0 r c := hcell
  have hsq : next_square g0 0 = some ' ' := by
    rw [next_square_eq hs h24]; exact h25
  have hbody : update_game_body no_food g0 0 = some g1 := by
    simp only [update_game_body, hsq]
    rw [if_neg (by decide), if_neg (by decide)]
    exact hg1
  refine ⟨g0, g1, hg0, ?_, ?_, ?_, ?_, ?_, ?_, ?_⟩
  · rw [update_game_single no_food g0 (by rw [hsn]; rfl), hbody]
  · rw [hcell2]; rfl
  · rw [hcell2]; rfl
  · rw [hcell2]; rfl
  · rw [hcell2]; rfl
  · intro r c e1 e2 e3 e4
    rw [hcell2, if_neg e3, if_neg e4, if_neg e2, if_neg e1]
  · rw [hsn1, hsn]; rfl


/-! ## Reading lines -/

theorem int_of_size_t_fits {n : Nat} (h : n < 2 ^ 31) : int_of_size_t n = (n : Int) := by
  unfold int_of_size_t
  have e : n % 2 ^ 32 = n := Nat.mod_eq_of_lt (by omega)
  rw [e, if_pos h]

theorem int_of_size_t_wraps {n : Nat} (h1 : 2 ^ 31 ≤ n) (h2 : n ≤ 2 ^ 32) :
    int_of_size_t n < 1 := by
  unfold int_of_size_t
  split <;> omega

theorem fgets_fits {n : Nat} (h1 : 0 < n) (h2 : n < 2 ^ 31) (c : Char) (cs : List Char) :
    fgets (int_of_size_t n) (c :: cs) = some (fgets_chars (n - 1) (c :: cs)) := by
  unfold fgets
  rw [int_of_size_t_fits h2, if_neg (by omega)]
  simp

theorem fgets_wraps {n : Nat} (h1 : 2 ^ 31 ≤ n) (h2 : n ≤ 2 ^ 32) (fp : List Char) :
    fgets (int_of_size_t n) fp = none := by
  unfold fgets
  rw [if_pos (int_of_size_t_wraps h1 h2)]


theorem c_string_eq_self {l : List Char} (h : NUL ∉ l) : c_string l = l := by
  unfold c_string
  rw [List.takeWhile_eq_self_iff]
  intro x hx
  simp only [bne_iff_ne, ne_eq]
  intro e
  exact h (e ▸ hx)

theorem c_string_length_le (l : List Char) : (c_string l).length ≤ l.length := by
  unfold c_string
  induction l with
  | nil => simp
  | cons x xs ih =>
    simp only [List.takeWhile_cons]
    split
    · simp only [List.length_cons]; omega
    · simp

/-- What `fgets` stores splits the input, fits the room given, and is not empty
when there is room and input. -/
theorem fgets_chars_split (k : Nat) (fp : List Char) :
    (fgets_chars k fp).1 ++ (fgets_chars k fp).2 = fp ∧
    (fgets_chars k fp).1.length ≤ k ∧
    (0 < k → fp ≠ [] → (fgets_chars k fp).2.length < fp.length) := by
  induction k generalizing fp with
  | zero => simp [fgets_chars]
  | succ n ih =>
    cases fp with
    | nil => simp [fgets_chars]
    | cons c cs =>
      obtain ⟨h1, h2, h3⟩ := ih cs
      simp only [fgets_chars]
      split
      · simp
      · refine ⟨by simp [h1], by simp only [List.length_cons]; omega, ?_⟩
        intro _ _
        have : (fgets_chars n cs).2.length ≤ cs.length := by
          have := congrArg List.length h1
          simp only [List.length_append] at this
          omega
        simp only [List.length_cons]
        omega

/-- On a line `s` followed by its line feed, `fgets` stores the whole line when
there is room for it and the first `k` characters of `s` otherwise. -/
theorem fgets_chars_line (k : Nat) (s rest : List Char) (hs : LF ∉ s) :
    fgets_chars k (s ++ LF :: rest) =
      if s.length < k then (s ++ [LF], rest) else (s.take k, s.drop k ++ LF :: rest) := by
  induction k generalizing s with
  | zero => simp [fgets_chars]
  | succ n ih =>
    cases s with
    | nil => simp [fgets_chars]
    | cons c cs =>
      have hc : c ≠ LF := fun e => hs (by simp [e])
      have hcs : LF ∉ cs := fun e => hs (by simp [e])
      have e := ih cs hcs
      rw [List.cons_append]
      simp only [fgets_chars, if_neg hc, List.length_cons, Nat.add_lt_add_iff_right]
      rw [e]
      split <;> simp

/-- A power of two below `2 ^ (k + 1)` is at most `2 ^ k`. -/
theorem pow_two_le_of_lt {cap k : Nat} (hpow : ∃ j, cap = 2 ^ j) (h : cap < 2 ^ (k + 1)) :
    cap ≤ 2 ^ k := by
  obtain ⟨j, rfl⟩ := hpow
  have hj : j < k + 1 := (Nat.pow_lt_pow_iff_right (by decide)).mp h
  exact Nat.pow_le_pow_right (by decide) (by omega)

/-- One more call of `fgets` on a line `s` followed by its line feed, when the
room left fits an `int`. -/
theorem fgets_line {line : List Char} {cap : Nat} (s rest : List Char) (hs : LF ∉ s)
    (hcap : line.length + 2 ≤ cap) (hint : cap - line.length < 2 ^ 31) :
    fgets (int_of_size_t (cap - line.length)) (s ++ LF :: rest) =
      some (if s.length < cap - line.length - 1 then (s ++ [LF], rest)
        else (s.take (cap - line.length - 1), s.drop (cap - line.length - 1) ++ LF :: rest)) := by
  have hfp : ∃ c cs, s ++ LF :: rest = c :: cs := by
    cases s with
    | nil => exact ⟨_, _, rfl⟩
    | cons c cs => exact ⟨_, _, rfl⟩
  obtain ⟨c, cs, hfp⟩ := hfp
  rw [hfp, fgets_fits (by omega) hint, ← hfp, fgets_chars_line _ s rest hs]

/-- The loop of `read_line` on a line `s` (no line feed, no `NUL`) followed by
its line feed returns the buffer extended by the line and leaves the input after
the line feed, as long as the whole line, its line feed included, has fewer than
`2 ^ 31` characters. -/
theorem read_line_loop_line (fuel : Nat) (line : List Char) (cap : Nat) (s rest : List Char)
    (hs : LF ∉ s) (hz : NUL ∉ s) (hfuel : s.length < fuel) (hcap : line.length + 2 ≤ cap)
    (heven : cap % 2 = 0) (hint : cap - line.length < 2 ^ 31)
    (hlen : line.length + s.length + 1 < 2 ^ 31) :
    read_line_loop fuel line cap (s ++ LF :: rest) = some (some (line ++ s ++ [LF]), rest) := by
  induction fuel generalizing line cap s with
  | zero => omega
  | succ n ih =>
    simp only [read_line_loop, fgets_line s rest hs hcap hint]
    by_cases hroom : s.length < cap - line.length - 1
    · have hz1 : NUL ∉ s ++ [LF] := by
        intro e
        rcases List.mem_append.mp e with e | e
        · exact hz e
        · simp only [List.mem_singleton] at e
          exact absurd e (by decide)
      simp only [if_pos hroom, c_string_eq_self hz1]
      rw [if_pos]
      · simp
      · refine ⟨by simp, ?_⟩
        rw [← List.append_assoc, List.getLast?_concat]
    · have hz1 : NUL ∉ s.take (cap - line.length - 1) := fun e => hz (List.mem_of_mem_take e)
      simp only [if_neg hroom, c_string_eq_self hz1]
      have hk : 0 < cap - line.length - 1 := by omega
      have hne : s.take (cap - line.length - 1) ≠ [] := by
        intro e
        have := congrArg List.length e
        simp only [List.length_take, List.length_nil] at this
        omega
      have hlast : ¬(0 < (line ++ s.take (cap - line.length - 1)).length ∧
          (line ++ s.take (cap - line.length - 1)).getLast? = some LF) := by
        rintro ⟨-, e⟩
        rw [List.getLast?_append_of_ne_nil _ hne] at e
        have hmem := List.mem_of_getLast?_eq_some e
        exact hs (List.mem_of_mem_take hmem)
      rw [if_neg hlast]
      have hdouble : cap * GROWTH_FACTOR % 2 ^ 64 = cap * 2 :=
        Nat.mod_eq_of_lt (by simp only [GROWTH_FACTOR]; omega)
      rw [hdouble, ih (line ++ s.take (cap - line.length - 1)) (cap * 2)
        (s.drop (cap - line.length - 1)) (fun e => hs (List.mem_of_mem_drop e))
        (fun e => hz (List.mem_of_mem_drop e))
        (by simp only [List.length_drop]; omega)
        (by simp only [List.length_append, List.length_take]; omega)
        (by omega)
        (by simp only [List.length_append, List.length_take]; omega)
        (by simp only [List.length_append, List.length_take, List.length_drop]; omega)]
      simp [List.append_assoc]

theorem read_line_line (s rest : List Char) (hs : LF ∉ s) (hz : NUL ∉ s)
    (hlen : s.length + 1 < 2 ^ 31) :
    read_line (s ++ LF :: rest) = some (some (s ++ [LF]), rest) := by
  unfold read_line
  rw [read_line_loop_line _ [] INITIAL_BUFFER_SIZE s rest hs hz
    (by simp only [List.length_append, List.length_cons]; omega)
    (by simp [INITIAL_BUFFER_SIZE]) (by simp [INITIAL_BUFFER_SIZE])
    (by simp [INITIAL_BUFFER_SIZE])
    (by simp only [List.length_nil]; omega)]
  simp


/-- The loop of `read_line` on a line `s` (no line feed, no `NUL`) followed by
its line feed, when the line has `2 ^ 31 - 1` characters or more before its line
feed: the calls of `fgets` fill the buffer up to `2 ^ 31 - 1` characters, the
room left in the doubled buffer is then above `INT_MAX`, the next call fails and
the loop ends with no line. -/
theorem read_line_loop_long (fuel : Nat) (line : List Char) (cap : Nat) (s rest : List Char)
    (hs : LF ∉ s) (hz : NUL ∉ s) (hfuel : s.length < fuel) (hcap : line.length + 2 ≤ cap)
    (hpow : ∃ j, cap = 2 ^ j) (hmax : cap ≤ 2 ^ 31) (hint : cap - line.length < 2 ^ 31)
    (hlen : 2 ^ 31 ≤ line.length + s.length + 1) :
    read_line_loop fuel line cap (s ++ LF :: rest) =
      some (none, s.drop (2 ^ 31 - 1 - line.length) ++ LF :: rest) := by
  induction fuel generalizing line cap s with
  | zero => omega
  | succ n ih =>
    simp only [read_line_loop, fgets_line s rest hs hcap hint]
    have hroom : ¬s.length < cap - line.length - 1 := by omega
    have hz1 : NUL ∉ s.take (cap - line.length - 1) := fun e => hz (List.mem_of_mem_take e)
    simp only [if_neg hroom, c_string_eq_self hz1]
    have hne : s.take (cap - line.length - 1) ≠ [] := by
      intro e
      have := congrArg List.length e
      simp only [List.length_take, List.length_nil] at this
      omega
    have hlast : ¬(0 < (line ++ s.take (cap - line.length - 1)).length ∧
        (line ++ s.take (cap - line.length - 1)).getLast? = some LF) := by
      rintro ⟨-, e⟩
      rw [List.getLast?_append_of_ne_nil _ hne] at e
      have hmem := List.mem_of_getLast?_eq_some e
      exact hs (List.mem_of_mem_take hmem)
    rw [if_neg hlast]
    have hdouble : cap * GROWTH_FACTOR % 2 ^ 64 = cap * 2 :=
      Nat.mod_eq_of_lt (by simp only [GROWTH_FACTOR]; omega)
    have hlen1 : (line ++ s.take (cap - line.length - 1)).length = cap - 1 := by
      simp only [List.length_append, List.length_take]; omega
    rw [hdouble]
    by_cases hlast2 : cap = 2 ^ 31
    · cases n with
      | zero => omega
      | succ m =>
        have hw : fgets (int_of_size_t (cap * 2 - (line ++ s.take (cap - line.length - 1)).length))
            (s.drop (cap - line.length - 1) ++ LF :: rest) = none :=
          fgets_wraps (by rw [hlen1]; omega) (by rw [hlen1]; omega) _
        simp only [read_line_loop, hw]
        have e : cap - line.length - 1 = 2 ^ 31 - 1 - line.length := by omega
        rw [e]
    · have hsmall : cap ≤ 2 ^ 30 := pow_two_le_of_lt hpow (by omega)
      obtain ⟨j, hj⟩ := hpow
      rw [ih (line ++ s.take (cap - line.length - 1)) (cap * 2)
        (s.drop (cap - line.length - 1)) (fun e => hs (List.mem_of_mem_drop e))
        (fun e => hz (List.mem_of_mem_drop e))
        (by simp only [List.length_drop]; omega)
        (by rw [hlen1]; omega)
        ⟨j + 1, by rw [hj, Nat.pow_succ]⟩
        (by omega)
        (by rw [hlen1]; omega)
        (by rw [hlen1]; simp only [List.length_drop]; omega)]
      rw [hlen1, List.drop_drop]
      have e : cap - line.length - 1 + (2 ^ 31 - 1 - (cap - 1)) = 2 ^ 31 - 1 - line.length := by
        omega
      rw [e]

/-- `read_line` on a line of `2 ^ 31 - 1` characters or more returns no line. -/
theorem read_line_long (s rest : List Char) (hs : LF ∉ s) (hz : NUL ∉ s)
    (hlen : 2 ^ 31 - 1 ≤ s.length) :
    read_line (s ++ LF :: rest) = some (none, s.drop (2 ^ 31 - 1) ++ LF :: rest) := by
  unfold read_line
  rw [read_line_loop_long _ [] INITIAL_BUFFER_SIZE s rest hs hz
    (by simp only [List.length_append, List.length_cons]; omega)
    (by simp [INITIAL_BUFFER_SIZE]) ⟨7, by simp [INITIAL_BUFFER_SIZE]⟩
    (by simp [INITIAL_BUFFER_SIZE]) (by simp [INITIAL_BUFFER_SIZE])
    (by simp only [List.length_nil]; omega)]
  rfl

/-- The loop of `read_line` ends within `fuel` iterations when `fuel` exceeds
the length of the input; it never returns more input than it was given, and
strictly less when it returns a line. The buffer size is a power of two that
stays at most `2 ^ 32`: at that size the room left does not fit an `int` and
`fgets` fails. -/
theorem read_line_loop_total (fuel : Nat) (line : List Char) (cap : Nat) (fp : List Char)
    (hfuel : fp.length < fuel) (hcap : 2 * line.length + 2 ≤ cap)
    (hpow : ∃ j, cap = 2 ^ j) (hmax : cap ≤ 2 ^ 32) :
    ∃ r rest, read_line_loop fuel line cap fp = some (r, rest) ∧
      rest.length ≤ fp.length ∧ (r.isSome = true → rest.length < fp.length) := by
  induction fuel generalizing line cap fp with
  | zero => omega
  | succ n ih =>
    by_cases hint : cap - line.length < 2 ^ 31
    · cases fp with
      | nil =>
        have hfg : fgets (int_of_size_t (cap - line.length)) [] = none := by
          unfold fgets; split <;> rfl
        exact ⟨none, [], by simp only [read_line_loop, hfg], Nat.le_refl _, by simp⟩
      | cons c cs =>
        obtain ⟨h1, h2, h3⟩ := fgets_chars_split (cap - line.length - 1) (c :: cs)
        have h4 := h3 (by omega) (by simp)
        simp only [read_line_loop, fgets_fits (show 0 < cap - line.length by omega) hint]
        split
        · exact ⟨_, _, rfl, Nat.le_of_lt h4, fun _ => h4⟩
        · have hlen := c_string_length_le (fgets_chars (cap - line.length - 1) (c :: cs)).1
          have hsmall : cap ≤ 2 ^ 31 := pow_two_le_of_lt hpow (by omega)
          have hdouble : cap * GROWTH_FACTOR % 2 ^ 64 = cap * 2 :=
            Nat.mod_eq_of_lt (by simp only [GROWTH_FACTOR]; omega)
          obtain ⟨j, hj⟩ := hpow
          rw [hdouble]
          obtain ⟨r, rest, e1, e2, e3⟩ :=
            ih (line ++ c_string (fgets_chars (cap - line.length - 1) (c :: cs)).1)
              (cap * 2) (fgets_chars (cap - line.length - 1) (c :: cs)).2
              (by simp only [List.length_cons] at hfuel h4; omega)
              (by simp only [List.length_append]; omega)
              ⟨j + 1, by rw [hj, Nat.pow_succ]⟩
              (by omega)
          exact ⟨r, rest, e1, by omega, fun _ => by omega⟩
    · have hfg : fgets (int_of_size_t (cap - line.length)) fp = none :=
        fgets_wraps (by omega) (by omega) fp
      exact ⟨none, fp, by simp only [read_line_loop, hfg], Nat.le_refl _, by simp⟩

/-- `read_line` always returns: its fuel is never used up. -/
theorem read_line_total (fp : List Char) :
    ∃ r rest, read_line fp = some (r, rest) ∧
      rest.length ≤ fp.length ∧ (r.isSome = true → rest.length < fp.length) :=
  read_line_loop_total (fp.length + 1) [] INITIAL_BUFFER_SIZE fp (Nat.lt_succ_self _)
    (by simp [INITIAL_BUFFER_SIZE]) ⟨7, by simp [INITIAL_BUFFER_SIZE]⟩
    (by simp [INITIAL_BUFFER_SIZE])

theorem load_board_loop_total (fuel : Nat) (board : List (List Char)) (fp : List Char)
    (hfuel : fp.length < fuel) : ∃ r, load_board_loop fuel board fp = some r := by
  induction fuel generalizing board fp with
  | zero => omega
  | succ n ih =>
    obtain ⟨r, rest, e1, e2, e3⟩ := read_line_total fp
    cases r with
    | none => exact ⟨(board, rest), by simp only [load_board_loop, e1]⟩
    | some line =>
      have := e3 rfl
      obtain ⟨r2, hr2⟩ := ih (board ++ [c_string line]) rest (by omega)
      exact ⟨r2, by simp only [load_board_loop, e1, hr2]⟩

/-- `load_board` always returns a game: its fuel is never used up. -/
theorem load_board_total (fp : List Char) : ∃ g, load_board fp = some g := by
  obtain ⟨r, hr⟩ := load_board_loop_total (fp.length + 1) [] fp (Nat.lt_succ_self _)
  exact ⟨⟨r.1, []⟩, by simp only [load_board, hr]⟩

/-! ## Round trip through text -/

theorem load_board_loop_rows (rows : List (List Char))
    (h : ∀ row ∈ rows, ∃ s, row = s ++ [LF] ∧ LF ∉ s ∧ NUL ∉ s ∧ s.length + 1 < 2 ^ 31)
    (fuel : Nat) (hfuel : rows.length < fuel) (acc : List (List Char)) :
    load_board_loop fuel acc (rows.foldr (fun row out => row ++ out) []) =
      some (acc ++ rows, []) := by
  induction rows generalizing fuel acc with
  | nil =>
    cases fuel with
    | zero => simp at hfuel
    | succ n =>
      have e : read_line [] = some (none, []) := rfl
      simp only [List.foldr_nil, load_board_loop, e, List.append_nil]
  | cons row rows ih =>
    cases fuel with
    | zero => simp at hfuel
    | succ n =>
      obtain ⟨s, hrow, hs, hz, hlen⟩ := h row (List.mem_cons_self _ _)
      have hz1 : NUL ∉ s ++ [LF] := by
        intro e
        rcases List.mem_append.mp e with e | e
        · exact hz e
        · simp only [List.mem_singleton] at e
          exact absurd e (by decide)
      have e : read_line (row ++ rows.foldr (fun row out => row ++ out) []) =
          some (some (s ++ [LF]), rows.foldr (fun row out => row ++ out) []) := by
        rw [hrow, List.append_assoc]
        exact read_line_line s _ hs hz hlen
      simp only [List.foldr_cons, load_board_loop, e, c_string_eq_self hz1]
      rw [ih (fun r hr => h r (List.mem_cons_of_mem _ hr)) n
        (by simp only [List.length_cons] at hfuel; omega), ← hrow]
      simp

theorem rows_le_print_length (rows : List (List Char)) (h : ∀ row ∈ rows, row ≠ []) :
    rows.length ≤ (rows.foldr (fun row out => row ++ out) []).length := by
  induction rows with
  | nil => simp
  | cons row rows ih =>
    have h1 := ih (fun r hr => h r (List.mem_cons_of_mem _ hr))
    have h2 : 0 < row.length := List.length_pos.mpr (h row (List.mem_cons_self _ _))
    simp only [List.foldr_cons, List.length_cons, List.length_append]
    omega

/-- The round trip for rows that fit: for a grid whose rows are each a string of
fewer than `2 ^ 31 - 1` characters other than the line feed and `NUL`, followed
by one line feed, `load_board` applied to the text written by `print_board`
returns a game with the same rows. -/
theorem round_trip_short_rows (g : game_t)
    (h : ∀ row ∈ g.board, ∃ s, row = s ++ [LF] ∧ LF ∉ s ∧ NUL ∉ s ∧ s.length + 1 < 2 ^ 31) :
    ∃ g1, load_board (print_board g) = some g1 ∧ g1.board = g.board ∧
      g1.num_rows = g.num_rows := by
  have hne : ∀ row ∈ g.board, row ≠ [] := by
    intro row hrow
    obtain ⟨s, e, -, -, -⟩ := h row hrow
    rw [e]; simp
  have hlen := rows_le_print_length g.board hne
  have e := load_board_loop_rows g.board h
    ((g.board.foldr (fun row out => row ++ out) []).length + 1) (by omega) []
  refine ⟨⟨g.board, []⟩, ?_, rfl, rfl⟩
  unfold load_board print_board
  rw [e]
  rfl

/-- An instance of `round_trip_short_rows`: a grid with a row of 200 cells, longer
than the first read buffer, a short row and an empty row. -/
theorem round_trip_short_rows_witness :
    ∃ g1, load_board (print_board long_row_game) = some g1 ∧
      g1.board = long_row_game.board ∧ g1.num_rows = long_row_game.num_rows :=
  round_trip_short_rows long_row_game (by
    intro row hrow
    simp only [long_row_game, List.mem_cons, List.mem_singleton, List.not_mem_nil,
      or_false] at hrow
    rcases hrow with e | e | e
    · exact ⟨List.replicate 200 '#', e, by decide, by decide,
        by rw [List.length_replicate]; omega⟩
    · exact ⟨['d', 'D'], e, by decide, by decide, by simp⟩
    · exact ⟨[], e, by decide, by decide, by simp⟩)

/-! ## A row that does not fit an `int` -/

/-- A single line of `n` wall characters that is too long is lost whole. -/
theorem load_board_long_row (n : Nat) (hn : 2 ^ 31 - 1 ≤ n) :
    read_line (List.replicate n '#' ++ [LF]) =
      some (none, List.replicate (n - (2 ^ 31 - 1)) '#' ++ [LF]) ∧
    load_board (print_board ⟨[List.replicate n '#' ++ [LF]], []⟩) = some ⟨[], []⟩ := by
  have hs : LF ∉ List.replicate n '#' := fun e => absurd (List.eq_of_mem_replicate e) (by decide)
  have hz : NUL ∉ List.replicate n '#' := fun e => absurd (List.eq_of_mem_replicate e) (by decide)
  have e := read_line_long (List.replicate n '#') [] hs hz (by rw [List.length_replicate]; exact hn)
  rw [List.drop_replicate] at e
  refine ⟨e, ?_⟩
  have hp : print_board ⟨[List.replicate n '#' ++ [LF]], []⟩ = List.replicate n '#' ++ [LF] := by
    simp only [print_board, List.foldr_cons, List.foldr_nil, List.append_nil]
  rw [hp]
  unfold load_board
  simp only [load_board_loop, e]

theorem print_board_single (row : List Char) : print_board ⟨[row], []⟩ = row := by
  simp only [print_board, List.foldr_cons, List.foldr_nil, List.append_nil]

/-- C9: the code at its failing input. The grid has one row, `2 ^ 31 - 1` wall
characters and a line feed, as the claim asks of a row. `read_line` fills its
buffer with the `2 ^ 31 - 1` characters in 25 calls of `fgets`; for the next
call the room left in the doubled buffer is `2 ^ 31 + 1`, which the conversion
to `int` turns into a negative count, so `fgets` returns the null pointer,
`read_line` frees the line and returns `NULL` with the line feed still unread,
and `load_board` returns a grid with no row: the round trip loses the row. -/
theorem round_trip_loses_long_row :
    (∀ row ∈ int_max_row_game.board, ∃ s, row = s ++ [LF] ∧ LF ∉ s ∧ NUL ∉ s) ∧
    int_max_row_game.num_rows = 1 ∧
    read_line (print_board int_max_row_game) = some (none, [LF]) ∧
    load_board (print_board int_max_row_game) = some ⟨[], []⟩ := by
  have hs : LF ∉ List.replicate (2 ^ 31 - 1) '#' := fun e =>
    absurd (List.eq_of_mem_replicate e) (by decide)
  have hz : NUL ∉ List.replicate (2 ^ 31 - 1) '#' := fun e =>
    absurd (List.eq_of_mem_replicate e) (by decide)
  obtain ⟨e1, e2⟩ := load_board_long_row (2 ^ 31 - 1) (Nat.le_refl _)
  have hp : print_board int_max_row_game = List.replicate (2 ^ 31 - 1) '#' ++ [LF] :=
    print_board_single _
  refine ⟨?_, rfl, ?_, e2⟩
  · intro row hrow
    simp only [int_max_row_game, List.mem_singleton] at hrow
    exact ⟨_, hrow, hs, hz⟩
  · rw [hp, e1, Nat.sub_self]
    rfl

/-! ## A last line without line feed -/

/-- C10: the code at its failing input. On the text `a`, line feed, `b`, whose
last line has no line feed, `load_board` returns the single row `a` + line feed:
`read_line` reads `b`, finds no line feed, meets the end of the input on the
next `fgets` and returns `NULL`, freeing the buffer that holds `b`. The rows put
together are not the input. -/
theorem load_board_drops_last_line :
    load_board ['a', LF, 'b'] = some ⟨[['a', LF]], []⟩ ∧
    read_line ['b'] = some (none, []) ∧
    print_board ⟨[['a', LF]], []⟩ ≠ ['a', LF, 'b'] := by
  decide


/-! ## The default board -/

set_option synthInstance.maxSize 512 in
set_option synthInstance.maxHeartbeats 200000 in
/-- C15 (default board layout). `create_default_game` returns a grid of 18 rows,
each of 20 cells followed by a line feed, where the cell (i, j) is wall exactly
when i is 0 or 17 or j is 0 or 19, (2,9) holds the fruit, (2,2), (2,3), (2,4)
hold `d`, `>`, `D`, every other interior cell is empty, and there is one snake
record: tail (2,2), head (2,4), alive. -/
theorem default_board_layout :
    ∃ g0, create_default_game = some g0 ∧ g0.num_rows = 18 ∧
      (∀ i < 18, row_strlen g0 i = 21 ∧ get_board_at g0 i 20 = some LF) ∧
      (∀ i < 18, ∀ j < 20,
        (get_board_at g0 i j = some '#' ↔ (i = 0 ∨ i = 17 ∨ j = 0 ∨ j = 19))) ∧
      get_board_at g0 2 9 = some '*' ∧
      get_board_at g0 2 2 = some 'd' ∧ get_board_at g0 2 3 = some '>' ∧
      get_board_at g0 2 4 = some 'D' ∧
      (∀ i < 18, ∀ j < 20,
        (i = 0 ∨ i = 17 ∨ j = 0 ∨ j = 19) ∨ (i = 2 ∧ (j = 9 ∨ j = 2 ∨ j = 3 ∨ j = 4)) ∨
          get_board_at g0 i j = some ' ') ∧
      g0.snakes = [⟨2, 2, 2, 4, true⟩] :=
  ⟨create_default_game.get (by decide), by simp, by decide, by decide, by decide, by decide,
    by decide, by decide, by decide, by decide, by decide⟩

/-! ## Glyph conversions and directional delta -/

/-- C16 (glyph conversions keep direction). For every character `c` and every
coordinate `r`, `body_to_tail c` and `head_to_body c` encode the same
directional delta as `c` under `get_next_row` and `get_next_col`;
`body_to_tail` maps the body glyphs `^ < v >` to the tail glyphs `w a s d`,
`head_to_body` maps the head glyphs `W A S D` to the body glyphs `^ < v >`, and
each returns `c` itself for a `c` outside its input alphabet, so
`head_to_body 'x' = 'x'`. -/
theorem conversions_keep_direction (c : Char) (r : Nat) :
    get_next_row r (body_to_tail c) = get_next_row r c ∧
    get_next_col r (body_to_tail c) = get_next_col r c ∧
    get_next_row r (head_to_body c) = get_next_row r c ∧
    get_next_col r (head_to_body c) = get_next_col r c ∧
    (body_to_tail '^' = 'w' ∧ body_to_tail '<' = 'a' ∧ body_to_tail 'v' = 's' ∧
      body_to_tail '>' = 'd') ∧
    (head_to_body 'W' = '^' ∧ head_to_body 'A' = '<' ∧ head_to_body 'S' = 'v' ∧
      head_to_body 'D' = '>') ∧
    (c ∈ ['^', '<', 'v', '>'] ∨ body_to_tail c = c) ∧
    (c ∈ ['W', 'A', 'S', 'D'] ∨ head_to_body c = c) ∧
    head_to_body 'x' = 'x' := by
  refine ⟨?_, ?_, ?_, ?_, by decide, by decide, ?_, ?_, by decide⟩
  · unfold body_to_tail
    split_ifs with h1 h2 h3 h4
    · subst h1; rfl
    · subst h2; rfl
    · subst h3; rfl
    · subst h4; rfl
    · rfl
  · unfold body_to_tail
    split_ifs with h1 h2 h3 h4
    · subst h1; rfl
    · subst h2; rfl
    · subst h3; rfl
    · subst h4; rfl
    · rfl
  · unfold head_to_body
    split_ifs with h1 h2 h3 h4
    · subst h1; rfl
    · subst h2; rfl
    · subst h3; rfl
    · subst h4; rfl
    · rfl
  · unfold head_to_body
    split_ifs with h1 h2 h3 h4
    · subst h1; rfl
    · subst h2; rfl
    · subst h3; rfl
    · subst h4; rfl
    · rfl
  · by_cases h : c ∈ ['^', '<', 'v', '>']
    · exact Or.inl h
    · right
      simp only [List.mem_cons, List.mem_singleton, List.not_mem_nil, or_false, not_or] at h
      simp [body_to_tail, BODY_LEFT, BODY_RIGHT, BODY_UP, BODY_DOWN, h]
  · by_cases h : c ∈ ['W', 'A', 'S', 'D']
    · exact Or.inl h
    · right
      simp only [List.mem_cons, List.mem_singleton, List.not_mem_nil, or_false, not_or] at h
      simp [head_to_body, HEAD_LEFT, HEAD_RIGHT, HEAD_UP, HEAD_DOWN, h]

/-- C17 (directional delta). For every 32-bit coordinate `r` and character `c`,
`get_next_row r c` is `r + 1` for `c` in `v s S`, `r - 1` for `c` in `^ w W` and
`r` otherwise, and `get_next_col r c` is `r + 1` for `c` in `> d D`, `r - 1` for
`c` in `< a A` and `r` otherwise, the arithmetic being modulo `2 ^ 32` (`r - 1`
at 0 is `2 ^ 32 - 1`, `r + 1` at `2 ^ 32 - 1` is 0). Hence no glyph changes both
row and column, and `x`, wall, fruit and the empty glyph change neither. -/
theorem directional_delta (r : Nat) (c : Char) (hr : r < 2 ^ 32) :
    (c ∈ ['v', 's', 'S'] → get_next_row r c = if r = 2 ^ 32 - 1 then 0 else r + 1) ∧
    (c ∈ ['^', 'w', 'W'] → get_next_row r c = if r = 0 then 2 ^ 32 - 1 else r - 1) ∧
    (c ∉ ['v', 's', 'S', '^', 'w', 'W'] → get_next_row r c = r) ∧
    (c ∈ ['>', 'd', 'D'] → get_next_col r c = if r = 2 ^ 32 - 1 then 0 else r + 1) ∧
    (c ∈ ['<', 'a', 'A'] → get_next_col r c = if r = 0 then 2 ^ 32 - 1 else r - 1) ∧
    (c ∉ ['>', 'd', 'D', '<', 'a', 'A'] → get_next_col r c = r) ∧
    (∀ k, get_next_row r c = r ∨ get_next_col k c = k) ∧
    (c ∈ ['x', '#', '*', ' '] → get_next_row r c = r ∧ get_next_col r c = r) := by
  have hr2 : r < 4294967296 := hr
  refine ⟨?_, ?_, ?_, ?_, ?_, ?_, ?_, ?_⟩
  · intro h
    simp only [List.mem_cons, List.mem_singleton, List.not_mem_nil, or_false] at h
    rcases h with h | h | h <;> subst h <;>
      simp [get_next_row, BODY_DOWN, HEAD_DOWN, TAIL_DOWN] <;> split <;> omega
  · intro h
    simp only [List.mem_cons, List.mem_singleton, List.not_mem_nil, or_false] at h
    rcases h with h | h | h <;> subst h <;>
      simp [get_next_row, BODY_DOWN, HEAD_DOWN, TAIL_DOWN, BODY_UP, HEAD_UP, TAIL_UP] <;>
      split <;> omega
  · intro h
    simp only [List.mem_cons, List.mem_singleton, List.not_mem_nil, or_false, not_or] at h
    simp [get_next_row, BODY_DOWN, HEAD_DOWN, TAIL_DOWN, BODY_UP, HEAD_UP, TAIL_UP, h]
  · intro h
    simp only [List.mem_cons, List.mem_singleton, List.not_mem_nil, or_false] at h
    rcases h with h | h | h <;> subst h <;>
      simp [get_next_col, BODY_RIGHT, HEAD_RIGHT, TAIL_RIGHT] <;> split <;> omega
  · intro h
    simp only [List.mem_cons, List.mem_singleton, List.not_mem_nil, or_false] at h
    rcases h with h | h | h <;> subst h <;>
      simp [get_next_col, BODY_RIGHT, HEAD_RIGHT, TAIL_RIGHT, BODY_LEFT, HEAD_LEFT,
        TAIL_LEFT] <;>
      split <;> omega
  · intro h
    simp only [List.mem_cons, List.mem_singleton, List.not_mem_nil, or_false, not_or] at h
    simp [get_next_col, BODY_RIGHT, HEAD_RIGHT, TAIL_RIGHT, BODY_LEFT, HEAD_LEFT, TAIL_LEFT, h]
  · intro k
    by_cases h : c ∈ ['v', 's', 'S', '^', 'w', 'W']
    · right
      simp only [List.mem_cons, List.mem_singleton, List.not_mem_nil, or_false] at h
      rcases h with h | h | h | h | h | h <;> subst h <;> rfl
    · left
      simp only [List.mem_cons, List.mem_singleton, List.not_mem_nil, or_false, not_or] at h
      simp [get_next_row, BODY_DOWN, HEAD_DOWN, TAIL_DOWN, BODY_UP, HEAD_UP, TAIL_UP, h]
  · intro h
    simp only [List.mem_cons, List.mem_singleton, List.not_mem_nil, or_false] at h
    rcases h with h | h | h | h <;> subst h <;> exact ⟨rfl, rfl⟩

/-- Witness of `directional_delta`: the glyph `^` at row 0 wraps around. -/
theorem directional_delta_witness : get_next_row 0 '^' = 2 ^ 32 - 1 :=
  (directional_delta 0 '^' (by decide)).2.1 (by decide)

/-! ## Board store contract -/

theorem get_board_at_none_iff (g : game_t) (row col : Nat) :
    get_board_at g row col = none ↔ ¬(row < g.num_rows ∧ col < row_strlen g row) := by
  unfold get_board_at row_strlen game_t.num_rows
  cases h : g.board[row]? with
  | none =>
    have := List.getElem?_eq_none_iff.mp h
    simp only [true_iff, not_and]
    intro h1; omega
  | some r =>
    have := getElem?_lt_length h
    simp only [List.getElem?_eq_none_iff]
    constructor
    · intro h1 h2; omega
    · intro h1
      by_contra h2
      exact h1 ⟨this, by omega⟩

/-- C18 as stated fails: the code indexes `board[row][col]` with no bounds
test, so nothing raises an error. On the default board, whose rows have 20
cells, column 20 (not less than the width) is the line feed that ends the row:
`get_board_at` returns it and `set_board_at` overwrites it, changing the grid. -/
theorem bounds_counterexample :
    ∃ g0 g1, create_default_game = some g0 ∧
      get_board_at g0 0 20 = some LF ∧
      set_board_at g0 0 20 'D' = some g1 ∧
      get_board_at g1 0 20 = some 'D' ∧ g1.board ≠ g0.board :=
  ⟨create_default_game.get (by decide), (set_board_at (create_default_game.get (by decide))
      0 20 'D').get (by decide), by simp, by decide, by simp, by decide, by decide⟩

/-- C18, amended. `get_board_at` and `set_board_at` index `board[row][col]` with
no bounds test and report no error. At every position on a character of a row's
string (`row` below the number of rows, `col` below the length of the string,
which counts the line feed after the cells, so `col` may equal the row's width)
`get_board_at` returns the character stored there, `set_board_at` stores the
glyph, a following `get_board_at` there returns the glyph written, every other
cell and the records are unchanged, and the grid is changed whenever the glyph
written differs from the character that was stored. -/
theorem board_store_contract (g : game_t) (row col : Nat) (ch : Char)
    (hrow : row < g.num_rows) (hcol : col < row_strlen g row) :
    ∃ x g1, get_board_at g row col = some x ∧ set_board_at g row col ch = some g1 ∧
      get_board_at g1 row col = some ch ∧
      (∀ r c, ¬(r = row ∧ c = col) → get_board_at g1 r c = get_board_at g r c) ∧
      g1.snakes = g.snakes ∧ (x ≠ ch → g1.board ≠ g.board) := by
  cases h : get_board_at g row col with
  | none => exact absurd ⟨hrow, hcol⟩ ((get_board_at_none_iff g row col).mp h)
  | some x =>
    obtain ⟨g1, hg1⟩ := set_board_at_some ch h
    have hget : get_board_at g1 row col = some ch := by
      rw [get_set_board_at hg1, if_pos ⟨rfl, rfl⟩]
    refine ⟨x, g1, rfl, hg1, hget, ?_, set_board_at_snakes hg1, ?_⟩
    · intro r c hne
      rw [get_set_board_at hg1, if_neg hne]
    · intro hne hboard
      have e : get_board_at g1 row col = get_board_at g row col := by
        unfold get_board_at
        rw [hboard]
      rw [hget, h] at e
      exact hne (Option.some.inj e).symm

/-- Witness of `board_store_contract`: column 20 of row 0 of the default board,
whose rows have 20 cells. The position holds the line feed of the row, and
writing `D` there changes the grid. -/
theorem board_store_contract_witness :
    ∃ x g1, get_board_at ⟨create_board 18 20, []⟩ 0 20 = some x ∧
      set_board_at ⟨create_board 18 20, []⟩ 0 20 'D' = some g1 ∧
      get_board_at g1 0 20 = some 'D' ∧
      (∀ r c, ¬(r = 0 ∧ c = 20) →
        get_board_at g1 r c = get_board_at ⟨create_board 18 20, []⟩ r c) ∧
      g1.snakes = [] ∧ (x ≠ 'D' → g1.board ≠ create_board 18 20) :=
  board_store_contract ⟨create_board 18 20, []⟩ 0 20 'D' (by decide) (by decide)

/-! ## The scan of `initialize_snakes` -/

theorem initialize_snakes_scan_append (fuel : Nat) (g : game_t) (a b : List (Nat × Nat))
    (snakes : List snake_t) :
    initialize_snakes_scan fuel g (a ++ b) snakes =
      match initialize_snakes_scan fuel g a snakes with
      | .undefined => .undefined
      | .no_fuel => .no_fuel
      | .ok s1 => initialize_snakes_scan fuel g b s1 := by
  induction a generalizing snakes with
  | nil => rfl
  | cons p rest ih =>
    simp only [List.cons_append, initialize_snakes_scan]
    cases initialize_snakes_body fuel g snakes p.1 p.2 with
    | undefined => rfl
    | no_fuel => rfl
    | ok s1 => exact ih s1

theorem initialize_snakes_cols_eq (fuel : Nat) (g : game_t) (row n col : Nat)
    (snakes : List snake_t) :
    initialize_snakes_cols fuel g row n col snakes =
      initialize_snakes_scan fuel g (row_cells row n col) snakes := by
  induction n generalizing col snakes with
  | zero => rfl
  | succ n ih =>
    simp only [initialize_snakes_cols, row_cells, initialize_snakes_scan]
    cases initialize_snakes_body fuel g snakes row col with
    | undefined => rfl
    | no_fuel => rfl
    | ok s1 => exact ih (col + 1) s1

theorem initialize_snakes_rows_eq (fuel : Nat) (g : game_t) (n row : Nat)
    (snakes : List snake_t) :
    initialize_snakes_rows fuel g n row snakes =
      initialize_snakes_scan fuel g (cells_from g n row) snakes := by
  induction n generalizing row snakes with
  | zero => rfl
  | succ n ih =>
    simp only [initialize_snakes_rows, cells_from, initialize_snakes_scan_append,
      initialize_snakes_cols_eq]
    cases initialize_snakes_scan fuel g (row_cells row (row_strlen g row) 0) snakes with
    | undefined => rfl
    | no_fuel => rfl
    | ok s1 => exact ih (row + 1) s1

/-- The two nested loops of `initialize_snakes` are the scan of the cells of the
grid in row-major order. -/
theorem initialize_snakes_eq (fuel : Nat) (g : game_t) :
    initialize_snakes fuel g =
      match initialize_snakes_scan fuel g (grid_cells g) [] with
      | .undefined => .undefined
      | .no_fuel => .no_fuel
      | .ok snakes => .ok { g with snakes := snakes } := by
  unfold initialize_snakes grid_cells
  rw [initialize_snakes_rows_eq]

theorem find_head_loop_board {g g1 : game_t} (hb : g1.board = g.board) (fuel row col : Nat)
    (c : Char) : find_head_loop g1 fuel row col c = find_head_loop g fuel row col c := by
  induction fuel generalizing row col c with
  | zero => rfl
  | succ n ih =>
    have e : ∀ r k, get_board_at g1 r k = get_board_at g r k := by
      intro r k; unfold get_board_at; rw [hb]
    simp only [find_head_loop, e]
    split
    · rfl
    · cases get_board_at g (get_next_row row c) (get_next_col col c) with
      | none => rfl
      | some c1 => exact ih _ _ _

/-- The body of the scan: a cell that holds a tail glyph adds its traced
record, any other cell of the grid adds nothing. -/
theorem initialize_snakes_body_eq (fuel : Nat) (g : game_t) (snakes : List snake_t)
    (row col : Nat) :
    initialize_snakes_body fuel g snakes row col =
      match get_board_at g row col with
      | none => .undefined
      | some c =>
        if is_tail c then
          match traced_record fuel g row col with
          | .undefined => .undefined
          | .no_fuel => .no_fuel
          | .ok s => .ok (snakes ++ [s])
        else .ok snakes := by
  unfold initialize_snakes_body traced_record
  cases hc : get_board_at g row col with
  | none => rfl
  | some c =>
    simp only []
    split
    · simp only [find_head, List.getElem?_concat_length]
      have e1 : get_board_at { g with snakes := snakes ++ [⟨row, col, 0, 0, false⟩] } row col =
          some c := hc
      simp only [e1]
      rw [@find_head_loop_board g
        ⟨g.board, snakes ++ [(⟨row, col, 0, 0, false⟩ : snake_t)]⟩ rfl fuel row col c]
      cases find_head_loop g fuel row col c with
      | undefined => rfl
      | no_fuel => rfl
      | ok p =>
        obtain ⟨hr, hc1⟩ := p
        simp only [List.set_append_right _ _ (Nat.le_refl _), Nat.sub_self,
          List.set_cons_zero, List.getElem?_concat_length]
        have e2 : ∀ x, get_board_at
            { board := g.board, snakes := x } hr hc1 = get_board_at g hr hc1 := fun _ => rfl
        simp only [e2]
        cases get_board_at g hr hc1 with
        | none => rfl
        | some hd => rfl
    · rfl

/-! ## The trace and the loop of `find_head` -/

theorem trace_succ_left (g : game_t) (start : Nat × Nat) (n : Nat) :
    trace g start (n + 1) =
      match next_cell g start with
      | none => none
      | some q => trace g q n := by
  induction n with
  | zero =>
    simp only [trace]
    cases next_cell g start <;> rfl
  | succ n ih =>
    rw [trace, ih]
    cases next_cell g start with
    | none => rfl
    | some q => rfl

theorem no_head_before_succ_left (g : game_t) (start : Nat × Nat) (n : Nat) :
    no_head_before g start (n + 1) =
      (!holds g start.1 start.2 is_head &&
        match next_cell g start with
        | none => true
        | some q => no_head_before g q n) := by
  induction n with
  | zero =>
    simp only [no_head_before, trace, Bool.true_and]
    cases next_cell g start <;> simp
  | succ n ih =>
    rw [no_head_before, ih, trace_succ_left]
    cases next_cell g start with
    | none => simp
    | some q => simp only [no_head_before, Bool.and_assoc]

theorem next_cell_eq {g : game_t} {r c : Nat} {ch : Char} (h : get_board_at g r c = some ch) :
    next_cell g (r, c) = some (get_next_row r ch, get_next_col c ch) := by
  simp only [next_cell, h]

theorem holds_eq {g : game_t} {r c : Nat} {ch : Char} (h : get_board_at g r c = some ch)
    (ok : Char → Bool) : holds g r c ok = ok ch := by
  simp only [holds, h]

theorem first_head_at_zero {g : game_t} {r c : Nat} {ch : Char}
    (h : get_board_at g r c = some ch) (p : Nat × Nat) :
    first_head_at g (r, c) 0 p = true ↔ (p = (r, c) ∧ is_head ch = true) := by
  simp only [first_head_at, trace, no_head_before, Bool.and_true, Bool.and_eq_true, beq_iff_eq,
    Option.some.injEq]
  constructor
  · rintro ⟨e, h1⟩
    subst e
    rw [holds_eq h] at h1
    exact ⟨rfl, h1⟩
  · rintro ⟨e, h1⟩
    subst e
    rw [holds_eq h]
    exact ⟨rfl, h1⟩

theorem first_head_at_succ {g : game_t} {r c : Nat} {ch : Char}
    (h : get_board_at g r c = some ch) (n : Nat) (p : Nat × Nat) :
    first_head_at g (r, c) (n + 1) p =
      (!is_head ch && first_head_at g (get_next_row r ch, get_next_col c ch) n p) := by
  simp only [first_head_at, trace_succ_left, no_head_before_succ_left, next_cell_eq h,
    holds_eq h]
  cases is_head ch <;> simp

/-- A first head on the trace lies in the grid, and so does the start. -/
theorem first_head_at_start {g : game_t} {start p : Nat × Nat} {n : Nat}
    (h : first_head_at g start n p = true) : ∃ ch, get_board_at g start.1 start.2 = some ch := by
  cases hs : get_board_at g start.1 start.2 with
  | some ch => exact ⟨ch, rfl⟩
  | none =>
    exfalso
    cases n with
    | zero =>
      simp only [first_head_at, trace, Bool.and_eq_true, beq_iff_eq, Option.some.injEq] at h
      obtain ⟨⟨e, h1⟩, -⟩ := h
      subst e
      simp [holds, hs] at h1
    | succ n =>
      simp only [first_head_at, trace_succ_left, next_cell, hs, Bool.and_eq_true,
        beq_iff_eq] at h
      exact absurd h.1.1 (by simp)

theorem first_head_at_head {g : game_t} {start p : Nat × Nat} {n : Nat}
    (h : first_head_at g start n p = true) :
    ∃ hd, get_board_at g p.1 p.2 = some hd ∧ is_head hd = true := by
  simp only [first_head_at, Bool.and_eq_true] at h
  exact holds_some h.1.2

/-- Soundness of the loop of `find_head`: the cell it returns is the first cell
of the trace that holds a head-class glyph. -/
theorem find_head_loop_sound (g : game_t) (fuel r c : Nat) (ch : Char) (p : Nat × Nat)
    (hc : get_board_at g r c = some ch)
    (h : find_head_loop g fuel r c ch = .ok p) :
    ∃ n, n < fuel ∧ first_head_at g (r, c) n p = true := by
  induction fuel generalizing r c ch with
  | zero => simp [find_head_loop] at h
  | succ k ih =>
    simp only [find_head_loop] at h
    split at h
    · rename_i hh
      simp only [outcome.ok.injEq] at h
      exact ⟨0, Nat.succ_pos _, (first_head_at_zero hc p).mpr ⟨h.symm, hh⟩⟩
    · rename_i hh
      split at h
      · simp at h
      · rename_i c1 hc1
        obtain ⟨n, hn, hf⟩ := ih _ _ _ hc1 h
        refine ⟨n + 1, Nat.succ_lt_succ hn, ?_⟩
        rw [first_head_at_succ hc, hf]
        simp [hh]

/-- Completeness of the loop of `find_head`: when the trace meets its first
head-class glyph after `n` steps, any `fuel` above `n` returns that cell. -/
theorem find_head_loop_complete (g : game_t) (n : Nat) (r c : Nat) (ch : Char) (p : Nat × Nat)
    (hc : get_board_at g r c = some ch)
    (h : first_head_at g (r, c) n p = true) (fuel : Nat) (hfuel : n < fuel) :
    find_head_loop g fuel r c ch = .ok p := by
  induction n generalizing r c ch fuel with
  | zero =>
    obtain ⟨e, hh⟩ := (first_head_at_zero hc p).mp h
    cases fuel with
    | zero => omega
    | succ k => simp only [find_head_loop, hh, if_true, e]
  | succ m ih =>
    rw [first_head_at_succ hc] at h
    simp only [Bool.and_eq_true, Bool.not_eq_true'] at h
    obtain ⟨hh, hf⟩ := h
    obtain ⟨c1, hc1⟩ := first_head_at_start hf
    cases fuel with
    | zero => omega
    | succ k =>
      simp only [find_head_loop, hh, Bool.false_eq_true, if_false, hc1]
      exact ih _ _ _ hc1 hf k (by omega)

/-- The first head on a trace is unique. -/
theorem first_head_at_unique {g : game_t} {start p q : Nat × Nat} {n m : Nat}
    (h1 : first_head_at g start n p = true) (h2 : first_head_at g start m q = true) :
    p = q := by
  obtain ⟨ch, hc⟩ := first_head_at_start h1
  have e1 := find_head_loop_complete g n start.1 start.2 ch p hc h1 (n + m + 1) (by omega)
  have e2 := find_head_loop_complete g m start.1 start.2 ch q hc h2 (n + m + 1) (by omega)
  rw [e1] at e2
  exact outcome.ok.inj e2

theorem traced_record_sound {g : game_t} {fuel r c : Nat} {s : snake_t}
    (h : traced_record fuel g r c = .ok s) :
    s.tail_row = r ∧ s.tail_col = c ∧
    (∃ n, n < fuel ∧ first_head_at g (r, c) n (s.head_row, s.head_col) = true) ∧
    ∃ hd, get_board_at g s.head_row s.head_col = some hd ∧ is_head hd = true ∧
      s.live = (hd != DEAD_SNAKE) := by
  unfold traced_record at h
  split at h
  · simp at h
  · rename_i ch hc
    split at h
    · simp at h
    · simp at h
    · rename_i hr hcol hl
      obtain ⟨n, hn, hf⟩ := find_head_loop_sound g fuel r c ch (hr, hcol) hc hl
      obtain ⟨hd, hhd, hhh⟩ := first_head_at_head hf
      simp only [hhd, outcome.ok.injEq] at h
      subst h
      exact ⟨rfl, rfl, ⟨n, hn, hf⟩, hd, hhd, hhh, rfl⟩

theorem traced_record_complete {g : game_t} {n r c : Nat} {p : Nat × Nat}
    (h : first_head_at g (r, c) n p = true) (fuel : Nat) (hfuel : n < fuel) :
    ∃ hd, get_board_at g p.1 p.2 = some hd ∧ is_head hd = true ∧
      traced_record fuel g r c = .ok ⟨r, c, p.1, p.2, hd != DEAD_SNAKE⟩ := by
  obtain ⟨ch, hc⟩ := first_head_at_start h
  obtain ⟨hd, hhd, hhh⟩ := first_head_at_head h
  refine ⟨hd, hhd, hhh, ?_⟩
  have e := find_head_loop_complete g n r c ch p hc h fuel hfuel
  simp only [traced_record, hc, e, hhd]

/-! ## The cells of the grid -/

theorem mem_row_cells (row n col r c : Nat) :
    (r, c) ∈ row_cells row n col ↔ r = row ∧ col ≤ c ∧ c < col + n := by
  induction n generalizing col with
  | zero => simp [row_cells]
  | succ n ih =>
    simp only [row_cells, List.mem_cons, Prod.mk.injEq, ih]
    constructor
    · rintro (⟨e1, e2⟩ | ⟨e1, e2, e3⟩)
      · exact ⟨e1, by omega, by omega⟩
      · exact ⟨e1, by omega, by omega⟩
    · rintro ⟨e1, e2, e3⟩
      by_cases e : c = col
      · exact Or.inl ⟨e1, e⟩
      · exact Or.inr ⟨e1, by omega, by omega⟩

theorem nodup_row_cells (row n col : Nat) : (row_cells row n col).Nodup := by
  induction n generalizing col with
  | zero => simp [row_cells]
  | succ n ih =>
    simp only [row_cells, List.nodup_cons]
    refine ⟨?_, ih _⟩
    intro h
    have := (mem_row_cells row n (col + 1) row col).mp h
    omega

theorem mem_cells_from (g : game_t) (n row r c : Nat) :
    (r, c) ∈ cells_from g n row ↔ row ≤ r ∧ r < row + n ∧ c < row_strlen g r := by
  induction n generalizing row with
  | zero =>
    simp only [cells_from, List.not_mem_nil, false_iff]
    intro h; omega
  | succ n ih =>
    simp only [cells_from, List.mem_append, mem_row_cells, ih]
    constructor
    · rintro (⟨e1, -, e3⟩ | ⟨e1, e2, e3⟩)
      · subst e1; exact ⟨Nat.le_refl _, by omega, by omega⟩
      · exact ⟨by omega, by omega, e3⟩
    · rintro ⟨e1, e2, e3⟩
      by_cases e : r = row
      · subst e; exact Or.inl ⟨rfl, Nat.zero_le _, by omega⟩
      · exact Or.inr ⟨by omega, by omega, e3⟩

theorem nodup_cells_from (g : game_t) (n row : Nat) : (cells_from g n row).Nodup := by
  induction n generalizing row with
  | zero => simp [cells_from]
  | succ n ih =>
    simp only [cells_from]
    rw [List.nodup_append]
    refine ⟨nodup_row_cells _ _ _, ih _, ?_⟩
    intro p h1 h2
    obtain ⟨r, c⟩ := p
    have e1 := (mem_row_cells _ _ _ r c).mp h1
    have e2 := (mem_cells_from g n (row + 1) r c).mp h2
    omega

/-- The cells listed by the scan are the cells of the grid. -/
theorem mem_grid_cells (g : game_t) (p : Nat × Nat) :
    p ∈ grid_cells g ↔ ∃ ch, get_board_at g p.1 p.2 = some ch := by
  obtain ⟨r, c⟩ := p
  unfold grid_cells
  rw [mem_cells_from]
  have h := get_board_at_none_iff g r c
  constructor
  · rintro ⟨-, e2, e3⟩
    cases hc : get_board_at g r c with
    | some ch => exact ⟨ch, rfl⟩
    | none => exact absurd ⟨by omega, e3⟩ (h.mp hc)
  · rintro ⟨ch, hc⟩
    have : ¬¬(r < g.num_rows ∧ c < row_strlen g r) := by
      intro e
      rw [h.mpr e] at hc
      simp at hc
    have := Classical.not_not.mp this
    exact ⟨Nat.zero_le _, by omega, this.2⟩

theorem mem_tail_cells (g : game_t) (p : Nat × Nat) :
    p ∈ tail_cells g ↔ ∃ ch, get_board_at g p.1 p.2 = some ch ∧ is_tail ch = true := by
  unfold tail_cells
  rw [List.mem_filter, mem_grid_cells]
  constructor
  · rintro ⟨-, h⟩
    exact holds_some h
  · rintro ⟨ch, h1, h2⟩
    exact ⟨⟨ch, h1⟩, by rw [holds_eq h1]; exact h2⟩

/-! ## What the scan returns -/

theorem initialize_snakes_scan_sound (fuel : Nat) (g : game_t) (cells : List (Nat × Nat))
    (acc out : List snake_t)
    (h : initialize_snakes_scan fuel g cells acc = .ok out) :
    ∃ L, out = acc ++ L ∧
      List.Forall₂ (fun p s => traced_record fuel g p.1 p.2 = .ok s)
        (cells.filter fun p => holds g p.1 p.2 is_tail) L := by
  induction cells generalizing acc with
  | nil =>
    simp only [initialize_snakes_scan, outcome.ok.injEq] at h
    exact ⟨[], by simp [h], by simp⟩
  | cons p rest ih =>
    simp only [initialize_snakes_scan, initialize_snakes_body_eq] at h
    cases hc : get_board_at g p.1 p.2 with
    | none => simp [hc] at h
    | some ch =>
      simp only [hc] at h
      by_cases ht : is_tail ch = true
      · simp only [ht, if_true] at h
        cases hr : traced_record fuel g p.1 p.2 with
        | undefined => simp [hr] at h
        | no_fuel => simp [hr] at h
        | ok s =>
          simp only [hr] at h
          obtain ⟨L, e, hL⟩ := ih _ h
          refine ⟨s :: L, by simp [e], ?_⟩
          rw [List.filter_cons_of_pos (by rw [holds_eq hc]; exact ht)]
          exact List.Forall₂.cons hr hL
      · simp only [ht, if_false] at h
        obtain ⟨L, e, hL⟩ := ih _ h
        refine ⟨L, e, ?_⟩
        rw [List.filter_cons_of_neg (by rw [holds_eq hc]; exact ht)]
        exact hL

theorem initialize_snakes_scan_complete (fuel : Nat) (g : game_t) (cells : List (Nat × Nat))
    (acc L : List snake_t)
    (hin : ∀ p ∈ cells, ∃ ch, get_board_at g p.1 p.2 = some ch)
    (hL : List.Forall₂ (fun p s => traced_record fuel g p.1 p.2 = .ok s)
      (cells.filter fun p => holds g p.1 p.2 is_tail) L) :
    initialize_snakes_scan fuel g cells acc = .ok (acc ++ L) := by
  induction cells generalizing acc L with
  | nil =>
    simp only [List.filter_nil, List.forall₂_nil_left_iff] at hL
    subst hL
    simp [initialize_snakes_scan]
  | cons p rest ih =>
    obtain ⟨ch, hc⟩ := hin p (List.mem_cons_self _ _)
    have hin1 : ∀ q ∈ rest, ∃ ch, get_board_at g q.1 q.2 = some ch :=
      fun q hq => hin q (List.mem_cons_of_mem _ hq)
    simp only [initialize_snakes_scan, initialize_snakes_body_eq, hc]
    by_cases ht : is_tail ch = true
    · rw [List.filter_cons_of_pos (by rw [holds_eq hc]; exact ht)] at hL
      cases hL with
      | cons hr hrest =>
        rename_i s L1
        simp only [ht, if_true, hr]
        rw [ih _ L1 hin1 hrest]
        simp
    · rw [List.filter_cons_of_neg (by rw [holds_eq hc]; exact ht)] at hL
      simp only [ht, if_false]
      exact ih _ L hin1 hL

/-- A run of `initialize_snakes` that returns keeps the board and returns, for
the tail cells in row-major order, their traced records. -/
theorem initialize_snakes_sound {fuel : Nat} {g g1 : game_t}
    (h : initialize_snakes fuel g = .ok g1) :
    g1.board = g.board ∧
      List.Forall₂ (fun p s => traced_record fuel g p.1 p.2 = .ok s) (tail_cells g)
        g1.snakes := by
  rw [initialize_snakes_eq] at h
  cases hs : initialize_snakes_scan fuel g (grid_cells g) [] with
  | undefined => simp [hs] at h
  | no_fuel => simp [hs] at h
  | ok out =>
    simp only [hs, outcome.ok.injEq] at h
    subst h
    obtain ⟨L, e, hL⟩ := initialize_snakes_scan_sound fuel g _ _ _ hs
    simp only [List.nil_append] at e
    subst e
    exact ⟨rfl, hL⟩

theorem initialize_snakes_complete {fuel : Nat} {g : game_t} {L : List snake_t}
    (hL : List.Forall₂ (fun p s => traced_record fuel g p.1 p.2 = .ok s) (tail_cells g) L) :
    initialize_snakes fuel g = .ok { g with snakes := L } := by
  rw [initialize_snakes_eq,
    initialize_snakes_scan_complete fuel g (grid_cells g) [] L
      (fun p hp => (mem_grid_cells g p).mp hp) hL]
  rfl

/-! ## Reconstruction of the records -/

theorem forall₂_right {α β : Type} {R : α → β → Prop} {l : List α} {L : List β}
    (h : List.Forall₂ R l L) : ∀ y ∈ L, ∃ x ∈ l, R x y := by
  induction h with
  | nil => intro y hy; simp at hy
  | cons hr _ ih =>
    intro y hy
    rcases List.mem_cons.mp hy with e | e
    · subst e; exact ⟨_, List.mem_cons_self _ _, hr⟩
    · obtain ⟨x, hx, hxy⟩ := ih y e
      exact ⟨x, List.mem_cons_of_mem _ hx, hxy⟩

theorem forall₂_left {α β : Type} {R : α → β → Prop} {l : List α} {L : List β}
    (h : List.Forall₂ R l L) : ∀ x ∈ l, ∃ y ∈ L, R x y := by
  induction h with
  | nil => intro x hx; simp at hx
  | cons hr _ ih =>
    intro x hx
    rcases List.mem_cons.mp hx with e | e
    · subst e; exact ⟨_, List.mem_cons_self _ _, hr⟩
    · obtain ⟨y, hy, hxy⟩ := ih x e
      exact ⟨y, List.mem_cons_of_mem _ hy, hxy⟩

/-- C12 (liveness on reconstruction). When `initialize_snakes` returns, the
board is unchanged and every record it produced has its head on a cell of the
grid, the first head-class glyph of its trace; its alive flag is false exactly
when that glyph is the dead-head glyph `x`, and true otherwise. -/
theorem liveness_on_reconstruction (fuel : Nat) (g g1 : game_t)
    (h : initialize_snakes fuel g = .ok g1) :
    g1.board = g.board ∧
    ∀ s ∈ g1.snakes, ∃ hd n, get_board_at g1 s.head_row s.head_col = some hd ∧
      first_head_at g (s.tail_row, s.tail_col) n (s.head_row, s.head_col) = true ∧
      (s.live = false ↔ hd = 'x') ∧ (s.live = true ↔ hd ≠ 'x') := by
  obtain ⟨hb, hL⟩ := initialize_snakes_sound h
  refine ⟨hb, ?_⟩
  intro s hs
  obtain ⟨p, -, hp⟩ := forall₂_right hL s hs
  obtain ⟨e1, e2, ⟨n, -, hn⟩, hd, hhd, -, hlive⟩ := traced_record_sound hp
  have hget : get_board_at g1 s.head_row s.head_col = some hd := by
    unfold get_board_at at hhd ⊢
    rw [hb]; exact hhd
  refine ⟨hd, n, hget, ?_, ?_, ?_⟩
  · rw [e1, e2]; exact hn
  · rw [hlive]; simp [DEAD_SNAKE]
  · rw [hlive]; simp [DEAD_SNAKE]

/-- Witness of `liveness_on_reconstruction`: the dead snake of a board with one
live and one dead snake. -/
theorem liveness_on_reconstruction_witness :
    ∃ hd n, get_board_at ⟨two_tail_game.board,
        [⟨0, 0, 1, 1, true⟩, ⟨2, 3, 0, 3, false⟩]⟩ 0 3 = some hd ∧
      first_head_at two_tail_game (2, 3) n (0, 3) = true ∧
      (false = false ↔ hd = 'x') ∧ (false = true ↔ hd ≠ 'x') :=
  (liveness_on_reconstruction 5 two_tail_game
    ⟨two_tail_game.board, [⟨0, 0, 1, 1, true⟩, ⟨2, 3, 0, 3, false⟩]⟩ (by decide)).2
    ⟨2, 3, 0, 3, false⟩ (by decide)

/-! ## Boards with a tail that leads to no head -/

theorem stuck_loop_empty (fuel : Nat) : find_head_loop stuck_game fuel 0 1 ' ' = .no_fuel := by
  induction fuel with
  | zero => rfl
  | succ k ih =>
    have e : get_board_at stuck_game 0 1 = some ' ' := rfl
    rw [find_head_loop, if_neg (by decide)]
    rw [show get_next_row 0 ' ' = 0 from rfl, show get_next_col 1 ' ' = 1 from rfl, e]
    exact ih

theorem stuck_loop (fuel : Nat) : find_head_loop stuck_game fuel 0 0 'd' = .no_fuel := by
  cases fuel with
  | zero => rfl
  | succ k =>
    have e : get_board_at stuck_game 0 1 = some ' ' := rfl
    rw [find_head_loop, if_neg (by decide)]
    rw [show get_next_row 0 'd' = 0 from rfl, show get_next_col 0 'd' = 1 from rfl, e]
    exact stuck_loop_empty k

/-- C13 as stated fails: nothing in `find_head` or `initialize_snakes` detects a
tail without head. On the row `aD`, whose tail glyph points off the left edge,
the trace reads outside the grid; on the row `d `, whose tail glyph points at an
empty cell, the loop of `find_head` stays on that cell and no amount of fuel
ends it. -/
theorem malformed_counterexample :
    initialize_snakes 2 edge_game = .undefined ∧
    ∀ fuel, initialize_snakes fuel stuck_game = .no_fuel := by
  refine ⟨by decide, ?_⟩
  intro fuel
  rw [initialize_snakes_eq]
  have e : grid_cells stuck_game = [(0, 0), (0, 1), (0, 2)] := by decide
  have hg : get_board_at stuck_game 0 0 = some 'd' := rfl
  rw [e]
  simp only [initialize_snakes_scan, initialize_snakes_body_eq, hg]
  rw [if_pos (by decide)]
  simp only [traced_record, hg, stuck_loop fuel]

/-- C13, amended. For a grid that contains a tail glyph whose trace never
reaches a head-class glyph, `initialize_snakes` returns no game and reports
nothing, whatever the fuel: the loop of `find_head` either has not ended (the
trace stays in the grid for ever) or has read outside the grid (no defined
result). -/
theorem malformed_board_no_result (g : game_t) (p : Nat × Nat) (fuel : Nat)
    (hp : p ∈ tail_cells g)
    (hbad : ∀ n q, first_head_at g p n q = false) :
    initialize_snakes fuel g = .no_fuel ∨ initialize_snakes fuel g = .undefined := by
  cases h : initialize_snakes fuel g with
  | no_fuel => exact Or.inl rfl
  | undefined => exact Or.inr rfl
  | ok g1 =>
    exfalso
    obtain ⟨-, hL⟩ := initialize_snakes_sound h
    obtain ⟨s, -, hs⟩ := forall₂_left hL p hp
    obtain ⟨-, -, ⟨n, -, hn⟩, -⟩ := traced_record_sound hs
    rw [hbad] at hn
    exact absurd hn (by decide)

/-- Witness of `malformed_board_no_result`: the row `d `. -/
theorem malformed_board_no_result_witness :
    initialize_snakes 7 stuck_game = .no_fuel ∨ initialize_snakes 7 stuck_game = .undefined :=
  malformed_board_no_result stuck_game (0, 0) 7 (by decide) (by
    intro n q
    cases h : first_head_at stuck_game (0, 0) n q with
    | false => rfl
    | true =>
      have e := find_head_loop_complete stuck_game n 0 0 'd' q rfl h (n + 1)
        (Nat.lt_succ_self _)
      rw [stuck_loop] at e
      exact absurd e (by simp))

/-! ## Invariants of the loop of `update_game` -/

/-- A property kept by every run of the loop body holds after the loop. -/
theorem update_game_from_keeps (f : List (List Char) → List (List Char))
    (P : Nat → game_t → Prop) (N : Nat)
    (hstep : ∀ k g g1, k < N → P k g → update_game_body f g k = some g1 → P (k + 1) g1)
    (n k : Nat) (g g1 : game_t) (hk : k + n = N) (hP : P k g)
    (h : update_game_from f n k g = some g1) : P N g1 := by
  induction n generalizing k g with
  | zero =>
    simp only [update_game_from, Option.some.injEq] at h
    subst h
    rw [← hk]; exact hP
  | succ n ih =>
    simp only [update_game_from] at h
    cases hb : update_game_body f g k with
    | none => simp [hb] at h
    | some g2 =>
      simp only [hb] at h
      exact ih (k + 1) g2 (by omega) (hstep k g g2 (by omega) hP hb) h

/-- When every run of the loop body succeeds and keeps a property, the loop
succeeds and the property holds after it. -/
theorem update_game_from_succeeds (f : List (List Char) → List (List Char))
    (P : Nat → game_t → Prop) (N : Nat)
    (hstep : ∀ k g, k < N → P k g → ∃ g1, update_game_body f g k = some g1 ∧ P (k + 1) g1)
    (n k : Nat) (g : game_t) (hk : k + n = N) (hP : P k g) :
    ∃ g1, update_game_from f n k g = some g1 ∧ P N g1 := by
  induction n generalizing k g with
  | zero => exact ⟨g, rfl, by rw [← hk]; exact hP⟩
  | succ n ih =>
    obtain ⟨g2, hb, hP2⟩ := hstep k g (by omega) hP
    obtain ⟨g1, h1, h2⟩ := ih (k + 1) g2 (by omega) hP2
    exact ⟨g1, by simp only [update_game_from, hb, h1], h2⟩

theorem head_to_body_wall (c : Char) : head_to_body c = '#' ↔ c = '#' := by
  unfold head_to_body
  split_ifs with h1 h2 h3 h4
  · subst h1; decide
  · subst h2; decide
  · subst h3; decide
  · subst h4; decide
  · rfl

theorem body_to_tail_wall (c : Char) : body_to_tail c = '#' ↔ c = '#' := by
  unfold body_to_tail
  split_ifs with h1 h2 h3 h4
  · subst h1; decide
  · subst h2; decide
  · subst h3; decide
  · subst h4; decide
  · rfl

/-- When `update_tail` returns, the record, its tail cell and the cell ahead of
the tail were all there. -/
theorem update_tail_some {g g1 : game_t} {snum : Nat} (h : update_tail g snum = some g1) :
    ∃ s t b, g.snakes[snum]? = some s ∧ get_board_at g s.tail_row s.tail_col = some t ∧
      get_board_at g (get_next_row s.tail_row t) (get_next_col s.tail_col t) = some b := by
  unfold update_tail at h
  split at h
  · simp at h
  · rename_i s hs
    split at h
    · simp at h
    · rename_i t ht
      simp only at h
      split at h
      · simp at h
      · rename_i b hb
        exact ⟨s, t, b, hs, ht, hb⟩

/-- The loop body with a food placer that does nothing, for a record whose head
cell and tail cell do not hold the wall glyph: the cells that hold the wall
glyph are the same before and after, and the other records are untouched. -/
theorem update_game_body_walls {g g1 : game_t} {k : Nat} {s : snake_t}
    (hs : g.snakes[k]? = some s)
    (hhead : get_board_at g s.head_row s.head_col ≠ some '#')
    (htail : get_board_at g s.tail_row s.tail_col ≠ some '#')
    (h : update_game_body no_food g k = some g1) :
    (∀ r c, get_board_at g1 r c = some '#' ↔ get_board_at g r c = some '#') ∧
    (∀ i, i ≠ k → g1.snakes[i]? = g.snakes[i]?) := by
  unfold update_game_body at h
  cases hsq : next_square g k with
  | none => simp [hsq] at h
  | some sq =>
    obtain ⟨s', hd, hs', hh, hT⟩ := next_square_some hsq
    have e : s' = s := by rw [hs] at hs'; exact (Option.some.inj hs').symm
    subst e
    have hhw : hd ≠ '#' := fun e => hhead (by rw [hh, e])
    simp only [hsq] at h
    split at h
    · -- death
      obtain ⟨g2, hg2, hsn, hcell⟩ := update_snake_when_dead_spec hs' hh
      rw [hg2] at h
      have e := Option.some.inj h
      subst e
      refine ⟨?_, ?_⟩
      · intro r c
        rw [hcell]
        split
        · rename_i hrc
          rw [hrc.1, hrc.2, hh]
          simp [DEAD_SNAKE, hhw]
        · rfl
      · intro i hi
        rw [hsn, List.getElem?_set_ne (Ne.symm hi)]
    · rename_i hnd
      simp only [Bool.or_eq_true, beq_iff_eq, not_or, WALL_CHAR] at hnd
      obtain ⟨ga, hga, hsa, hca⟩ := update_head_spec hs' hh hT
      have hwa : ∀ r c, get_board_at ga r c = some '#' ↔ get_board_at g r c = some '#' := by
        intro r c
        rw [hca]
        split
        · rename_i hrc
          rw [hrc.1, hrc.2, hh]
          simp [head_to_body_wall, hhw]
        · split
          · rename_i hrc
            rw [hrc.1, hrc.2, hT]
            simp [hhw, hnd.2]
          · rfl
      have hra : ∀ i, i ≠ k → ga.snakes[i]? = g.snakes[i]? := by
        intro i hi
        rw [hsa, List.getElem?_set_ne (Ne.symm hi)]
      split at h
      · -- growth
        simp only [update_snake_when_eat_fruit, hga, Option.some.injEq] at h
        subst h
        exact ⟨hwa, hra⟩
      · -- plain move
        simp only [update_snake, hga] at h
        obtain ⟨s2, t, b, hs2, ht2, hb2⟩ := update_tail_some h
        obtain ⟨g2, hg2, hsn2, hcell2⟩ := update_tail_spec hs2 ht2 hb2
        rw [hg2] at h
        have e := Option.some.inj h
        subst e
        have hs2' : s2 = ⟨s'.tail_row, s'.tail_col, get_next_row s'.head_row hd,
            get_next_col s'.head_col hd, s'.live⟩ := by
          rw [hsa, List.getElem?_set_self (getElem?_lt_length hs')] at hs2
          exact (Option.some.inj hs2).symm
        have htw : t ≠ '#' := by
          intro e
          have := (hwa s2.tail_row s2.tail_col).mp (by rw [ht2, e])
          rw [hs2'] at this
          exact htail this
        refine ⟨?_, ?_⟩
        · intro r c
          rw [hcell2]
          split
          · rename_i hrc
            rw [← hwa, hrc.1, hrc.2, hb2]
            simp [body_to_tail_wall]
          · split
            · rename_i hrc
              rw [← hwa, hrc.1, hrc.2, ht2]
              simp [EMPTY_CHAR, htw]
            · exact hwa r c
        · intro i hi
          rw [hsn2, List.getElem?_set_ne (Ne.symm hi)]
          exact hra i hi

/-- C20 (walls are permanent). In a game whose records each have a head-class
glyph at the head cell and a tail glyph at the tail cell, when one tick with a
food placer that does nothing succeeds (no access outside the grid), the cells
holding the wall glyph after the tick are exactly those that held it before. -/
theorem walls_permanent (g g1 : game_t)
    (hrec : ∀ s ∈ g.snakes, holds g s.head_row s.head_col is_head = true ∧
      holds g s.tail_row s.tail_col is_tail = true)
    (h : update_game no_food g = some g1) :
    ∀ r c, get_board_at g1 r c = some '#' ↔ get_board_at g r c = some '#' := by
  have key := update_game_from_keeps no_food
    (fun k gk => (∀ r c, get_board_at gk r c = some '#' ↔ get_board_at g r c = some '#') ∧
      ∀ i, k ≤ i → gk.snakes[i]? = g.snakes[i]?)
    g.num_snakes
    (by
      intro k gk g2 hk hP hb
      obtain ⟨hw, hr⟩ := hP
      have hlt : k < g.snakes.length := hk
      have hs : gk.snakes[k]? = some (g.snakes.get ⟨k, hlt⟩) := by
        rw [hr k (Nat.le_refl _), List.getElem?_eq_getElem hlt]; rfl
      obtain ⟨h1, h2⟩ := hrec _ (List.get_mem g.snakes k hlt)
      have hhead : get_board_at gk (g.snakes.get ⟨k, hlt⟩).head_row
          (g.snakes.get ⟨k, hlt⟩).head_col ≠ some '#' := by
        intro e
        have := (hw _ _).mp e
        rw [holds_eq this] at h1
        exact absurd h1 (by decide)
      have htail : get_board_at gk (g.snakes.get ⟨k, hlt⟩).tail_row
          (g.snakes.get ⟨k, hlt⟩).tail_col ≠ some '#' := by
        intro e
        have := (hw _ _).mp e
        rw [holds_eq this] at h2
        exact absurd h2 (by decide)
      obtain ⟨hw2, hr2⟩ := update_game_body_walls hs hhead htail hb
      refine ⟨fun r c => (hw2 r c).trans (hw r c), ?_⟩
      intro i hi
      rw [hr2 i (by omega), hr i (by omega)])
    g.num_snakes 0 g g1 (by omega) ⟨fun _ _ => Iff.rfl, fun _ _ => rfl⟩ h
  exact key.1

/-- Witness of `walls_permanent`: the snake `dD` facing a wall, at the wall
cell (0,2). -/
theorem walls_permanent_witness :
    get_board_at ⟨[['d', 'x', '#', LF]], [⟨0, 0, 0, 1, false⟩]⟩ 0 2 = some '#' ↔
      get_board_at wall_game 0 2 = some '#' :=
  walls_permanent wall_game ⟨[['d', 'x', '#', LF]], [⟨0, 0, 0, 1, false⟩]⟩ (by decide)
    (by decide) 0 2

/-! ## Walled boards -/

theorem walled_iff (g : game_t) (R W : Nat) :
    walled g R W = true ↔
      ∀ r c, r < R → c < W →
        ∃ ch, get_board_at g r c = some ch ∧ (on_ring R W r c = true → ch = '#') := by
  unfold walled
  simp only [List.all_eq_true, List.mem_range]
  constructor
  · intro h r c hr hc
    have := h r hr c hc
    cases hg : get_board_at g r c with
    | none => simp [hg] at this
    | some ch =>
      simp only [hg, Bool.or_eq_true, Bool.not_eq_true', beq_iff_eq, WALL_CHAR] at this
      refine ⟨ch, rfl, fun e => ?_⟩
      rcases this with e1 | e1
      · rw [e] at e1; exact absurd e1 (by decide)
      · exact e1
  · intro h r hr c hc
    obtain ⟨ch, hg, hring⟩ := h r c hr hc
    simp only [hg, Bool.or_eq_true, Bool.not_eq_true', beq_iff_eq, WALL_CHAR]
    cases e : on_ring R W r c
    · exact Or.inl rfl
    · exact Or.inr (hring e)

theorem inside_ring_iff (R W r c : Nat) :
    inside_ring R W r c = true ↔ 0 < r ∧ r + 1 < R ∧ 0 < c ∧ c + 1 < W := by
  simp only [inside_ring, Bool.and_eq_true, decide_eq_true_eq]
  constructor
  · rintro ⟨⟨⟨a, b⟩, c⟩, d⟩; exact ⟨a, b, c, d⟩
  · rintro ⟨a, b, c, d⟩; exact ⟨⟨⟨a, b⟩, c⟩, d⟩

theorem on_ring_iff (R W r c : Nat) :
    on_ring R W r c = true ↔
      r < R ∧ c < W ∧ (r = 0 ∨ r + 1 = R ∨ c = 0 ∨ c + 1 = W) := by
  simp only [on_ring, Bool.and_eq_true, Bool.or_eq_true, decide_eq_true_eq]
  constructor
  · rintro ⟨⟨a, b⟩, c⟩; exact ⟨a, b, by tauto⟩
  · rintro ⟨a, b, c⟩; exact ⟨⟨a, b⟩, by tauto⟩

theorem not_on_ring_of_inside {R W r c : Nat} (h : inside_ring R W r c = true) :
    ¬(on_ring R W r c = true) := by
  rw [inside_ring_iff] at h
  rw [on_ring_iff]
  omega

theorem inside_of_not_on_ring {R W r c : Nat} (hr : r < R) (hc : c < W)
    (h : ¬(on_ring R W r c = true)) : inside_ring R W r c = true := by
  rw [inside_ring_iff]
  rw [on_ring_iff] at h
  omega

theorem get_next_row_cases (r : Nat) (ch : Char) :
    get_next_row r ch = r ∨ get_next_row r ch = (r + 1) % 4294967296 ∨
      get_next_row r ch = (r + 4294967296 - 1) % 4294967296 := by
  unfold get_next_row
  split_ifs
  · exact Or.inr (Or.inl rfl)
  · exact Or.inr (Or.inr rfl)
  · exact Or.inl rfl

theorem get_next_col_cases (r : Nat) (ch : Char) :
    get_next_col r ch = r ∨ get_next_col r ch = (r + 1) % 4294967296 ∨
      get_next_col r ch = (r + 4294967296 - 1) % 4294967296 := by
  unfold get_next_col
  split_ifs
  · exact Or.inr (Or.inl rfl)
  · exact Or.inr (Or.inr rfl)
  · exact Or.inl rfl

/-- The cell a glyph points at, from a cell strictly inside the ring, lies in
the rectangle. -/
theorem next_in_rect {R W r c : Nat} (h : inside_ring R W r c = true) (ch : Char) :
    get_next_row r ch < R ∧ get_next_col c ch < W := by
  rw [inside_ring_iff] at h
  have h1 := get_next_row_cases r ch
  have h2 := get_next_col_cases c ch
  constructor
  · rcases h1 with e | e | e <;> rw [e] <;> omega
  · rcases h2 with e | e | e <;> rw [e] <;> omega

/-- The loop body on a walled board, for a record whose head and tail lie
strictly inside the ring: it succeeds, the board stays walled, only this record
changes and its head is still strictly inside the ring. -/
theorem update_game_body_walled {g : game_t} {k : Nat} {s : snake_t} {R W : Nat}
    (hw : walled g R W = true)
    (hs : g.snakes[k]? = some s)
    (hhi : inside_ring R W s.head_row s.head_col = true)
    (hti : inside_ring R W s.tail_row s.tail_col = true) :
    ∃ g1 s1, update_game_body no_food g k = some g1 ∧ walled g1 R W = true ∧
      g1.snakes = g.snakes.set k s1 ∧ inside_ring R W s1.head_row s1.head_col = true := by
  rw [walled_iff] at hw
  have hhr := (inside_ring_iff _ _ _ _).mp hhi
  have htr := (inside_ring_iff _ _ _ _).mp hti
  obtain ⟨hd, hh, -⟩ := hw s.head_row s.head_col (by omega) (by omega)
  obtain ⟨hT1, hT2⟩ := next_in_rect hhi hd
  obtain ⟨sq, hT, hTring⟩ := hw _ _ hT1 hT2
  have hsq : next_square g k = some sq := by rw [next_square_eq hs hh, hT]
  by_cases hdead : (is_snake sq || sq == WALL_CHAR) = true
  · obtain ⟨g1, hg1, hsn, hcell⟩ := update_snake_when_dead_spec hs hh
    refine ⟨g1, _, ?_, ?_, hsn, hhi⟩
    · simp only [update_game_body, hsq, hdead, if_true, hg1]
    · rw [walled_iff]
      intro r c hr hc
      rw [hcell]
      split
      · rename_i hrc
        refine ⟨_, rfl, fun e => ?_⟩
        rw [hrc.1, hrc.2] at e
        exact absurd e (not_on_ring_of_inside hhi)
      · exact hw r c hr hc
  · have hnw : sq ≠ '#' := by
      intro e
      apply hdead
      simp [e, WALL_CHAR]
    have hTi : inside_ring R W (get_next_row s.head_row hd) (get_next_col s.head_col hd) =
        true := inside_of_not_on_ring hT1 hT2 (fun e => hnw (hTring e))
    obtain ⟨ga, hga, hsa, hca⟩ := update_head_spec hs hh hT
    have hwa : ∀ r c, r < R → c < W →
        ∃ ch, get_board_at ga r c = some ch ∧ (on_ring R W r c = true → ch = '#') := by
      intro r c hr hc
      rw [hca]
      split
      · rename_i hrc
        refine ⟨_, rfl, fun e => ?_⟩
        rw [hrc.1, hrc.2] at e
        exact absurd e (not_on_ring_of_inside hhi)
      · split
        · rename_i hrc
          refine ⟨_, rfl, fun e => ?_⟩
          rw [hrc.1, hrc.2] at e
          exact absurd e (not_on_ring_of_inside hTi)
        · exact hw r c hr hc
    by_cases hfruit : (sq == FRUIT_CHAR) = true
    · refine ⟨ga, _, ?_, (walled_iff _ _ _).mpr hwa, hsa, hTi⟩
      simp only [update_game_body, hsq, hdead, hfruit, if_true, update_snake_when_eat_fruit,
        hga]
      rfl
    · have hsa1 : ga.snakes[k]? = some ⟨s.tail_row, s.tail_col, get_next_row s.head_row hd,
          get_next_col s.head_col hd, s.live⟩ := by
        rw [hsa, List.getElem?_set_self (getElem?_lt_length hs)]
      obtain ⟨t, ht, -⟩ := hwa s.tail_row s.tail_col (by omega) (by omega)
      obtain ⟨hN1, hN2⟩ := next_in_rect hti t
      obtain ⟨b, hb, hbring⟩ := hwa _ _ hN1 hN2
      obtain ⟨g2, hg2, hsn2, hcell2⟩ := update_tail_spec hsa1 ht hb
      refine ⟨g2, _, ?_, ?_, by rw [hsn2, hsa, List.set_set], hTi⟩
      · simp only [update_game_body, hsq, hdead, hfruit, update_snake, hga]
        exact hg2
      · rw [walled_iff]
        intro r c hr hc
        rw [hcell2]
        split
        · rename_i hrc
          refine ⟨_, rfl, fun e => ?_⟩
          rw [hrc.1, hrc.2] at e
          rw [hbring e]
          decide
        · split
          · rename_i hrc
            refine ⟨_, rfl, fun e => ?_⟩
            rw [hrc.1, hrc.2] at e
            exact absurd e (not_on_ring_of_inside hti)
          · exact hwa r c hr hc

/-- C19 (in-bounds safety on walled boards). On a grid that holds a rectangle of
`R` rows and `W` columns whose outer ring is entirely wall, with every record's
head and tail strictly inside the ring, one tick with a food placer that does
nothing succeeds, that is, it makes no access outside the grid; afterwards the
ring is still wall and every head coordinate still lies strictly inside it.
(The glyphs held by the head and tail cells play no part.) -/
theorem walled_board_safety (g : game_t) (R W : Nat)
    (hw : walled g R W = true)
    (hrec : ∀ s ∈ g.snakes, inside_ring R W s.head_row s.head_col = true ∧
      inside_ring R W s.tail_row s.tail_col = true) :
    ∃ g1, update_game no_food g = some g1 ∧
      (∀ s ∈ g1.snakes, inside_ring R W s.head_row s.head_col = true) ∧
      walled g1 R W = true ∧ g1.num_snakes = g.num_snakes := by
  obtain ⟨g1, h1, hwalled, hlen, hheads, -⟩ := update_game_from_succeeds no_food
    (fun k gk => walled gk R W = true ∧ gk.snakes.length = g.snakes.length ∧
      (∀ i s, gk.snakes[i]? = some s → inside_ring R W s.head_row s.head_col = true) ∧
      ∀ i, k ≤ i → gk.snakes[i]? = g.snakes[i]?)
    g.num_snakes
    (by
      intro k gk hk hP
      obtain ⟨hwk, hlk, hhk, hrk⟩ := hP
      have hlt : k < g.snakes.length := hk
      have hs : gk.snakes[k]? = some (g.snakes.get ⟨k, hlt⟩) := by
        rw [hrk k (Nat.le_refl _), List.getElem?_eq_getElem hlt]; rfl
      obtain ⟨hi1, hi2⟩ := hrec _ (List.get_mem g.snakes k hlt)
      obtain ⟨g2, s1, hb, hw2, hsn2, hs1⟩ := update_game_body_walled hwk hs hi1 hi2
      refine ⟨g2, hb, hw2, by rw [hsn2, List.length_set, hlk], ?_, ?_⟩
      · intro i s hi
        rw [hsn2] at hi
        by_cases e : i = k
        · subst e
          rw [List.getElem?_set_self (by omega)] at hi
          rw [← Option.some.inj hi]; exact hs1
        · rw [List.getElem?_set_ne (Ne.symm e)] at hi
          exact hhk i s hi
      · intro i hi
        rw [hsn2, List.getElem?_set_ne (by omega)]
        exact hrk i (by omega))
    g.num_snakes 0 g (by omega)
    ⟨hw, rfl, fun i s hi => (hrec s (List.getElem?_mem hi)).1, fun _ _ => rfl⟩
  refine ⟨g1, h1, ?_, hwalled, hlen⟩
  intro s hs
  obtain ⟨i, hi⟩ := List.getElem?_of_mem hs
  exact hheads i s hi

/-- Witness of `walled_board_safety`: a walled board of 3 rows and 5 columns. -/
theorem walled_board_safety_witness :
    ∃ g1, update_game no_food small_walled_game = some g1 ∧
      (∀ s ∈ g1.snakes, inside_ring 3 5 s.head_row s.head_col = true) ∧
      walled g1 3 5 = true ∧ g1.num_snakes = small_walled_game.num_snakes :=
  walled_board_safety small_walled_game 3 5 (by decide) (by decide)

/-! ## Paths: the cells of a trace before its first head -/

theorem trace_none_succ {g : game_t} {start : Nat × Nat} {m : Nat}
    (h : trace g start m = none) (k : Nat) : trace g start (m + k) = none := by
  induction k with
  | zero => exact h
  | succ k ih => rw [← Nat.add_assoc, trace, ih]

theorem trace_some_of_le {g : game_t} {start p : Nat × Nat} {n : Nat}
    (h : trace g start n = some p) (m : Nat) (hm : m ≤ n) :
    ∃ q, trace g start m = some q := by
  cases e : trace g start m with
  | some q => exact ⟨q, rfl⟩
  | none =>
    have := trace_none_succ e (n - m)
    rw [show m + (n - m) = n by omega, h] at this
    simp at this

theorem no_head_before_iff (g : game_t) (start : Nat × Nat) (n : Nat) :
    no_head_before g start n = true ↔
      ∀ m, m < n → ∀ q, trace g start m = some q → holds g q.1 q.2 is_head = false := by
  induction n with
  | zero => simp [no_head_before]
  | succ n ih =>
    simp only [no_head_before, Bool.and_eq_true, ih]
    constructor
    · rintro ⟨h1, h2⟩ m hm q hq
      by_cases e : m = n
      · subst e
        rw [hq] at h2
        simpa using h2
      · exact h1 m (by omega) q hq
    · intro h
      refine ⟨fun m hm q hq => h m (by omega) q hq, ?_⟩
      cases e : trace g start n with
      | none => rfl
      | some q => simp [h n (Nat.lt_succ_self _) q e]

theorem first_head_at_iff (g : game_t) (start p : Nat × Nat) (n : Nat) :
    first_head_at g start n p = true ↔
      trace g start n = some p ∧ holds g p.1 p.2 is_head = true ∧
        ∀ m, m < n → ∀ q, trace g start m = some q → holds g q.1 q.2 is_head = false := by
  simp only [first_head_at, Bool.and_eq_true, beq_iff_eq, no_head_before_iff, and_assoc]

theorem trace_add (g : game_t) (start : Nat × Nat) (a b : Nat) :
    trace g start (a + b) =
      match trace g start a with
      | none => none
      | some q => trace g q b := by
  induction b with
  | zero =>
    simp only [Nat.add_zero, trace]
    cases trace g start a <;> rfl
  | succ b ih =>
    rw [← Nat.add_assoc, trace, ih]
    cases trace g start a with
    | none => rfl
    | some q => rfl

theorem trace_stuck {g : game_t} {start q : Nat × Nat} {m : Nat}
    (h : trace g start m = some q) (hfix : next_cell g q = some q) (k : Nat) :
    trace g start (m + k) = some q := by
  induction k with
  | zero => exact h
  | succ k ih => rw [← Nat.add_assoc, trace, ih]; exact hfix

/-- A cell of the path before the first head is not the head cell. -/
theorem path_ne_head {g : game_t} {start p q : Nat × Nat} {n m : Nat}
    (h : first_head_at g start n p = true) (hm : m < n) (hq : trace g start m = some q) :
    q ≠ p := by
  obtain ⟨-, h2, h3⟩ := (first_head_at_iff _ _ _ _).mp h
  intro e
  subst e
  rw [h3 m hm q hq] at h2
  exact absurd h2 (by decide)

/-- A cell of the path before the first head does not point at itself. -/
theorem path_not_still {g : game_t} {start p q : Nat × Nat} {n m : Nat}
    (h : first_head_at g start n p = true) (hm : m < n) (hq : trace g start m = some q) :
    next_cell g q ≠ some q := by
  intro hfix
  obtain ⟨h1, -, -⟩ := (first_head_at_iff _ _ _ _).mp h
  have := trace_stuck hq hfix (n - m)
  rw [show m + (n - m) = n by omega, h1] at this
  exact path_ne_head h hm hq (Option.some.inj this).symm

/-- The path does not come back to its start. -/
theorem path_ne_start {g : game_t} {start p : Nat × Nat} {n m : Nat}
    (h : first_head_at g start n p = true) (h0 : 0 < m) (hm : m ≤ n) :
    trace g start m ≠ some start := by
  intro e
  obtain ⟨h1, h2, h3⟩ := (first_head_at_iff _ _ _ _).mp h
  have := trace_add g start m (n - m)
  rw [show m + (n - m) = n by omega, h1, e] at this
  have hf := h3 (n - m) (by omega) p this.symm
  rw [hf] at h2
  exact absurd h2 (by decide)

/-- The path is the same on a board whose glyphs, on the cells of the path
before the head, point the same way and are still no head glyphs. -/
theorem path_transfer {g g1 : game_t} {start p : Nat × Nat} {n : Nat}
    (h : first_head_at g start n p = true)
    (hcong : ∀ m, m < n → ∀ q, trace g start m = some q →
      next_cell g1 q = next_cell g q ∧ holds g1 q.1 q.2 is_head = false) :
    trace g1 start n = some p ∧
      ∀ m, m < n → ∀ q, trace g1 start m = some q → holds g1 q.1 q.2 is_head = false := by
  obtain ⟨h1, -, -⟩ := (first_head_at_iff _ _ _ _).mp h
  have key : ∀ m, m ≤ n → trace g1 start m = trace g start m := by
    intro m
    induction m with
    | zero => intro _; rfl
    | succ m ih =>
      intro hm
      obtain ⟨q, hq⟩ := trace_some_of_le h1 m (by omega)
      rw [trace, trace, ih (by omega), hq]
      exact (hcong m (by omega) q hq).1
  refine ⟨by rw [key n (Nat.le_refl _), h1], ?_⟩
  intro m hm q hq
  rw [key m (by omega)] at hq
  exact (hcong m hm q hq).2

/-- The head stays where it is when the path is kept and the head cell still
holds a head-class glyph. -/
theorem path_keep {g g1 : game_t} {start p : Nat × Nat} {n : Nat}
    (h : first_head_at g start n p = true)
    (hcong : ∀ m, m < n → ∀ q, trace g start m = some q →
      next_cell g1 q = next_cell g q ∧ holds g1 q.1 q.2 is_head = false)
    (hp : holds g1 p.1 p.2 is_head = true) :
    first_head_at g1 start n p = true := by
  obtain ⟨e1, e2⟩ := path_transfer h hcong
  exact (first_head_at_iff _ _ _ _).mpr ⟨e1, hp, e2⟩

/-- The head moves one cell on when the path is kept, the old head cell now
holds a glyph that is no head and points at `T`, and `T` holds a head-class
glyph. -/
theorem path_extend {g g1 : game_t} {start p T : Nat × Nat} {n : Nat}
    (h : first_head_at g start n p = true)
    (hcong : ∀ m, m < n → ∀ q, trace g start m = some q →
      next_cell g1 q = next_cell g q ∧ holds g1 q.1 q.2 is_head = false)
    (hp : next_cell g1 p = some T ∧ holds g1 p.1 p.2 is_head = false)
    (hT : holds g1 T.1 T.2 is_head = true) :
    first_head_at g1 start (n + 1) T = true := by
  obtain ⟨e1, e2⟩ := path_transfer h hcong
  refine (first_head_at_iff _ _ _ _).mpr ⟨by rw [trace, e1]; exact hp.1, hT, ?_⟩
  intro m hm q hq
  by_cases e : m = n
  · subst e
    rw [e1] at hq
    rw [← Option.some.inj hq]
    exact hp.2
  · exact e2 m (by omega) q hq

/-! ## A game of one snake and the record rebuilt from its board -/

theorem list_eq_singleton {α : Type} {l : List α} {a : α} (hn : l.Nodup)
    (h : ∀ x, x ∈ l ↔ x = a) : l = [a] := by
  cases l with
  | nil => exact absurd ((h a).mpr rfl) (by simp)
  | cons x xs =>
    have hx : x = a := (h x).mp (List.mem_cons_self _ _)
    subst hx
    cases xs with
    | nil => rfl
    | cons y ys =>
      have hy : y = x := (h y).mp (List.mem_cons_of_mem _ (List.mem_cons_self _ _))
      subst hy
      simp at hn

theorem forall₂_singleton {α β : Type} {R : α → β → Prop} {l : List α} {y : β}
    (h : List.Forall₂ R l [y]) : ∃ x, l = [x] ∧ R x y := by
  cases l with
  | nil => cases h
  | cons x xs =>
    cases h with
    | cons hr hrest =>
      cases hrest
      exact ⟨x, rfl, hr⟩

theorem nodup_tail_cells (g : game_t) : (tail_cells g).Nodup :=
  (nodup_cells_from g g.num_rows 0).filter _

/-- A game of one record is a fixed point of `initialize_snakes` when its only
tail glyph is at the tail of the record, the first head on the trace from there
is the head of the record, and the alive flag says whether that glyph is `x`. -/
theorem initialize_snakes_single {g1 : game_t} {s1 : snake_t} {n : Nat} {d : Char}
    (hsn : g1.snakes = [s1])
    (htails : ∀ p : Nat × Nat, (∃ ch, get_board_at g1 p.1 p.2 = some ch ∧ is_tail ch = true) ↔
      p = (s1.tail_row, s1.tail_col))
    (hpath : first_head_at g1 (s1.tail_row, s1.tail_col) n (s1.head_row, s1.head_col) = true)
    (hhd : get_board_at g1 s1.head_row s1.head_col = some d)
    (hlive : s1.live = (d != DEAD_SNAKE))
    (fuel : Nat) (hfuel : n < fuel) : initialize_snakes fuel g1 = .ok g1 := by
  have e : tail_cells g1 = [(s1.tail_row, s1.tail_col)] :=
    list_eq_singleton (nodup_tail_cells g1) (fun p => (mem_tail_cells g1 p).trans (htails p))
  obtain ⟨hd2, hhd2, -, hrec⟩ := traced_record_complete hpath fuel hfuel
  have ehd : hd2 = d := Option.some.inj (hhd2.symm.trans hhd)
  have hL : List.Forall₂ (fun p s => traced_record fuel g1 p.1 p.2 = .ok s) (tail_cells g1)
      [s1] := by
    rw [e]
    refine List.Forall₂.cons ?_ List.Forall₂.nil
    rw [hrec, ehd, ← hlive]
  rw [initialize_snakes_complete hL, ← hsn]

/-- Conversely, what a fixed point of `initialize_snakes` with one record says
about its board. -/
theorem initialize_snakes_single_inv {g : game_t} {s : snake_t} {fuel : Nat}
    (hsn : g.snakes = [s]) (h : initialize_snakes fuel g = .ok g) :
    (∀ p : Nat × Nat, (∃ ch, get_board_at g p.1 p.2 = some ch ∧ is_tail ch = true) ↔
      p = (s.tail_row, s.tail_col)) ∧
    ∃ n hd, first_head_at g (s.tail_row, s.tail_col) n (s.head_row, s.head_col) = true ∧
      get_board_at g s.head_row s.head_col = some hd ∧ is_head hd = true ∧
      s.live = (hd != DEAD_SNAKE) := by
  obtain ⟨-, hL⟩ := initialize_snakes_sound h
  rw [hsn] at hL
  obtain ⟨p, htc, hr⟩ := forall₂_singleton hL
  obtain ⟨e1, e2, ⟨n, -, hn⟩, hd, hhd, hhh, hlive⟩ := traced_record_sound hr
  have ep : p = (s.tail_row, s.tail_col) := by rw [e1, e2]
  refine ⟨?_, n, hd, by rw [e1, e2]; exact hn, hhd, hhh, hlive⟩
  intro q
  rw [← mem_tail_cells, htc, List.mem_singleton, ep]

theorem same_cell {g g1 : game_t} {q : Nat × Nat}
    (h : get_board_at g1 q.1 q.2 = get_board_at g q.1 q.2) (ok : Char → Bool) :
    next_cell g1 q = next_cell g q ∧ holds g1 q.1 q.2 ok = holds g q.1 q.2 ok := by
  simp only [next_cell, holds, h, and_self]

theorem is_tail_not_head {c : Char} (h : is_tail c = true) : is_head c = false := by
  have := is_tail_mem h
  simp only [List.mem_cons, List.mem_singleton, List.not_mem_nil, or_false] at this
  rcases this with e | e | e | e <;> subst e <;> decide

theorem is_head_not_tail {c : Char} (h : is_head c = true) : is_tail c = false := by
  cases e : is_tail c with
  | false => rfl
  | true => rw [is_tail_not_head e] at h; exact absurd h (by decide)

theorem is_body_of_move {c : Char}
    (h : c ∈ ['w', 'a', 's', 'd', '^', '<', 'v', '>', 'W', 'A', 'S', 'D'])
    (h1 : is_head c = false) (h2 : is_tail c = false) : c ∈ ['^', '<', 'v', '>'] := by
  simp only [List.mem_cons, List.mem_singleton, List.not_mem_nil, or_false] at h
  rcases h with e | e | e | e | e | e | e | e | e | e | e | e <;> subst e <;>
    first
    | decide
    | exact absurd h1 (by decide)
    | exact absurd h2 (by decide)

theorem is_head_mem_or_dead {c : Char} (h : is_head c = true) :
    c ∈ ['W', 'A', 'S', 'D'] ∨ c = 'x' := by
  by_cases e : c = 'x'
  · exact Or.inr e
  · left
    apply is_live_head_mem
    simp only [is_live_head, h, Bool.true_and, bne_iff_ne, ne_eq, DEAD_SNAKE]
    exact e

theorem pair_ne {q : Nat × Nat} {a b : Nat} (h : q ≠ (a, b)) : ¬(q.1 = a ∧ q.2 = b) := by
  rintro ⟨e1, e2⟩
  exact h (Prod.ext e1 e2)

/-- The glyphs on the path are kept when the cells of the path are unchanged. -/
theorem path_cong_of_unchanged {g g1 : game_t} {start p : Nat × Nat} {n : Nat}
    (h : first_head_at g start n p = true)
    (hsame : ∀ m, m < n → ∀ q, trace g start m = some q →
      get_board_at g1 q.1 q.2 = get_board_at g q.1 q.2) :
    ∀ m, m < n → ∀ q, trace g start m = some q →
      next_cell g1 q = next_cell g q ∧ holds g1 q.1 q.2 is_head = false := by
  intro m hm q hq
  obtain ⟨-, -, h3⟩ := (first_head_at_iff _ _ _ _).mp h
  obtain ⟨e1, e2⟩ := same_cell (hsame m hm q hq) is_head
  exact ⟨e1, by rw [e2]; exact h3 m hm q hq⟩

/-- After a death the record is again the one rebuilt from the board. -/
theorem rebuild_after_death {g g1 : game_t} {s : snake_t} {n : Nat} {hd : Char}
    (htails : ∀ p : Nat × Nat, (∃ ch, get_board_at g p.1 p.2 = some ch ∧ is_tail ch = true) ↔
      p = (s.tail_row, s.tail_col))
    (hpath : first_head_at g (s.tail_row, s.tail_col) n (s.head_row, s.head_col) = true)
    (hhd : get_board_at g s.head_row s.head_col = some hd) (hhh : is_head hd = true)
    (hsn : g1.snakes = [⟨s.tail_row, s.tail_col, s.head_row, s.head_col, false⟩])
    (hcell : ∀ r c, get_board_at g1 r c =
      if r = s.head_row ∧ c = s.head_col then some DEAD_SNAKE else get_board_at g r c)
    (fuel : Nat) (hfuel : n < fuel) : initialize_snakes fuel g1 = .ok g1 := by
  obtain ⟨t, ht, htt⟩ := (htails (s.tail_row, s.tail_col)).mpr rfl
  have hth : ¬(s.tail_row = s.head_row ∧ s.tail_col = s.head_col) := by
    rintro ⟨e1, e2⟩
    rw [e1, e2, hhd] at ht
    rw [← Option.some.inj ht, is_head_not_tail hhh] at htt
    exact absurd htt (by decide)
  have hgh : get_board_at g1 s.head_row s.head_col = some DEAD_SNAKE := by
    rw [hcell, if_pos ⟨rfl, rfl⟩]
  refine initialize_snakes_single (d := DEAD_SNAKE) hsn ?_ ?_ hgh rfl fuel hfuel
  · intro p
    rw [hcell]
    split
    · rename_i hp
      constructor
      · rintro ⟨ch, e, hch⟩
        rw [← Option.some.inj e] at hch
        exact absurd hch (by decide)
      · intro e
        rw [e] at hp
        exact absurd hp hth
    · exact htails p
  · refine path_keep hpath (path_cong_of_unchanged hpath ?_) ?_
    · intro m hm q hq
      rw [hcell, if_neg (pair_ne (path_ne_head hpath hm hq))]
    · rw [holds_eq hgh]; decide

/-- After a growth the record is again the one rebuilt from the board. -/
theorem rebuild_after_growth {g g1 : game_t} {s : snake_t} {n : Nat} {hd sq : Char}
    (htails : ∀ p : Nat × Nat, (∃ ch, get_board_at g p.1 p.2 = some ch ∧ is_tail ch = true) ↔
      p = (s.tail_row, s.tail_col))
    (hpath : first_head_at g (s.tail_row, s.tail_col) n (s.head_row, s.head_col) = true)
    (hhd : get_board_at g s.head_row s.head_col = some hd) (hdir : hd ∈ ['W', 'A', 'S', 'D'])
    (hlive : s.live = (hd != DEAD_SNAKE))
    (hT : get_board_at g (get_next_row s.head_row hd) (get_next_col s.head_col hd) = some sq)
    (hsq : is_snake sq = false)
    (hsn : g1.snakes = [⟨s.tail_row, s.tail_col, get_next_row s.head_row hd,
      get_next_col s.head_col hd, s.live⟩])
    (hcell : ∀ r c, get_board_at g1 r c =
      if r = s.head_row ∧ c = s.head_col then some (head_to_body hd)
      else if r = get_next_row s.head_row hd ∧ c = get_next_col s.head_col hd then some hd
      else get_board_at g r c)
    (fuel : Nat) (hfuel : n + 1 < fuel) : initialize_snakes fuel g1 = .ok g1 := by
  obtain ⟨t, ht, htt⟩ := (htails (s.tail_row, s.tail_col)).mpr rfl
  have hhh : is_head hd = true := by
    simp only [List.mem_cons, List.mem_singleton, List.not_mem_nil, or_false] at hdir
    rcases hdir with e | e | e | e <;> subst e <;> decide
  have hth : ¬(s.tail_row = s.head_row ∧ s.tail_col = s.head_col) := by
    rintro ⟨e1, e2⟩
    rw [e1, e2, hhd] at ht
    rw [← Option.some.inj ht, is_head_not_tail hhh] at htt
    exact absurd htt (by decide)
  have hTh : ¬(get_next_row s.head_row hd = s.head_row ∧
      get_next_col s.head_col hd = s.head_col) :=
    next_ne_self_of_move _ _ (by
      simp only [List.mem_cons, List.mem_singleton, List.not_mem_nil, or_false] at hdir ⊢
      rcases hdir with e | e | e | e <;> subst e <;> decide)
  have htT : ¬(s.tail_row = get_next_row s.head_row hd ∧
      s.tail_col = get_next_col s.head_col hd) := by
    rintro ⟨e1, e2⟩
    rw [e1, e2, hT] at ht
    have := is_snake_of_tail (is_tail_mem htt)
    rw [← Option.some.inj ht, hsq] at this
    exact absurd this (by decide)
  have hTfix : next_cell g (get_next_row s.head_row hd, get_next_col s.head_col hd) =
      some (get_next_row s.head_row hd, get_next_col s.head_col hd) := by
    have hstill : sq ∉ ['w', 'a', 's', 'd', '^', '<', 'v', '>', 'W', 'A', 'S', 'D'] :=
      fun e => not_snake_absurd (is_snake_of_move e) hsq
    obtain ⟨e1, e2⟩ := next_self_of_still (get_next_row s.head_row hd)
      (get_next_col s.head_col hd) hstill
    rw [next_cell_eq hT, e1, e2]
  have hgT : get_board_at g1 (get_next_row s.head_row hd) (get_next_col s.head_col hd) =
      some hd := by
    rw [hcell, if_neg hTh, if_pos ⟨rfl, rfl⟩]
  have hgh : get_board_at g1 s.head_row s.head_col = some (head_to_body hd) := by
    rw [hcell, if_pos ⟨rfl, rfl⟩]
  refine initialize_snakes_single (d := hd) (n := n + 1) hsn ?_ ?_ hgT hlive fuel hfuel
  · intro p
    rw [hcell]
    split
    · rename_i hp
      constructor
      · rintro ⟨ch, e, hch⟩
        rw [← Option.some.inj e] at hch
        have := is_snake_of_body (head_to_body_mem hdir)
        have h2 := is_tail_mem hch
        have h3 := head_to_body_mem hdir
        generalize head_to_body hd = x at h2 h3
        simp only [List.mem_cons, List.mem_singleton, List.not_mem_nil, or_false] at h2 h3
        rcases h3 with e | e | e | e <;> subst e <;> simp at h2
      · intro e
        rw [e] at hp
        exact absurd hp hth
    · split
      · rename_i hp
        constructor
        · rintro ⟨ch, e, hch⟩
          rw [← Option.some.inj e, is_head_not_tail hhh] at hch
          exact absurd hch (by decide)
        · intro e
          rw [e] at hp
          exact absurd hp htT
      · exact htails p
  · refine path_extend hpath (path_cong_of_unchanged hpath ?_) ⟨?_, ?_⟩ ?_
    · intro m hm q hq
      have hq1 : q ≠ (get_next_row s.head_row hd, get_next_col s.head_col hd) := by
        intro e
        exact path_not_still hpath hm hq (by rw [e]; exact hTfix)
      rw [hcell, if_neg (pair_ne (path_ne_head hpath hm hq)), if_neg (pair_ne hq1)]
    · rw [next_cell_eq hgh, get_next_row_head_to_body _ hdir, get_next_col_head_to_body _ hdir]
    · rw [holds_eq hgh]
      have h3 := head_to_body_mem hdir
      generalize head_to_body hd = x at h3
      simp only [List.mem_cons, List.mem_singleton, List.not_mem_nil, or_false] at h3
      rcases h3 with e | e | e | e <;> subst e <;> decide
    · rw [holds_eq hgT]; exact hhh

/-- The path from the tail, seen from the cell ahead of the tail. -/
theorem path_from_next {g : game_t} {s : snake_t} {n : Nat} {t : Char} {p : Nat × Nat}
    (hpath : first_head_at g (s.tail_row, s.tail_col) n p = true)
    (ht : get_board_at g s.tail_row s.tail_col = some t) (htt : is_tail t = true) :
    ∃ k, n = k + 1 ∧
      first_head_at g (get_next_row s.tail_row t, get_next_col s.tail_col t) k p = true := by
  cases n with
  | zero =>
    obtain ⟨-, e⟩ := (first_head_at_zero ht p).mp hpath
    rw [is_tail_not_head htt] at e
    exact absurd e (by decide)
  | succ k =>
    rw [first_head_at_succ ht] at hpath
    simp only [Bool.and_eq_true] at hpath
    exact ⟨k, rfl, hpath.2⟩

/-- In a game rebuilt from its board with one snake, the cell ahead of the tail
is the head cell or holds a body glyph. -/
theorem cell_ahead_of_tail {g : game_t} {s : snake_t} {n : Nat} {t : Char}
    (htails : ∀ p : Nat × Nat, (∃ ch, get_board_at g p.1 p.2 = some ch ∧ is_tail ch = true) ↔
      p = (s.tail_row, s.tail_col))
    (hpath : first_head_at g (s.tail_row, s.tail_col) n (s.head_row, s.head_col) = true)
    (ht : get_board_at g s.tail_row s.tail_col = some t) (htt : is_tail t = true) :
    ∃ b, (get_next_row s.tail_row t = s.head_row ∧ get_next_col s.tail_col t = s.head_col) ∨
      (get_board_at g (get_next_row s.tail_row t) (get_next_col s.tail_col t) = some b ∧
        b ∈ ['^', '<', 'v', '>']) := by
  obtain ⟨k, -, hk⟩ := path_from_next hpath ht htt
  obtain ⟨b, hb⟩ := first_head_at_start hk
  refine ⟨b, ?_⟩
  cases k with
  | zero =>
    obtain ⟨e, -⟩ := (first_head_at_zero hb _).mp hk
    left
    exact ⟨(congrArg Prod.fst e).symm, (congrArg Prod.snd e).symm⟩
  | succ j =>
    right
    refine ⟨hb, ?_⟩
    have hnh : is_head b = false := by
      rw [first_head_at_succ hb] at hk
      simp only [Bool.and_eq_true, Bool.not_eq_true'] at hk
      exact hk.1
    have hmove : b ∈ ['w', 'a', 's', 'd', '^', '<', 'v', '>', 'W', 'A', 'S', 'D'] := by
      by_contra hstill
      obtain ⟨e1, e2⟩ := next_self_of_still (get_next_row s.tail_row t)
        (get_next_col s.tail_col t) hstill
      refine path_not_still hk (Nat.succ_pos j) (q := (get_next_row s.tail_row t,
        get_next_col s.tail_col t)) rfl ?_
      rw [next_cell_eq hb, e1, e2]
    have hnt : is_tail b = false := by
      cases e : is_tail b with
      | false => rfl
      | true =>
        exfalso
        have := (htails (get_next_row s.tail_row t, get_next_col s.tail_col t)).mp ⟨b, hb, e⟩
        have e1 := congrArg Prod.fst this
        have e2 := congrArg Prod.snd this
        refine next_ne_self_of_move s.tail_row s.tail_col (c := t) ?_ ⟨e1, e2⟩
        have h4 := is_tail_mem htt
        simp only [List.mem_cons, List.mem_singleton, List.not_mem_nil, or_false] at h4 ⊢
        rcases h4 with e | e | e | e <;> subst e <;> decide
    exact is_body_of_move hmove hnh hnt

theorem is_tail_of_mem {c : Char} (h : c ∈ ['w', 'a', 's', 'd']) : is_tail c = true := by
  simp only [List.mem_cons, List.mem_singleton, List.not_mem_nil, or_false] at h
  rcases h with e | e | e | e <;> subst e <;> decide

theorem body_not_head {c : Char} (h : c ∈ ['^', '<', 'v', '>']) : is_head c = false := by
  simp only [List.mem_cons, List.mem_singleton, List.not_mem_nil, or_false] at h
  rcases h with e | e | e | e <;> subst e <;> decide

theorem body_not_tail {c : Char} (h : c ∈ ['^', '<', 'v', '>']) : is_tail c = false := by
  simp only [List.mem_cons, List.mem_singleton, List.not_mem_nil, or_false] at h
  rcases h with e | e | e | e <;> subst e <;> decide

theorem is_head_of_mem {c : Char} (h : c ∈ ['W', 'A', 'S', 'D']) : is_head c = true := by
  simp only [List.mem_cons, List.mem_singleton, List.not_mem_nil, or_false] at h
  rcases h with e | e | e | e <;> subst e <;> decide

/-- After a plain move the record is again the one rebuilt from the board. -/
theorem rebuild_after_move {g g1 : game_t} {s : snake_t} {n : Nat} {hd sq t b : Char}
    (hs : g.snakes[0]? = some s)
    (htails : ∀ p : Nat × Nat, (∃ ch, get_board_at g p.1 p.2 = some ch ∧ is_tail ch = true) ↔
      p = (s.tail_row, s.tail_col))
    (hpath : first_head_at g (s.tail_row, s.tail_col) n (s.head_row, s.head_col) = true)
    (hhd : get_board_at g s.head_row s.head_col = some hd) (hdir : hd ∈ ['W', 'A', 'S', 'D'])
    (hlive : s.live = (hd != DEAD_SNAKE))
    (hT : get_board_at g (get_next_row s.head_row hd) (get_next_col s.head_col hd) = some sq)
    (hsq : is_snake sq = false)
    (ht : get_board_at g s.tail_row s.tail_col = some t) (htt : is_tail t = true)
    (hN : (get_next_row s.tail_row t = s.head_row ∧ get_next_col s.tail_col t = s.head_col) ∨
      (get_board_at g (get_next_row s.tail_row t) (get_next_col s.tail_col t) = some b ∧
        b ∈ ['^', '<', 'v', '>']))
    (hsn : g1.snakes = [⟨get_next_row s.tail_row t, get_next_col s.tail_col t,
      get_next_row s.head_row hd, get_next_col s.head_col hd, s.live⟩])
    (hcell : ∀ r c, get_board_at g1 r c =
      if r = get_next_row s.tail_row t ∧ c = get_next_col s.tail_col t then
        some (body_to_tail
          (if get_next_row s.tail_row t = s.head_row ∧ get_next_col s.tail_col t = s.head_col
            then head_to_body hd else b))
      else if r = s.tail_row ∧ c = s.tail_col then some ' '
      else if r = s.head_row ∧ c = s.head_col then some (head_to_body hd)
      else if r = get_next_row s.head_row hd ∧ c = get_next_col s.head_col hd then some hd
      else get_board_at g r c)
    (fuel : Nat) (hfuel : n < fuel) : initialize_snakes fuel g1 = .ok g1 := by
  obtain ⟨hTh, hth, htT, hNT, hNt⟩ := plain_move_distinct hs hhd hdir hT hsq ht hN
  obtain ⟨k, hk, hpathN⟩ := path_from_next hpath ht htt
  have hhh := is_head_of_mem hdir
  -- the glyph found ahead of the tail is a body glyph
  have hb1 : (if get_next_row s.tail_row t = s.head_row ∧
      get_next_col s.tail_col t = s.head_col then head_to_body hd else b) ∈
      ['^', '<', 'v', '>'] := by
    rcases hN with hN | ⟨-, hb⟩
    · rw [if_pos hN]; exact head_to_body_mem hdir
    · split
      · exact head_to_body_mem hdir
      · exact hb
  have hTfix : next_cell g (get_next_row s.head_row hd, get_next_col s.head_col hd) =
      some (get_next_row s.head_row hd, get_next_col s.head_col hd) := by
    have hstill : sq ∉ ['w', 'a', 's', 'd', '^', '<', 'v', '>', 'W', 'A', 'S', 'D'] :=
      fun e => not_snake_absurd (is_snake_of_move e) hsq
    obtain ⟨e1, e2⟩ := next_self_of_still (get_next_row s.head_row hd)
      (get_next_col s.head_col hd) hstill
    rw [next_cell_eq hT, e1, e2]
  have hgN : get_board_at g1 (get_next_row s.tail_row t) (get_next_col s.tail_col t) =
      some (body_to_tail
        (if get_next_row s.tail_row t = s.head_row ∧ get_next_col s.tail_col t = s.head_col
          then head_to_body hd else b)) := by
    rw [hcell, if_pos ⟨rfl, rfl⟩]
  have hgT : get_board_at g1 (get_next_row s.head_row hd) (get_next_col s.head_col hd) =
      some hd := by
    rw [hcell, if_neg (fun e => hNT ⟨e.1.symm, e.2.symm⟩),
      if_neg (fun e => htT ⟨e.1.symm, e.2.symm⟩), if_neg hTh, if_pos ⟨rfl, rfl⟩]
  -- the glyph at the old head cell after the move: no head glyph, same direction
  have hgh : ∃ c, get_board_at g1 s.head_row s.head_col = some c ∧ is_head c = false ∧
      get_next_row s.head_row c = get_next_row s.head_row hd ∧
      get_next_col s.head_col c = get_next_col s.head_col hd := by
    by_cases hNh : get_next_row s.tail_row t = s.head_row ∧
        get_next_col s.tail_col t = s.head_col
    · refine ⟨body_to_tail (head_to_body hd), ?_, ?_, ?_, ?_⟩
      · rw [hcell, if_pos ⟨hNh.1.symm, hNh.2.symm⟩, if_pos hNh]
      · exact is_tail_not_head (is_tail_of_mem (body_to_tail_mem (head_to_body_mem hdir)))
      · rw [get_next_row_body_to_tail _ (head_to_body_mem hdir),
          get_next_row_head_to_body _ hdir]
      · rw [get_next_col_body_to_tail _ (head_to_body_mem hdir),
          get_next_col_head_to_body _ hdir]
    · refine ⟨head_to_body hd, ?_, body_not_head (head_to_body_mem hdir),
        get_next_row_head_to_body _ hdir, get_next_col_head_to_body _ hdir⟩
      rw [hcell, if_neg (fun e => hNh ⟨e.1.symm, e.2.symm⟩),
        if_neg (fun e => hth ⟨e.1.symm, e.2.symm⟩), if_pos ⟨rfl, rfl⟩]
  obtain ⟨ch, hch, hchh, hchr, hchc⟩ := hgh
  have htails1 : ∀ p : Nat × Nat,
      (∃ ch, get_board_at g1 p.1 p.2 = some ch ∧ is_tail ch = true) ↔
        p = (get_next_row s.tail_row t, get_next_col s.tail_col t) := by
    -- the only tail glyph is at the cell ahead of the old tail
    intro p
    rw [hcell]
    split
    · rename_i hp
      constructor
      · intro _
        exact Prod.ext hp.1 hp.2
      · intro _
        exact ⟨_, rfl, is_tail_of_mem (body_to_tail_mem hb1)⟩
    · rename_i hpN
      have hpne : p ≠ (get_next_row s.tail_row t, get_next_col s.tail_col t) :=
        fun e => hpN ⟨congrArg Prod.fst e, congrArg Prod.snd e⟩
      split
      · constructor
        · rintro ⟨c, e, hc⟩
          rw [← Option.some.inj e] at hc
          exact absurd hc (by decide)
        · intro e; exact absurd e hpne
      · rename_i hpt
        split
        · constructor
          · rintro ⟨c, e, hc⟩
            rw [← Option.some.inj e, body_not_tail (head_to_body_mem hdir)] at hc
            exact absurd hc (by decide)
          · intro e; exact absurd e hpne
        · split
          · constructor
            · rintro ⟨c, e, hc⟩
              rw [← Option.some.inj e, is_head_not_tail hhh] at hc
              exact absurd hc (by decide)
            · intro e; exact absurd e hpne
          · constructor
            · intro h
              have := (htails p).mp h
              exact absurd ⟨congrArg Prod.fst this, congrArg Prod.snd this⟩ hpt
            · intro e; exact absurd e hpne
  have hpath1 : first_head_at g1 (get_next_row s.tail_row t, get_next_col s.tail_col t) (k + 1)
      (get_next_row s.head_row hd, get_next_col s.head_col hd) = true := by
    -- the path from the new tail
    refine path_extend hpathN ?_ ⟨?_, ?_⟩ ?_
    · intro m hm q hq
      have hqh := pair_ne (path_ne_head hpathN hm hq)
      have hqT : ¬(q.1 = get_next_row s.head_row hd ∧ q.2 = get_next_col s.head_col hd) := by
        rintro ⟨e1, e2⟩
        have eq : q = (get_next_row s.head_row hd, get_next_col s.head_col hd) :=
          Prod.ext e1 e2
        exact path_not_still hpathN hm hq (by rw [eq]; exact hTfix)
      have hqt : ¬(q.1 = s.tail_row ∧ q.2 = s.tail_col) := by
        rintro ⟨e1, e2⟩
        refine path_ne_start hpath (Nat.succ_pos m) (by omega) ?_
        have e : trace g (s.tail_row, s.tail_col) (m + 1) =
            trace g (get_next_row s.tail_row t, get_next_col s.tail_col t) m := by
          rw [trace_succ_left, next_cell_eq ht]
        rw [e, hq]
        exact congrArg some (Prod.ext e1 e2)
      obtain ⟨-, -, h3⟩ := (first_head_at_iff _ _ _ _).mp hpathN
      by_cases hqN : q.1 = get_next_row s.tail_row t ∧ q.2 = get_next_col s.tail_col t
      · have hNh : ¬(get_next_row s.tail_row t = s.head_row ∧
            get_next_col s.tail_col t = s.head_col) :=
          fun e => hqh ⟨hqN.1.trans e.1, hqN.2.trans e.2⟩
        rcases hN with hN | ⟨hgb, hb⟩
        · exact absurd hN hNh
        · have eq : q = (get_next_row s.tail_row t, get_next_col s.tail_col t) :=
            Prod.ext hqN.1 hqN.2
          rw [eq]
          rw [if_neg hNh] at hgN
          refine ⟨?_, ?_⟩
          · rw [next_cell_eq hgN, next_cell_eq hgb, get_next_row_body_to_tail _ hb,
              get_next_col_body_to_tail _ hb]
          · rw [holds_eq hgN]
            exact is_tail_not_head (is_tail_of_mem (body_to_tail_mem hb))
      · have hsame : get_board_at g1 q.1 q.2 = get_board_at g q.1 q.2 := by
          rw [hcell, if_neg hqN, if_neg hqt, if_neg hqh, if_neg hqT]
        obtain ⟨e1, e2⟩ := same_cell hsame is_head
        exact ⟨e1, by rw [e2]; exact h3 m hm q hq⟩
    · rw [next_cell_eq hch, hchr, hchc]
    · rw [holds_eq hch]; exact hchh
    · rw [holds_eq hgT]; exact hhh
  exact initialize_snakes_single (d := hd) (n := k + 1) hsn htails1 hpath1 hgT hlive fuel
    (by omega)

/-- C14 (records are rebuildable from the grid). In a game of one snake whose
stored record is the one `initialize_snakes` computes from its board, and whose
look-ahead cell lies in the grid, one tick with a food placer that does nothing
succeeds and the stored record is again the one `initialize_snakes` computes
from the resulting board (for every fuel above some bound), whether the tick is
a death, a growth or a plain move. -/
theorem records_rebuildable (g : game_t) (s : snake_t) (fuel : Nat) (sq : Char)
    (hone : g.snakes = [s])
    (hinit : initialize_snakes fuel g = .ok g)
    (hsq : next_square g 0 = some sq) :
    ∃ g1 N, update_game no_food g = some g1 ∧
      ∀ fuel1, N ≤ fuel1 → initialize_snakes fuel1 g1 = .ok g1 := by
  obtain ⟨htails, n, hd, hpath, hhd, hhh, hlive⟩ := initialize_snakes_single_inv hone hinit
  have hs : g.snakes[0]? = some s := by rw [hone]; rfl
  have hT : get_board_at g (get_next_row s.head_row hd) (get_next_col s.head_col hd) =
      some sq := by rw [← next_square_eq hs hhd, hsq]
  obtain ⟨t, ht, htt⟩ := (htails (s.tail_row, s.tail_col)).mpr rfl
  rw [update_game_single no_food g (by rw [hone]; rfl)]
  by_cases hdead : (is_snake sq || sq == WALL_CHAR) = true
  · -- death
    obtain ⟨g1, hg1, hsn, hcell⟩ := update_snake_when_dead_spec hs hhd
    refine ⟨g1, n + 1, ?_, ?_⟩
    · simp only [update_game_body, hsq, hdead, if_true, hg1]
    · intro fuel1 hf
      exact rebuild_after_death htails hpath hhd hhh (by rw [hsn, hone]; rfl) hcell fuel1
        (by omega)
  · have hns : is_snake sq = false := by
      cases e : is_snake sq with
      | false => rfl
      | true => exact absurd (by simp [e]) hdead
    have hdir : hd ∈ ['W', 'A', 'S', 'D'] := by
      rcases is_head_mem_or_dead hhh with e | e
      · exact e
      · exfalso
        subst e
        have e1 : get_board_at g (get_next_row s.head_row 'x') (get_next_col s.head_col 'x') =
            some 'x' := hhd
        rw [e1] at hT
        rw [← Option.some.inj hT] at hns
        exact absurd hns (by decide)
    by_cases hfruit : (sq == FRUIT_CHAR) = true
    · -- growth
      obtain ⟨ga, hga, hsa, hca⟩ := update_head_spec hs hhd hT
      refine ⟨ga, n + 2, ?_, ?_⟩
      · simp only [update_game_body, hsq, hdead, hfruit, if_true, update_snake_when_eat_fruit,
          hga]
        rfl
      · intro fuel1 hf
        exact rebuild_after_growth htails hpath hhd hdir hlive hT hns
          (by rw [hsa, hone]; rfl) hca fuel1 (by omega)
    · -- plain move
      obtain ⟨b, hN⟩ := cell_ahead_of_tail htails hpath ht htt
      obtain ⟨g1, hg1, hsn, hcell, -⟩ := update_snake_spec hs hhd hdir hT hns ht hN
      refine ⟨g1, n + 1, ?_, ?_⟩
      · simp only [update_game_body, hsq, hdead, hfruit, update_snake]
        exact hg1
      · intro fuel1 hf
        exact rebuild_after_move hs htails hpath hhd hdir hlive hT hns ht htt hN
          (by rw [hsn, hone]; rfl) hcell fuel1 (by omega)

/-- Witness of `records_rebuildable`: the snake `d>D` with an empty cell ahead,
whose record is the one rebuilt from the board. -/
theorem records_rebuildable_witness :
    ∃ g1 N, update_game no_food three_cell_game = some g1 ∧
      ∀ fuel1, N ≤ fuel1 → initialize_snakes fuel1 g1 = .ok g1 :=
  records_rebuildable three_cell_game ⟨0, 0, 0, 2, true⟩ 3 ' ' rfl (by decide) (by decide)

/-- The default game is a game whose stored record is the one rebuilt from its
board. -/
theorem default_game_rebuilt :
    ∃ g0, create_default_game = some g0 ∧ initialize_snakes 3 g0 = .ok g0 :=
  ⟨create_default_game.get (by decide), by simp, by decide⟩

/-! ## Look-ahead cells that hold an unknown glyph -/

theorem is_snake_mem {c : Char} (h : is_snake c = true) :
    c ∈ ['w', 'a', 's', 'd', '^', '<', 'v', '>', 'W', 'A', 'S', 'D', 'x'] := by
  simp only [is_snake, Bool.or_eq_true] at h
  rcases h with (h | h) | h
  · rcases is_head_mem_or_dead h with e | e
    · simp only [List.mem_cons, List.mem_singleton, List.not_mem_nil, or_false] at e
      rcases e with e | e | e | e <;> subst e <;> decide
    · subst e; decide
  · have e := is_tail_mem h
    simp only [List.mem_cons, List.mem_singleton, List.not_mem_nil, or_false] at e
    rcases e with e | e | e | e <;> subst e <;> decide
  · have e := is_body_mem h
    simp only [List.mem_cons, List.mem_singleton, List.not_mem_nil, or_false] at e
    rcases e with e | e | e | e <;> subst e <;> decide

/-- C21 (unknown glyphs are treated as empty). At the moment the tick reaches a
live snake of index `snum` (state `gk`; head cell holding a directional head
glyph `h`, cell `N` ahead of the tail being the old head cell or holding a body
glyph `b`), if its look-ahead cell `T` holds any character `x` other than the
wall glyph, the fruit glyph and the 13 snake glyphs, the loop body is the plain
move `update_snake`, whatever the food placer, which is not called: `h`
overwrites `x` at `T`, the tail advances by one cell (old tail cell emptied, `N`
turned into a tail glyph, tail coordinate `N`), the head coordinate is `T`, the
record stays alive, and every other record and board cell is unchanged. -/
theorem unknown_glyph_plain_move (f : List (List Char) → List (List Char)) (g gk : game_t)
    (snum : Nat) (s : snake_t) (h t b x : Char)
    (hlt : snum < g.num_snakes)
    (hpre : update_game_from f snum 0 g = some gk)
    (hs : gk.snakes[snum]? = some s)
    (hlive : s.live = true)
    (hh : get_board_at gk s.head_row s.head_col = some h)
    (hdir : h ∈ ['W', 'A', 'S', 'D'])
    (hT : get_board_at gk (get_next_row s.head_row h) (get_next_col s.head_col h) = some x)
    (hwall : x ≠ '#') (hfruit : x ≠ '*')
    (hx : x ∉ ['w', 'a', 's', 'd', '^', '<', 'v', '>', 'W', 'A', 'S', 'D', 'x'])
    (ht : get_board_at gk s.tail_row s.tail_col = some t)
    (hN : (get_next_row s.tail_row t = s.head_row ∧ get_next_col s.tail_col t = s.head_col) ∨
      (get_board_at gk (get_next_row s.tail_row t) (get_next_col s.tail_col t) = some b ∧
        b ∈ ['^', '<', 'v', '>'])) :
    ∃ g1, update_snake gk snum = some g1 ∧
      (∀ f2, update_game_body f2 gk snum = some g1) ∧
      update_game f g = update_game_from f (g.num_snakes - (snum + 1)) (snum + 1) g1 ∧
      get_board_at g1 (get_next_row s.head_row h) (get_next_col s.head_col h) = some h ∧
      get_board_at g1 s.tail_row s.tail_col = some ' ' ∧
      get_board_at g1 (get_next_row s.tail_row t) (get_next_col s.tail_col t) =
        some (body_to_tail
          (if get_next_row s.tail_row t = s.head_row ∧ get_next_col s.tail_col t = s.head_col
            then head_to_body h else b)) ∧
      g1.snakes = gk.snakes.set snum
        ⟨get_next_row s.tail_row t, get_next_col s.tail_col t,
          get_next_row s.head_row h, get_next_col s.head_col h, true⟩ ∧
      g1.snakes[snum]? = some
        ⟨get_next_row s.tail_row t, get_next_col s.tail_col t,
          get_next_row s.head_row h, get_next_col s.head_col h, true⟩ ∧
      ∀ r c, ¬(r = get_next_row s.head_row h ∧ c = get_next_col s.head_col h) →
        ¬(r = s.head_row ∧ c = s.head_col) →
        ¬(r = get_next_row s.tail_row t ∧ c = get_next_col s.tail_col t) →
        ¬(r = s.tail_row ∧ c = s.tail_col) →
        get_board_at g1 r c = get_board_at gk r c := by
  have hns : is_snake x = false := by
    cases e : is_snake x with
    | false => rfl
    | true => exact absurd (is_snake_mem e) hx
  obtain ⟨hTh, hth, htT, hNT, hNt⟩ := plain_move_distinct hs hh hdir hT hns ht hN
  obtain ⟨g1, hg1, hsn, hcell, -⟩ := update_snake_spec hs hh hdir hT hns ht hN
  rw [hlive] at hsn
  have hsq : next_square gk snum = some x := by rw [next_square_eq hs hh, hT]
  have hbody : ∀ f2, update_game_body f2 gk snum = some g1 := by
    intro f2
    simp only [update_game_body, hsq]
    rw [if_neg (by simp [hns, WALL_CHAR, hwall]), if_neg (by simp [FRUIT_CHAR, hfruit])]
    exact hg1
  refine ⟨g1, hg1, hbody, ?_, ?_, ?_, ?_, hsn, ?_, ?_⟩
  · rw [update_game_split f g gk snum hlt hpre, hbody f]; rfl
  · rw [hcell, if_neg (fun e => hNT ⟨e.1.symm, e.2.symm⟩),
      if_neg (fun e => htT ⟨e.1.symm, e.2.symm⟩), if_neg hTh, if_pos ⟨rfl, rfl⟩]
  · rw [hcell, if_neg (fun e => hNt ⟨e.1.symm, e.2.symm⟩), if_pos ⟨rfl, rfl⟩]
  · rw [hcell, if_pos ⟨rfl, rfl⟩]
  · rw [hsn, List.getElem?_set_self (getElem?_lt_length hs)]
  · intro r c h1 h2 h3 h4
    rw [hcell, if_neg h3, if_neg h4, if_neg h2, if_neg h1]

/-- Witness of `unknown_glyph_plain_move`: the snake `dD` whose look-ahead cell
is the line feed that ends its row; the head glyph overwrites the line feed. -/
theorem unknown_glyph_plain_move_witness :
    ∃ g1, update_snake line_feed_game 0 = some g1 ∧
      update_game_body (fun b => b ++ [['*', LF]]) line_feed_game 0 = some g1 ∧
      get_board_at g1 0 2 = some 'D' ∧ get_board_at g1 0 0 = some ' ' ∧
      get_board_at g1 0 1 = some 'd' ∧ g1.snakes = [⟨0, 1, 0, 2, true⟩] := by
  obtain ⟨g1, h1, h2, -, h4, h5, h6, h7, -⟩ :=
    unknown_glyph_plain_move no_food line_feed_game line_feed_game 0 ⟨0, 0, 0, 1, true⟩
      'D' 'd' ' ' LF (by decide) rfl rfl rfl rfl (by decide) rfl (by decide) (by decide)
      (by decide) rfl (Or.inl ⟨rfl, rfl⟩)
  exact ⟨g1, h1, h2 _, h4, h5, h6, h7⟩

end Snake
